import Mathlib

/-!
# go-lua: value stack, upvalues, call frames and the call/return protocol

A shallow embedding of `src/stack.go`, `src/config.go` and the parts of
`src/types.go` they use.

Conventions of the embedding.

* Go `int` is `Int`.  Every theorem below keeps its operands inside the index
  range of the value stack, where 64-bit arithmetic does not wrap.
* Heap objects that the Go code reaches through pointers (`*upValue`,
  `*luaClosure`, `*prototype`) live in lists of the state; a pointer is the
  index of the object in its list, so pointer identity is index equality.
* The frames linked through `previous_`/`next_` are kept in chain order,
  starting with the base frame: `previous()` of the frame at depth `d + 1` is
  the frame at depth `d`, `next()` of the frame at depth `d` is the frame at
  depth `d + 1` when there is one.  Only `pushLuaFrame`, `pushGoFrame` and
  `push(nil)` write these links, and they keep that shape.
* A Go panic does not roll memory back, so a failing run reports the state it
  stopped in.
* A slice expression on the stack is checked against the length of the stack:
  its capacity is taken to be its length.
* What lies outside the listed sources (`assert`, the hook callback, host
  functions, the tag-method lookup, instruction decoding) is a parameter of
  the embedding, collected in `Env`.
-/

namespace GoLua

/-! ## config.go -/

def maxStack : Int := 1000000

def maxCallCount : Int := 200

def errorStackSize : Int := maxStack + 200

def extraStack : Int := 5

/-- Modelled from the spec: the minimum per-call stack headroom. `MinStack` is
declared outside the listed sources; 20 is the value of upstream Lua. -/
def MinStack : Int := 20

def basicStackSize : Int := 2 * MinStack

/-- Modelled from the spec: the sentinel result count meaning all results
(`MultipleReturns`, -1 upstream); declared outside the listed sources. -/
def MultipleReturns : Int := -1

/-- Modelled from the spec: the hook event kinds, declared outside the listed
sources, with the numbering of upstream Lua. -/
def HookCall : Int := 0

def HookReturn : Int := 1

def HookLine : Int := 2

def HookTailCall : Int := 4

/-- Modelled from the spec: the per-event bit masks of the hook mask,
`1 << event`, declared outside the listed sources. -/
def MaskCall : Nat := 1

def MaskReturn : Nat := 2

def MaskLine : Nat := 4

/-- Modelled from the spec: the frame status flags, declared outside the
listed sources, with the bit positions of upstream Lua. -/
def callStatusLua : Nat := 1

def callStatusHooked : Nat := 2

def callStatusTail : Nat := 64

/-! ## types.go: the value model -/

/-- The dynamic type `value` (`interface{}`).  A float64 is kept as its bit
pattern; tables, closures and user data are references. -/
inductive Value where
  | nil
  | bool (b : Bool)
  | number (bits : Nat)
  | string (s : String)
  | table (ref : Nat)
  | luaClosure (ref : Nat)
  | goClosure (ref : Nat)
  | userData (ref : Nat)
  deriving DecidableEq, Repr

structure UpValueDesc where
  isLocal : Bool
  index : Int
  deriving DecidableEq, Repr

/-- The fields of `prototype` read by the stack code.  `cache` points to a
script closure. -/
structure Prototype where
  code : List Nat
  upValues : List UpValueDesc
  cache : Option Nat
  parameterCount : Int
  maxStackSize : Int
  isVarArg : Bool
  deriving DecidableEq, Repr

/-! ## stack.go: data -/

/-- The `home` of an upvalue: a `stackLocation` of this state while open, the
owned value once closed. -/
inductive Home where
  | stackLocation (index : Int)
  | value (v : Value)
  deriving DecidableEq, Repr

structure UpValue where
  home : Home
  deriving DecidableEq, Repr

/-- A script closure: its prototype and its upvalue cells, nil until set. -/
structure LuaClosure where
  prototype : Nat
  upValues : List (Option Nat)
  deriving DecidableEq, Repr

/-- A sub-slice of the value stack: the backing array it points into, its
offset there and its length. -/
structure Window where
  arr : Nat
  off : Int
  len : Int
  deriving DecidableEq, Repr

structure CommonCallInfo where
  function_ : Int
  top_ : Int
  resultCount : Int
  callStatus_ : Nat
  deriving DecidableEq, Repr

structure LuaCallInfo extends CommonCallInfo where
  frame : Window
  savedPC : Int
  code : List Nat
  deriving DecidableEq, Repr

structure GoCallInfo extends CommonCallInfo where
  context : Int
  oldAllowHook : Bool
  status : Nat
  deriving DecidableEq, Repr

inductive CallInfo where
  | lua (ci : LuaCallInfo)
  | go (ci : GoCallInfo)
  deriving DecidableEq, Repr

/-- The fields of `state` used by the stack code.  `stackArr` names the
backing array of `stack`; `upValues` is the linked list of open upvalues, head
first; `cells`, `closures`, `protos` are the heaps; `frames` is the frame chain
from the base frame on and `callInfo` the depth of the current frame. -/
structure State where
  stack : List Value
  stackArr : Nat
  stackLast : Int
  top : Int
  upValues : List Nat
  cells : List UpValue
  closures : List LuaClosure
  protos : List Prototype
  frames : List CallInfo
  callInfo : Option Nat
  hookMask : Nat
  allowHook : Bool
  oldPC : Int
  nestedGoCallCount : Int
  nonYieldableCallCount : Int
  deriving DecidableEq, Repr

/-- The ways a run stops early: the errors raised by the code and the Go
runtime panics. -/
inductive Err where
  | typeErrorCall (v : Value)
  | stackOverflow
  | goStackOverflow
  | errorError
  | closeClosed
  | frameIndexRange
  | indexOutOfRange
  | sliceBounds
  | typeAssertion
  | nilDereference
  | makeSlice
  | assertion
  | apiCheck
  | hostError
  | outOfFuel
  deriving DecidableEq, Repr

inductive Outcome (α : Type) where
  | ok (a : α) (s : State)
  | panic (e : Err) (s : State)
  deriving DecidableEq, Repr

/-- The state a run ends in, returned or failed. -/
def Outcome.state {α : Type} : Outcome α → State
  | .ok _ s => s
  | .panic _ s => s

/-- The value a run returns, `none` when it fails. -/
def Outcome.value {α : Type} : Outcome α → Option α
  | .ok a _ => some a
  | .panic _ _ => none

/-- The error a run fails with, `none` when it returns. -/
def Outcome.error {α : Type} : Outcome α → Option Err
  | .ok _ _ => none
  | .panic e _ => some e

/-- A method of `*state`. -/
def Exec (α : Type) : Type := State → Outcome α

def Exec.pure {α : Type} (a : α) : Exec α := fun s => .ok a s

def Exec.bind {α β : Type} (x : Exec α) (f : α → Exec β) : Exec β := fun s =>
  match x s with
  | .ok a s1 => f a s1
  | .panic e s1 => .panic e s1

instance : Monad Exec where
  pure := Exec.pure
  bind := Exec.bind

def panic {α : Type} (e : Err) : Exec α := fun s => .panic e s

def getState : Exec State := fun s => .ok s s

def modify (f : State → State) : Exec Unit := fun s => .ok () (f s)

/-! ## Go slices -/

/-- Indexing `xs[i]`; `none` when the index is out of range. -/
def idx {α : Type} (xs : List α) (i : Int) : Option α :=
  if 0 ≤ i then xs[i.toNat]? else none

/-- The bounds check of a slice expression `xs[a:b]` on a slice of length
`len`.  Go checks `b` against the capacity; the model keeps no capacity apart
from the length, so a state stands for a stack with `cap = len`, as `make`
leaves it, and the check is stricter than the code where `append` has left
spare capacity. -/
def sliceOk (len a b : Int) : Bool :=
  decide (0 ≤ a) && decide (a ≤ b) && decide (b ≤ len)

/-- The list with `mid` written over the positions from `a` on. -/
def splice {α : Type} (xs : List α) (a : Nat) (mid : List α) : List α :=
  xs.take a ++ mid ++ xs.drop (a + mid.length)

def readStack (i : Int) : Exec Value := fun s =>
  match idx s.stack i with
  | some v => .ok v s
  | none => .panic .indexOutOfRange s

def writeStack (i : Int) (v : Value) : Exec Unit := fun s =>
  if 0 ≤ i ∧ i < s.stack.length then
    .ok () { s with stack := s.stack.set i.toNat v }
  else .panic .indexOutOfRange s

/-- The builtin `copy(l.stack[d0:d1], l.stack[s0:s1])`: both slice expressions
are checked, then `min` of the two lengths is copied, as by memmove. -/
def copyStack (d0 d1 s0 s1 : Int) : Exec Unit := fun s =>
  if sliceOk s.stack.length d0 d1 && sliceOk s.stack.length s0 s1 then
    let n := (min (d1 - d0) (s1 - s0)).toNat
    .ok () { s with stack := splice s.stack d0.toNat ((s.stack.drop s0.toNat).take n) }
  else .panic .sliceBounds s

/-- The loop `xs := l.stack[a:b]; for i := range xs { xs[i] = nil }`. -/
def nilStack (a b : Int) : Exec Unit := fun s =>
  if sliceOk s.stack.length a b then
    .ok () { s with stack := splice s.stack a.toNat (List.replicate (b - a).toNat Value.nil) }
  else .panic .sliceBounds s

/-! ## Upvalues -/

def UpValue.isInStackAt (uv : UpValue) (level : Int) : Bool :=
  match uv.home with
  | .stackLocation index => decide (index = level)
  | .value _ => false

def UpValue.isInStackBelow (uv : UpValue) (level : Int) : Bool :=
  match uv.home with
  | .stackLocation index => decide (index < level)
  | .value _ => false

/-- Dereference of a `*upValue`. -/
def cell (uv : Nat) : Exec UpValue := fun s =>
  match s.cells[uv]? with
  | some c => .ok c s
  | none => .panic .nilDereference s

def setCell (uv : Nat) (h : Home) : Exec Unit :=
  modify fun s => { s with cells := s.cells.set uv ⟨h⟩ }

def newUpValue : Exec Nat := fun s =>
  .ok s.cells.length { s with cells := s.cells ++ [⟨.value .nil⟩] }

def UpValue.setValue (uv : Nat) (v : Value) : Exec Unit := do
  let c ← cell uv
  match c.home with
  | .stackLocation index => writeStack index v
  | .value _ => setCell uv (.value v)

def UpValue.value (uv : Nat) : Exec Value := do
  let c ← cell uv
  match c.home with
  | .stackLocation index => readStack index
  | .value v => pure v

def UpValue.close (uv : Nat) : Exec Unit := do
  let c ← cell uv
  match c.home with
  | .stackLocation index => do
      let v ← readStack index
      setCell uv (.value v)
  | .value _ => panic .closeClosed

def newUpValueAt (level : Int) : Exec Nat := fun s =>
  let uv := s.cells.length
  .ok uv { s with cells := s.cells ++ [⟨.stackLocation level⟩], upValues := uv :: s.upValues }

/-- The loop of `state.close` from the list node `e` on. -/
def closeFrom (level : Int) : List Nat → Exec Unit
  | [] => modify fun s => { s with upValues := [] }
  | e :: rest => do
      let c ← cell e
      if c.isInStackBelow level then
        modify fun s => { s with upValues := e :: rest }
      else do
        UpValue.close e
        closeFrom level rest

def close (level : Int) : Exec Unit := do
  let s ← getState
  closeFrom level s.upValues

/-- The loop of `findUpValue` from the list node `e` on. -/
def findFrom (level : Int) : List Nat → Exec Nat
  | [] => newUpValueAt level
  | e :: rest => do
      let c ← cell e
      if c.isInStackAt level then pure e else findFrom level rest

def findUpValue (level : Int) : Exec Nat := do
  let s ← getState
  findFrom level s.upValues

/-! ## Script closures -/

/-- Dereference of a `*luaClosure`. -/
def closureAt (c : Nat) : Exec LuaClosure := fun s =>
  match s.closures[c]? with
  | some cl => .ok cl s
  | none => .panic .nilDereference s

/-- Dereference of a `*prototype`. -/
def protoAt (p : Nat) : Exec Prototype := fun s =>
  match s.protos[p]? with
  | some pr => .ok pr s
  | none => .panic .nilDereference s

def LuaClosure.upValue (c : Nat) (i : Int) : Exec Value := do
  let cl ← closureAt c
  match idx cl.upValues i with
  | none => panic .indexOutOfRange
  | some none => panic .nilDereference
  | some (some uv) => UpValue.value uv

def LuaClosure.setUpValue (c : Nat) (i : Int) (v : Value) : Exec Unit := do
  let cl ← closureAt c
  match idx cl.upValues i with
  | none => panic .indexOutOfRange
  | some none => panic .nilDereference
  | some (some uv) => UpValue.setValue uv v

def LuaClosure.upValueCount (c : Nat) : Exec Int := do
  let cl ← closureAt c
  pure cl.upValues.length

def newLuaClosure (p : Nat) : Exec Nat := do
  let pr ← protoAt p
  let s ← getState
  modify fun s => { s with closures := s.closures ++ [⟨p, List.replicate pr.upValues.length none⟩] }
  pure s.closures.length

/-- The assignment `c.upValues[i] = uv`. -/
def setClosureUpValue (c i : Nat) (uv : Option Nat) : Exec Unit :=
  modify fun s =>
    match s.closures[c]? with
    | some cl => { s with closures := s.closures.set c { cl with upValues := cl.upValues.set i uv } }
    | none => s

/-- The loop of `newClosure` over the descriptors from position `i` on. -/
def bindUpValues (c : Nat) (upValues : List (Option Nat)) (base : Int) :
    Nat → List UpValueDesc → Exec Unit
  | _, [] => pure ()
  | i, uv :: rest => do
      (if uv.isLocal then do
        let cellRef ← findUpValue (base + uv.index)
        setClosureUpValue c i (some cellRef)
      else
        match idx upValues uv.index with
        | none => panic .indexOutOfRange
        | some x => setClosureUpValue c i x)
      bindUpValues c upValues base (i + 1) rest

def newClosure (p : Nat) (upValues : List (Option Nat)) (base : Int) : Exec Value := do
  let c ← newLuaClosure p
  modify fun s =>
    match s.protos[p]? with
    | some pr => { s with protos := s.protos.set p { pr with cache := some c } }
    | none => s
  let pr ← protoAt p
  bindUpValues c upValues base 0 pr.upValues
  pure (.luaClosure c)

/-- Whether a float64 bit pattern is a NaN. -/
def isNaNBits (b : Nat) : Bool :=
  (b / 2 ^ 52) % 2 ^ 11 == 2 ^ 11 - 1 && b % 2 ^ 52 != 0

/-- Go `==` on two values held in interfaces: a NaN differs from itself, the
two zeros are equal, references compare by identity. -/
def Value.goEq : Value → Value → Bool
  | .number a, .number b =>
    !isNaNBits a && !isNaNBits b && (a == b || (a % 2 ^ 63 == 0 && b % 2 ^ 63 == 0))
  | a, b => decide (a = b)

/-- Go `==` on two `home` fields. -/
def Home.goEq : Home → Home → Bool
  | .stackLocation i, .stackLocation j => decide (i = j)
  | .value v, .value w => v.goEq w
  | _, _ => false

/-- The loop of `cached` over the descriptors from position `i` on; `false`
stands for `return nil`. -/
def cachedFrom (c : Nat) (upValues : List (Option Nat)) (base : Int) :
    Nat → List UpValueDesc → Exec Bool
  | _, [] => pure true
  | i, uv :: rest => do
      let cl ← closureAt c
      match cl.upValues[i]? with
      | none => panic .indexOutOfRange
      | some none => panic .nilDereference
      | some (some e) => do
          let cu ← cell e
          if uv.isLocal then
            if !cu.isInStackAt (base + uv.index) then pure false
            else cachedFrom c upValues base (i + 1) rest
          else
            match idx upValues uv.index with
            | none => panic .indexOutOfRange
            | some none => panic .nilDereference
            | some (some e2) => do
                let cu2 ← cell e2
                if !cu.home.goEq cu2.home then pure false
                else cachedFrom c upValues base (i + 1) rest

def cached (p : Nat) (upValues : List (Option Nat)) (base : Int) : Exec (Option Nat) := do
  let pr ← protoAt p
  match pr.cache with
  | none => pure none
  | some c => do
      let kept ← cachedFrom c upValues base 0 pr.upValues
      pure (if kept then some c else none)

/-! ## Collaborators outside the listed sources -/

structure Debug where
  event : Int
  currentLine : Int
  callInfo : Nat

/-- What the stack code consumes from the rest of the interpreter:
`checkAsserts` says whether `l.assert` stops the run on a false condition,
`hooker` is the installed hook (`l.hooker`, nil when absent), `function` the
host function of a native closure, `tagMethodByObject` the lookup of the
"call" tag method (nil when there is none), `apiCheckStackSpace` the API
check run after a native function, `isTailCall` the test
`opCode() == opTailCall` on an instruction, `execute` the interpreter loop
`l.execute()`. -/
structure Env where
  checkAsserts : Bool
  hooker : Option (Debug → Exec Unit)
  function : Nat → Exec Int
  tagMethodByObject : Value → Value
  apiCheckStackSpace : Int → Exec Unit
  isTailCall : Nat → Bool
  execute : Exec Unit

def assert (env : Env) (cond : Bool) : Exec Unit :=
  if env.checkAsserts && !cond then panic .assertion else pure ()

/-! ## Call frames -/

def CallInfo.common : CallInfo → CommonCallInfo
  | .lua ci => ci.toCommonCallInfo
  | .go ci => ci.toCommonCallInfo

def CallInfo.mapCommon (f : CommonCallInfo → CommonCallInfo) : CallInfo → CallInfo
  | .lua ci => .lua { ci with toCommonCallInfo := f ci.toCommonCallInfo }
  | .go ci => .go { ci with toCommonCallInfo := f ci.toCommonCallInfo }

def CallInfo.isLua : CallInfo → Bool
  | .lua _ => true
  | .go _ => false

def LuaCallInfo.stackIndex (ci : LuaCallInfo) (slot : Int) : Int :=
  ci.top_ - ci.frame.len + slot

def LuaCallInfo.frameIndex (ci : LuaCallInfo) (stackSlot : Int) : Except Err Int :=
  if stackSlot < ci.top_ - ci.frame.len ∨ ci.top_ ≤ stackSlot then .error .frameIndexRange
  else .ok (stackSlot - ci.top_ + ci.frame.len)

def LuaCallInfo.base (ci : LuaCallInfo) : Int :=
  ci.stackIndex 0

/-- The read `ci.frame[j]` through the window of a script frame; `none` when
`j` is outside the window or the window still points into a backing array the
stack has left. -/
def frameRead (s : State) (ci : LuaCallInfo) (j : Int) : Option Value :=
  if ci.frame.arr = s.stackArr ∧ 0 ≤ j ∧ j < ci.frame.len then idx s.stack (ci.frame.off + j)
  else none

/-- The empty window of a freshly allocated frame. -/
def Window.zero : Window := ⟨0, 0, 0⟩

/-- The value `&luaCallInfo{}`. -/
def LuaCallInfo.zero : LuaCallInfo := ⟨⟨0, 0, 0, 0⟩, Window.zero, 0, []⟩

/-- The value `&goCallInfo{}`. -/
def GoCallInfo.zero : GoCallInfo := ⟨⟨0, 0, 0, 0⟩, 0, false, 0⟩

/-- Dereference of `l.callInfo` for a method call. -/
def current : Exec Nat := fun s =>
  match s.callInfo with
  | some d => if d < s.frames.length then .ok d s else .panic .nilDereference s
  | none => .panic .nilDereference s

/-- The type assertion `l.callInfo.(*luaCallInfo)`. -/
def currentLua : Exec Nat := fun s =>
  match s.callInfo with
  | some d =>
    match s.frames[d]? with
    | some (.lua _) => .ok d s
    | _ => .panic .typeAssertion s
  | none => .panic .typeAssertion s

def frameAt (d : Nat) : Exec CallInfo := fun s =>
  match s.frames[d]? with
  | some ci => .ok ci s
  | none => .panic .nilDereference s

/-- Dereference of a `*luaCallInfo`. -/
def luaFrameAt (d : Nat) : Exec LuaCallInfo := fun s =>
  match s.frames[d]? with
  | some (.lua ci) => .ok ci s
  | _ => .panic .nilDereference s

def updateFrame (d : Nat) (f : CallInfo → CallInfo) : Exec Unit :=
  modify fun s =>
    match s.frames[d]? with
    | some ci => { s with frames := s.frames.set d (f ci) }
    | none => s

def updateLuaFrame (d : Nat) (f : LuaCallInfo → LuaCallInfo) : Exec Unit :=
  updateFrame d fun ci =>
    match ci with
    | .lua lci => .lua (f lci)
    | .go gci => .go gci

def initializeCallInfo (env : Env) (d : Nat) (function top resultCount : Int) (callStatus : Nat) :
    Exec Unit := do
  updateFrame d (CallInfo.mapCommon fun c => { c with function_ := function, top_ := top })
  let ci ← frameAt d
  let s ← getState
  assert env (decide (ci.common.top_ ≤ s.stackLast))
  updateFrame d (CallInfo.mapCommon fun c =>
    { c with resultCount := resultCount, callStatus_ := callStatus })

/-- The frame after the current one becomes the freshly allocated `ci`:
`ci.previous_ = l.callInfo; l.callInfo = l.callInfo.push(ci)`. -/
def pushFresh (d : Nat) (ci : CallInfo) : Exec Unit :=
  modify fun s => { s with frames := s.frames.take (d + 1) ++ [ci], callInfo := some (d + 1) }

def pushLuaFrame (env : Env) (function base resultCount : Int) (p : Prototype) : Exec Nat := do
  let d ← current
  let s ← getState
  (match s.frames[d + 1]? with
    | some (.lua _) => modify fun s => { s with callInfo := some (d + 1) }
    | _ => pushFresh d (.lua LuaCallInfo.zero))
  let ci := d + 1
  initializeCallInfo env ci function (base + p.maxStackSize) resultCount callStatusLua
  let lci ← luaFrameAt ci
  let s ← getState
  (if sliceOk s.stack.length base lci.top_ then
    updateLuaFrame ci fun c =>
      { c with frame := ⟨s.stackArr, base, lci.top_ - base⟩, savedPC := 0, code := p.code }
  else panic .sliceBounds)
  modify fun s => { s with top := lci.top_ }
  pure ci

def pushGoFrame (env : Env) (function resultCount : Int) : Exec Unit := do
  let d ← current
  let s ← getState
  (match s.frames[d + 1]? with
    | some (.go _) => pure ()
    | _ => pushFresh d (.go GoCallInfo.zero))
  let s ← getState
  initializeCallInfo env (d + 1) function (s.top + MinStack) resultCount 0

/-! ## Stack growth -/

/-- Two's-complement wrap-around of a 64-bit `int`. -/
def wrap64 (x : Int) : Int := (x + 2 ^ 63) % 2 ^ 64 - 2 ^ 63

/-- The loop of `reallocStack` over the frames at depths `n - 1, ..., 0`. -/
def repoint : Nat → Exec Unit
  | 0 => pure ()
  | n + 1 => do
      let ci ← frameAt n
      (match ci with
        | .lua lci => do
            let s ← getState
            let base := lci.base
            if sliceOk s.stack.length base (base + lci.frame.len) then
              updateLuaFrame n fun c => { c with frame := ⟨s.stackArr, base, lci.frame.len⟩ }
            else panic .sliceBounds
        | .go _ => pure ())
      repoint n

def reallocStack (env : Env) (newSize : Int) : Exec Unit := do
  let s ← getState
  assert env (decide (newSize ≤ maxStack) || decide (newSize = errorStackSize))
  assert env (decide (s.stackLast = s.stack.length - extraStack))
  (if newSize < s.stack.length then panic .makeSlice else pure ())
  modify fun s =>
    { s with
      stack := s.stack ++ List.replicate (newSize - s.stack.length).toNat Value.nil,
      stackArr := if newSize = s.stack.length then s.stackArr else s.stackArr + 1 }
  modify fun s => { s with stackLast := s.stack.length - extraStack }
  let d ← current
  modify fun s => { s with frames := s.frames.take (d + 1) }
  repoint (d + 1)

def growStack (env : Env) (n : Int) : Exec Unit := do
  let s ← getState
  if (s.stack.length : Int) > maxStack then panic .errorError
  else
    let needed := wrap64 (wrap64 (s.top + n) + extraStack)
    let newSize := wrap64 (2 * s.stack.length)
    let newSize := if newSize > maxStack then maxStack else newSize
    let newSize := if newSize < needed then needed else newSize
    if newSize > maxStack then do
      reallocStack env errorStackSize
      panic .stackOverflow
    else reallocStack env newSize

def checkStack (env : Env) (n : Int) : Exec Unit := do
  let s ← getState
  if s.stackLast - s.top ≤ n then growStack env n else pure ()

def push (v : Value) : Exec Unit := do
  let s ← getState
  writeStack s.top v
  modify fun s => { s with top := s.top + 1 }

def pop : Exec Value := do
  modify fun s => { s with top := s.top - 1 }
  let s ← getState
  readStack s.top

/-! ## Hooks -/

def hook (env : Env) (event line : Int) : Exec Unit := do
  let s ← getState
  match env.hooker with
  | none => pure ()
  | some hooker =>
    if !s.allowHook then pure ()
    else do
      let ci ← currentLua
      let top := s.top
      let lci ← luaFrameAt ci
      let ciTop := lci.top_
      let ar : Debug := ⟨event, line, ci⟩
      checkStack env MinStack
      let s ← getState
      updateFrame ci (CallInfo.mapCommon fun c => { c with top_ := s.top + MinStack })
      let lci ← luaFrameAt ci
      let s ← getState
      assert env (decide (lci.top_ ≤ s.stackLast))
      modify fun s => { s with allowHook := false }
      updateFrame ci (CallInfo.mapCommon fun c =>
        { c with callStatus_ := c.callStatus_ ||| callStatusHooked })
      hooker ar
      let s ← getState
      assert env (!s.allowHook)
      modify fun s => { s with allowHook := true }
      updateFrame ci (CallInfo.mapCommon fun c => { c with top_ := ciTop })
      modify fun s => { s with top := top }
      updateFrame ci (CallInfo.mapCommon fun c =>
        { c with callStatus_ := c.callStatus_ &&& (c.callStatus_ ^^^ callStatusHooked) })

def callHook (env : Env) (ci : Nat) : Exec Unit := do
  updateLuaFrame ci fun c => { c with savedPC := c.savedPC + 1 }
  let s ← getState
  (match ci with
    | 0 => hook env HookCall (-1)
    | d + 1 =>
      match s.frames[d]? with
      | some (.lua pci) =>
        match idx pci.code (pci.savedPC - 1) with
        | none => panic .indexOutOfRange
        | some i =>
          if env.isTailCall i then do
            updateFrame ci (CallInfo.mapCommon fun c =>
              { c with callStatus_ := c.callStatus_ ||| callStatusTail })
            hook env HookTailCall (-1)
          else hook env HookCall (-1)
      | _ => hook env HookCall (-1))
  updateLuaFrame ci fun c => { c with savedPC := c.savedPC - 1 }

/-! ## The call and return protocol -/

def adjustVarArgs (env : Env) (p : Prototype) (argCount : Int) : Exec Int := do
  let fixedArgCount := p.parameterCount
  assert env (decide (argCount ≥ fixedArgCount))
  let s ← getState
  let fixed := s.top - argCount
  let base := s.top
  copyStack base (base + fixedArgCount) fixed (fixed + fixedArgCount)
  nilStack fixed (fixed + fixedArgCount)
  pure base

def postCall (env : Env) (firstResult : Int) : Exec Bool := do
  let ci ← currentLua
  let s ← getState
  (if s.hookMask &&& MaskReturn ≠ 0 then hook env HookReturn (-1) else pure ())
  let lci ← luaFrameAt ci
  let result := lci.function_
  let wanted := lci.resultCount
  let s ← getState
  let base := firstResult
  let limit := firstResult + wanted
  (if s.top > limit then
    copyStack result (result + wanted) base limit
  else do
    copyStack result (result + wanted) base s.top
    nilStack (result + wanted - (limit - s.top)) (result + wanted))
  modify fun s => { s with top := result }
  modify fun s => { s with callInfo := if ci = 0 then none else some (ci - 1) }
  let s ← getState
  (if (s.hookMask &&& MaskReturn) ||| MaskLine ≠ 0 then do
    let pci ← currentLua
    let plci ← luaFrameAt pci
    modify fun s => { s with oldPC := plci.savedPC }
  else pure ())
  pure (decide (wanted ≠ MultipleReturns))

/-- The loop `for p := l.top; p > function; p-- { l.stack[p] = l.stack[p-1] }`
with `n` rounds to go, at `p = function + n`. -/
def slideUp (function : Int) : Nat → Exec Unit
  | 0 => pure ()
  | n + 1 => do
      let v ← readStack (function + (n + 1 : Nat) - 1)
      writeStack (function + (n + 1 : Nat)) v
      slideUp function n

/-- How one round of the loop of `preCall` ends: with a `return`, or at the
end of the loop body. -/
inductive Pass where
  | returned (b : Bool)
  | again
  deriving DecidableEq, Repr

/-- The case `*goClosure` of the type switch in `preCall`. -/
def preCallGo (env : Env) (function resultCount : Int) (g : Nat) : Exec Pass := do
  checkStack env MinStack
  pushGoFrame env function resultCount
  let s ← getState
  (if s.hookMask &&& MaskCall ≠ 0 then hook env HookCall (-1) else pure ())
  let n ← env.function g
  env.apiCheckStackSpace n
  let s ← getState
  let _ ← postCall env (s.top - n)
  pure (.returned true)

/-- The case `*luaClosure` of the type switch in `preCall`. -/
def preCallLua (env : Env) (function resultCount : Int) (c : Nat) : Exec Pass := do
  let cl ← closureAt c
  let p ← protoAt cl.prototype
  checkStack env p.maxStackSize
  let s ← getState
  let argCount := s.top - function - 1
  nilStack s.top (s.top + argCount)
  let base ← (if p.isVarArg then adjustVarArgs env p argCount else pure (function + 1))
  let ci ← pushLuaFrame env function base resultCount p
  let s ← getState
  (if s.hookMask &&& MaskCall ≠ 0 then callHook env ci else pure ())
  pure (.returned false)

/-- The `default` case of the type switch in `preCall`, for a callee `f` that
is no closure. -/
def preCallDefault (env : Env) (function : Int) (f : Value) : Exec Pass :=
  match env.tagMethodByObject f with
  | .nil => panic (.typeErrorCall f)
  | .luaClosure fn => do
      let s ← getState
      slideUp function (s.top - function).toNat
      modify fun s => { s with top := s.top + 1 }
      checkStack env 0
      writeStack function (.luaClosure fn)
      pure .again
  | _ => panic (.typeErrorCall f)

/-- One round of the loop of `preCall`: the type switch on `l.stack[function]`. -/
def preCallPass (env : Env) (function resultCount : Int) : Exec Pass := do
  let f ← readStack function
  match f with
  | .goClosure g => preCallGo env function resultCount g
  | .luaClosure c => preCallLua env function resultCount c
  | _ => preCallDefault env function f

/-- The loop `for { ... }` of `preCall`, cut after `fuel` rounds. -/
def preCallLoop (env : Env) (function resultCount : Int) : Nat → Exec Bool
  | 0 => panic .outOfFuel
  | fuel + 1 => do
      let r ← preCallPass env function resultCount
      match r with
      | .returned b => pure b
      | .again => preCallLoop env function resultCount fuel

/-- The method `preCall`; its loop never takes a third round
(`preCallLoop_two_rounds`). -/
def preCall (env : Env) (function resultCount : Int) : Exec Bool :=
  preCallLoop env function resultCount 2

/-! ## Calls -/

/-- The statements of `call` after the nesting check. -/
def callBody (env : Env) (function resultCount : Int) (allowYield : Bool) : Exec Unit := do
  (if !allowYield then
    modify fun s => { s with nonYieldableCallCount := s.nonYieldableCallCount + 1 }
  else pure ())
  let completed ← preCall env function resultCount
  (if !completed then env.execute else pure ())
  (if !allowYield then
    modify fun s => { s with nonYieldableCallCount := s.nonYieldableCallCount - 1 }
  else pure ())
  modify fun s => { s with nestedGoCallCount := s.nestedGoCallCount - 1 }

/-- The method `call`.  `runtimeError` and `throw` stop the run in the state
they are called in; the two counters are integers without a width. -/
def call (env : Env) (function resultCount : Int) (allowYield : Bool) : Exec Unit := do
  modify fun s => { s with nestedGoCallCount := s.nestedGoCallCount + 1 }
  let s ← getState
  (if s.nestedGoCallCount = maxCallCount then panic .goStackOverflow
  else if s.nestedGoCallCount ≥ maxCallCount + (maxCallCount >>> 3) then panic .errorError
  else pure ())
  callBody env function resultCount allowYield

/-! ## Predicates of the statements -/

/-- Whether `previous()` of the frame at depth `d` is a script frame. -/
def callerIsLua (s : State) (d : Nat) : Bool :=
  match d with
  | 0 => false
  | d0 + 1 =>
    match s.frames[d0]? with
    | some (.lua _) => true
    | _ => false

/-- The open-upvalue list is well formed: no cell is listed twice, every
listed cell is open and bound to a slot of the stack, and no two listed cells
are bound to the same slot. -/
def RegistryWF (s : State) : Prop :=
  s.upValues.Nodup ∧
  (∀ e ∈ s.upValues, ∃ i : Int,
    s.cells[e]? = some ⟨.stackLocation i⟩ ∧ 0 ≤ i ∧ i < s.stack.length) ∧
  (∀ e1 ∈ s.upValues, ∀ e2 ∈ s.upValues, ∀ i : Int,
    s.cells[e1]? = some ⟨.stackLocation i⟩ → s.cells[e2]? = some ⟨.stackLocation i⟩ → e1 = e2)

/-- The state `t` has the stack of `s`, keeps its cells as they are and keeps
its open upvalues listed. -/
def Extends (s t : State) : Prop :=
  t.stack = s.stack ∧ (∀ e ∈ s.upValues, e ∈ t.upValues) ∧
  (∀ (k : Nat) (c : UpValue), s.cells[k]? = some c → t.cells[k]? = some c)

/-- The cell `e` can be read and written: it is open and bound to a slot of
the stack, or closed. -/
def CellOk (u : State) (e : Nat) : Prop :=
  (∃ i : Int, u.cells[e]? = some ⟨.stackLocation i⟩ ∧ 0 ≤ i ∧ i < u.stack.length) ∨
  (∃ v, u.cells[e]? = some ⟨.value v⟩)

/-- Whether an error is the "call" type error. -/
def Err.isTypeError : Err → Bool
  | .typeErrorCall _ => true
  | _ => false

/-- The run `m` never stops with the "call" type error. -/
def NoTypeError {α : Type} (m : Exec α) : Prop :=
  ∀ s e s1, m s = .panic e s1 → e.isTypeError = false

/-- The round `m` never reaches the end of the loop body: it returns or fails. -/
def Returns (m : Exec Pass) : Prop := ∀ s s1, m s ≠ .ok .again s1

/-- The run `m`, when it returns, leaves `proj` of the state as it was. -/
def Keeps {α β : Type} (proj : State → β) (m : Exec α) : Prop :=
  ∀ s a s1, m s = .ok a s1 → proj s1 = proj s

/-- The two counters of `call`. -/
def State.counters (s : State) : Int × Int :=
  (s.nestedGoCallCount, s.nonYieldableCallCount)

/-- The code that runs inside a call leaves the two counters balanced: the
hook, the host functions, the API check and the interpreter loop return with
the counters they were entered with. -/
def Balanced (env : Env) : Prop :=
  (∀ h, env.hooker = some h → ∀ ar, Keeps State.counters (h ar)) ∧
  (∀ g, Keeps State.counters (env.function g)) ∧
  (∀ n, Keeps State.counters (env.apiCheckStackSpace n)) ∧
  Keeps State.counters env.execute

/-- The value `growStack` computes for `needed` with the 64-bit `int`. -/
def neededSize (s : State) (n : Int) : Int :=
  wrap64 (wrap64 (s.top + n) + extraStack)

/-- The size of the growth policy in the words of the specification:
`max(min(2 * L, maxStack), need)`. -/
def policySize (s : State) (n : Int) : Int :=
  max (min (2 * (s.stack.length : Int)) maxStack) (neededSize s n)

/-- An operation on one upvalue cell. -/
inductive CellOp where
  | value
  | setValue (v : Value)
  | close
  deriving DecidableEq, Repr

/-- The state after one operation on the cell `e`, returned or failed. -/
def CellOp.run (e : Nat) : CellOp → State → State
  | .value, s => (UpValue.value e s).state
  | .setValue v, s => (UpValue.setValue e v s).state
  | .close, s => (UpValue.close e s).state

/-- The state after a sequence of operations on the cell `e`, each run in the
state the one before ended in. -/
def runCellOps (e : Nat) : List CellOp → State → State
  | [], s => s
  | op :: ops, s => runCellOps e ops (op.run e s)

/-- Whether the cell `e` is closed. -/
def isClosed (s : State) (e : Nat) : Bool :=
  match s.cells[e]? with
  | some ⟨.value _⟩ => true
  | _ => false

/-! ## Concrete states -/

/-- A collaborator set with assertions on, no hook, and a tag-method lookup
that finds nothing. -/
def env0 : Env :=
  { checkAsserts := true
    hooker := none
    function := fun _ => panic .hostError
    tagMethodByObject := fun _ => .nil
    apiCheckStackSpace := fun _ => pure ()
    isTailCall := fun _ => false
    execute := pure () }

/-- The collaborators of `env0` with a tag-method lookup that always answers
`tm`. -/
def envTag (tm : Value) : Env :=
  { env0 with tagMethodByObject := fun _ => tm }

/-- A state with 45 nil stack slots, `top = 1`, and a base script frame. -/
def state0 : State :=
  { stack := List.replicate 45 .nil
    stackArr := 1
    stackLast := 40
    top := 1
    upValues := []
    cells := []
    closures := []
    protos := []
    frames := [.lua ⟨⟨0, 21, 0, callStatusLua⟩, ⟨1, 1, 20⟩, 0, []⟩]
    callInfo := some 0
    hookMask := 0
    allowHook := true
    oldPC := 0
    nestedGoCallCount := 0
    nonYieldableCallCount := 0 }

/-- The run `findUpValue(1); findUpValue(0); close(1)`. -/
def closeOutOfOrder : Exec Unit := do
  let _ ← findUpValue 1
  let _ ← findUpValue 0
  close 1

/-- A prototype with one upvalue, the local at frame offset 0. -/
def protoCapture : Prototype := ⟨[], [⟨true, 0⟩], none, 0, 2, false⟩

/-- The state `state0` with the prototype `protoCapture`. -/
def stateCapture : State := { state0 with protos := [protoCapture] }

/-- The script frame of `stateReturning`: called at slot 1, with `k` results
requested. -/
def frameReturning (k : Int) : LuaCallInfo := ⟨⟨1, 22, k, callStatusLua⟩, ⟨1, 2, 20⟩, 0, []⟩

/-- A state in the middle of a return: above the base frame a script frame
called at slot 1 that requested `k` results, the values 7 and 8 in the slots 2
and 3. -/
def stateReturning (k top : Int) : State :=
  { state0 with
    stack := [.nil, .luaClosure 0, .number 7, .number 8] ++ List.replicate 41 .nil
    top := top
    frames := [.lua ⟨⟨0, 21, 0, callStatusLua⟩, ⟨1, 1, 20⟩, 0, []⟩, .lua (frameReturning k)]
    callInfo := some 1 }

/-- A state about to call: the callee in slot 1, its arguments above it,
`stale` left over above `top`, and one script closure over the prototype `p`. -/
def stateCalling (callee : Value) (args stale : List Value) (p : Prototype) : State :=
  { state0 with
    stack := [.nil, callee] ++ args ++ stale ++
      List.replicate (43 - args.length - stale.length) .nil
    top := 2 + args.length
    closures := [⟨0, []⟩]
    protos := [p] }

/-- A prototype with one parameter that is not variadic. -/
def protoOneParam : Prototype := ⟨[], [], none, 1, 2, false⟩

/-- A variadic prototype with one fixed parameter. -/
def protoVarArg : Prototype := ⟨[], [], none, 1, 3, true⟩

/-- The largest value of the 64-bit `int`. -/
def maxInt : Int := 2 ^ 63 - 1

/-- The state `stateCalling` in the middle of `n` nested calls. -/
def stateNested (n : Int) : State :=
  { stateCalling (.luaClosure 0) [] [] protoOneParam with nestedGoCallCount := n }

/-- The collaborators of `env0` with a hook that pushes a number. -/
def envHook : Env :=
  { env0 with hooker := some fun _ => push (.number 1) }

/-- The collaborators of `env0` with a host function that returns no result. -/
def envNative : Env :=
  { env0 with function := fun _ => pure 0 }

/-- A prototype with one inherited upvalue, cached as the closure 0. -/
def protoInherit : Prototype := ⟨[], [⟨false, 0⟩], some 0, 0, 2, false⟩

/-- A state with two closed cells of equal content, the first one held by
the cached closure of `protoInherit`. -/
def stateCached : State :=
  { state0 with
    cells := [⟨.value (.bool true)⟩, ⟨.value (.bool true)⟩]
    closures := [⟨0, [some 0]⟩]
    protos := [protoInherit] }

/-- A state with the cell 0 open at slot 1, which holds 7, and the cell 1
closed over 3. -/
def stateCells : State :=
  { state0 with
    stack := [.nil, .number 7] ++ List.replicate 43 .nil
    top := 2
    upValues := [0]
    cells := [⟨.stackLocation 1⟩, ⟨.value (.number 3)⟩] }

/-- The state `state0` with a native frame pooled after the base frame. -/
def statePooled : State :=
  { state0 with frames := state0.frames ++ [.go GoCallInfo.zero] }

/-- The run that takes the closure of `protoInherit` from the cache for an
enclosing function whose first upvalue is the cell 1, writes through that
cell and reads the first upvalue of the closure. -/
def cachedThenWrite : Exec Value := do
  let c ← cached 0 [some 1] 1
  UpValue.setValue 1 (.bool false)
  match c with
  | some c => LuaClosure.upValue c 0
  | none => panic .nilDereference

/-- The run of `cachedThenWrite` with a closure built by `newClosure`. -/
def newThenWrite : Exec Value := do
  let v ← newClosure 0 [some 1] 1
  UpValue.setValue 1 (.bool false)
  match v with
  | .luaClosure c => LuaClosure.upValue c 0
  | _ => panic .typeAssertion

/-- A state about to call the closure over `protoVarArg` with 22 arguments:
`top = 24` on the 45-slot stack, `stackLast = 40`. -/
def stateVarArgMany : State :=
  stateCalling (.luaClosure 0) (List.replicate 22 (.number 7)) [] protoVarArg

/-- A state about to call a table with 21 arguments: `top = 23` on the 45-slot
stack, `stackLast = 40`; the one script closure is over `protoOneParam`. -/
def stateTableMany : State :=
  stateCalling (.table 0) (List.replicate 21 (.number 7)) [] protoOneParam

/-! # Theorems -/

/-! ## The state monad and list lemmas -/

@[simp] theorem bind_run {α β : Type} (x : Exec α) (f : α → Exec β) (s : State) :
    (x >>= f) s = match x s with
      | .ok a s1 => f a s1
      | .panic e s1 => .panic e s1 := rfl

@[simp] theorem pure_run {α : Type} (a : α) (s : State) : (pure a : Exec α) s = .ok a s := rfl

@[simp] theorem getState_run (s : State) : getState s = .ok s s := rfl

@[simp] theorem modify_run (f : State → State) (s : State) : modify f s = .ok () (f s) := rfl

@[simp] theorem panic_run {α : Type} (e : Err) (s : State) : (panic e : Exec α) s = .panic e s := rfl

theorem ite_run {α : Type} (c : Prop) [Decidable c] (x y : Exec α) (s : State) :
    (if c then x else y) s = if c then x s else y s := by
  split <;> rfl

theorem idx_eq {α : Type} (xs : List α) (i : Int) (h : 0 ≤ i) : idx xs i = xs[i.toNat]? := by
  simp [idx, h]

theorem or_maskLine_ne_zero (x : Nat) : x ||| MaskLine ≠ 0 := by
  intro h
  have h2 : (x ||| MaskLine).testBit 2 = true := by
    rw [Nat.testBit_or]; simp [MaskLine]; right; decide
  rw [h] at h2
  simp at h2

theorem splice_length {α : Type} (xs mid : List α) (a : Nat) (h : a + mid.length ≤ xs.length) :
    (splice xs a mid).length = xs.length := by
  simp [splice]; omega

theorem splice_getElem? {α : Type} (xs mid : List α) (a j : Nat) (h : a + mid.length ≤ xs.length) :
    (splice xs a mid)[j]? =
      if j < a then xs[j]? else if j < a + mid.length then mid[j - a]? else xs[j]? := by
  unfold splice
  rw [List.append_assoc, List.getElem?_append]
  have hl : (List.take a xs).length = a := by simp; omega
  rw [hl]
  split
  · rw [List.getElem?_take]; simp [*]
  · rw [List.getElem?_append]
    split
    · have : j < a + mid.length := by omega
      simp [this]
    · have : ¬ j < a + mid.length := by omega
      simp only [this, if_false]
      rw [List.getElem?_drop]
      congr 1; omega

theorem idx_splice {α : Type} (xs mid : List α) (a : Nat) (i : Int)
    (h : a + mid.length ≤ xs.length) :
    idx (splice xs a mid) i =
      if i < a then idx xs i else if i < a + mid.length then idx mid (i - a) else idx xs i := by
  unfold idx
  by_cases hi : 0 ≤ i
  · simp only [hi, if_true]
    rw [splice_getElem? xs mid a i.toNat h]
    by_cases h1 : i < a
    · have : i.toNat < a := by omega
      simp [h1, this]
    · have h1n : ¬ i.toNat < a := by omega
      simp only [h1, h1n, if_false]
      by_cases h2 : i < a + mid.length
      · have : i.toNat < a + mid.length := by omega
        have h3 : 0 ≤ i - a := by omega
        simp only [h2, this, if_true, h3]
        congr 1; omega
      · have : ¬ i.toNat < a + mid.length := by omega
        simp [h2, this]
  · have : i < a := by omega
    simp [hi, this]

theorem sliceOk_iff (len a b : Int) : sliceOk len a b = true ↔ 0 ≤ a ∧ a ≤ b ∧ b ≤ len := by
  simp [sliceOk, and_assoc]

/-- What `copy` leaves in the stack. -/
theorem copyStack_spec (d0 d1 s0 s1 : Int) (s : State)
    (hd : 0 ≤ d0 ∧ d0 ≤ d1 ∧ d1 ≤ s.stack.length)
    (hs : 0 ≤ s0 ∧ s0 ≤ s1 ∧ s1 ≤ s.stack.length) :
    ∃ st, copyStack d0 d1 s0 s1 s = .ok () { s with stack := st } ∧
      st.length = s.stack.length ∧
      (∀ j : Int, 0 ≤ j → j < min (d1 - d0) (s1 - s0) → idx st (d0 + j) = idx s.stack (s0 + j)) ∧
      (∀ i : Int, i < d0 ∨ d0 + min (d1 - d0) (s1 - s0) ≤ i → idx st i = idx s.stack i) := by
  have hd1 := (sliceOk_iff s.stack.length d0 d1).mpr hd
  have hs1 := (sliceOk_iff s.stack.length s0 s1).mpr hs
  have hlen : (List.take (min (d1 - d0) (s1 - s0)).toNat (List.drop s0.toNat s.stack)).length
      = (min (d1 - d0) (s1 - s0)).toNat := by
    simp; omega
  have hfit : d0.toNat +
      (List.take (min (d1 - d0) (s1 - s0)).toNat (List.drop s0.toNat s.stack)).length
        ≤ s.stack.length := by
    rw [hlen]; omega
  refine ⟨_, by simp [copyStack, hd1, hs1], splice_length _ _ _ hfit, ?_, ?_⟩
  · intro j hj0 hj
    rw [idx_splice _ _ _ _ hfit, hlen]
    have h1 : ¬ d0 + j < (d0.toNat : Int) := by omega
    have h2 : d0 + j < (d0.toNat : Int) + ((min (d1 - d0) (s1 - s0)).toNat : Int) := by omega
    simp only [h1, h2, if_false, if_true]
    rw [idx_eq _ _ (by omega), idx_eq _ _ (by omega), List.getElem?_take, List.getElem?_drop]
    have h3 : (d0 + j - (d0.toNat : Int)).toNat < (min (d1 - d0) (s1 - s0)).toNat := by omega
    simp only [h3, if_true]
    congr 1; omega
  · intro i hi
    rw [idx_splice _ _ _ _ hfit, hlen]
    rcases hi with hi | hi
    · have : i < (d0.toNat : Int) := by omega
      rw [if_pos this]
    · have h1 : ¬ i < (d0.toNat : Int) := by omega
      have h2 : ¬ i < (d0.toNat : Int) + ((min (d1 - d0) (s1 - s0)).toNat : Int) := by omega
      rw [if_neg h1, if_neg h2]

/-- What the nil-filling loop leaves in the stack. -/
theorem nilStack_spec (a b : Int) (s : State) (h : 0 ≤ a ∧ a ≤ b ∧ b ≤ s.stack.length) :
    ∃ st, nilStack a b s = .ok () { s with stack := st } ∧
      st.length = s.stack.length ∧
      (∀ i : Int, a ≤ i → i < b → idx st i = some Value.nil) ∧
      (∀ i : Int, i < a ∨ b ≤ i → idx st i = idx s.stack i) := by
  have h1 := (sliceOk_iff s.stack.length a b).mpr h
  have hfit : a.toNat + (List.replicate (b - a).toNat Value.nil).length ≤ s.stack.length := by
    simp; omega
  refine ⟨_, by simp [nilStack, h1], splice_length _ _ _ hfit, ?_, ?_⟩
  · intro i hi0 hi
    rw [idx_splice _ _ _ _ hfit]
    have h1 : ¬ i < (a.toNat : Int) := by omega
    have h2 : i < (a.toNat : Int) + ((List.replicate (b - a).toNat Value.nil).length : Int) := by
      rw [List.length_replicate]; omega
    simp only [h1, h2, if_false, if_true]
    rw [idx_eq _ _ (by omega), List.getElem?_replicate]
    have : (i - (a.toNat : Int)).toNat < (b - a).toNat := by omega
    rw [if_pos this]
  · intro i hi
    rw [idx_splice _ _ _ _ hfit]
    rcases hi with hi | hi
    · have : i < (a.toNat : Int) := by omega
      rw [if_pos this]
    · have h1 : ¬ i < (a.toNat : Int) := by omega
      have h2 : ¬ i < (a.toNat : Int) + ((List.replicate (b - a).toNat Value.nil).length : Int) := by
        rw [List.length_replicate]; omega
      rw [if_neg h1, if_neg h2]

/-! ## `postCall` with an exact result count -/

/-- The result-moving part of `postCall` for an exact count `k`. -/
theorem moveResults_spec (s : State) (r k b : Int)
    (hk : 0 ≤ k) (hr : 0 ≤ r) (hb : 0 ≤ b) (hm : b ≤ s.top) (htop : s.top ≤ s.stack.length)
    (hroom : r + k ≤ s.stack.length) :
    ∃ st, (if s.top > b + k then copyStack r (r + k) b (b + k)
        else do
          copyStack r (r + k) b s.top
          nilStack (r + k - (b + k - s.top)) (r + k)) s = .ok () { s with stack := st } ∧
      (∀ i : Int, 0 ≤ i → i < min k (s.top - b) → idx st (r + i) = idx s.stack (b + i)) ∧
      (∀ i : Int, min k (s.top - b) ≤ i → i < k → idx st (r + i) = some Value.nil) := by
  by_cases h : s.top > b + k
  · obtain ⟨st, hrun, _, hcp, _⟩ := copyStack_spec r (r + k) b (b + k) s
      ⟨hr, by omega, hroom⟩ ⟨hb, by omega, by omega⟩
    refine ⟨st, by rw [if_pos h]; exact hrun, ?_, ?_⟩
    · intro i hi0 hi
      exact hcp i hi0 (by omega)
    · intro i hi0 hi
      omega
  · obtain ⟨st, hrun, hlen, hcp, _⟩ := copyStack_spec r (r + k) b s.top s
      ⟨hr, by omega, hroom⟩ ⟨hb, hm, htop⟩
    obtain ⟨st2, hrun2, _, hnil, hkeep⟩ :=
      nilStack_spec (r + k - (b + k - s.top)) (r + k) { s with stack := st }
        ⟨by omega, by omega, by simp only [hlen]; omega⟩
    refine ⟨st2, ?_, ?_, ?_⟩
    · rw [if_neg h]
      simp only [bind_run, hrun, hrun2]
    · intro i hi0 hi
      rw [hkeep (r + i) (Or.inl (by omega))]
      exact hcp i hi0 (by omega)
    · intro i hi0 hi
      exact hnil (r + i) (by omega) (by omega)

/-- C3: with the return hook off, a script frame with result count `k ≥ 0`
and function position `r`, and `m = top - b ≥ 0` produced values inside the
stack, `postCall(b)` leaves `stack[r+i] = old stack[b+i]` for `i < min k m`
and nil for `min k m ≤ i < k`.  It returns `true` when the caller is a script
frame; otherwise it stops after the copy, at the type assertion of the
line that saves `oldPC`. -/
theorem postCall_exact_count (env : Env) (s : State) (d : Nat) (ci : LuaCallInfo) (b : Int)
    (hcur : s.callInfo = some d) (hci : s.frames[d]? = some (.lua ci))
    (hhook : s.hookMask &&& MaskReturn = 0)
    (hk : 0 ≤ ci.resultCount) (hr : 0 ≤ ci.function_)
    (hb : 0 ≤ b) (hm : b ≤ s.top) (htop : s.top ≤ s.stack.length)
    (hroom : ci.function_ + ci.resultCount ≤ s.stack.length) :
    ∃ s1, (postCall env b s = .ok true s1 ∨ postCall env b s = .panic .typeAssertion s1) ∧
      (callerIsLua s d = true → postCall env b s = .ok true s1) ∧
      (∀ i : Int, 0 ≤ i → i < min ci.resultCount (s.top - b) →
        idx s1.stack (ci.function_ + i) = idx s.stack (b + i)) ∧
      (∀ i : Int, min ci.resultCount (s.top - b) ≤ i → i < ci.resultCount →
        idx s1.stack (ci.function_ + i) = some Value.nil) := by
  have h1 : currentLua s = .ok d s := by simp [currentLua, hcur, hci]
  have h2 : luaFrameAt d s = .ok ci s := by simp [luaFrameAt, hci]
  obtain ⟨st, hmove, hcp, hnil⟩ :=
    moveResults_spec s ci.function_ ci.resultCount b hk hr hb hm htop hroom
  have hret : decide (ci.resultCount ≠ MultipleReturns) = true := by
    simp [MultipleReturns]; omega
  unfold postCall
  simp only [bind_run, h1, getState_run, hhook, ne_eq, not_true_eq_false, if_false, pure_run, h2,
    hmove, modify_run, if_pos (or_maskLine_ne_zero _), hret]
  cases d with
  | zero =>
    refine ⟨{ s with stack := st, top := ci.function_, callInfo := none }, ?_, ?_, hcp, hnil⟩
    · right; simp [currentLua]
    · simp [callerIsLua]
  | succ d0 =>
    cases hf : s.frames[d0]? with
    | none =>
      refine ⟨{ s with stack := st, top := ci.function_, callInfo := some d0 }, ?_, ?_, hcp, hnil⟩
      · right; simp [currentLua, hf]
      · simp [callerIsLua, hf]
    | some f =>
      cases f with
      | go g =>
        refine ⟨{ s with stack := st, top := ci.function_, callInfo := some d0 }, ?_, ?_, hcp, hnil⟩
        · right; simp [currentLua, hf]
        · simp [callerIsLua, hf]
      | lua pci =>
        refine ⟨{ s with stack := st, top := ci.function_, callInfo := some d0,
                         oldPC := pci.savedPC }, ?_, ?_, hcp, hnil⟩
        · left; simp [currentLua, luaFrameAt, hf]
        · intro _; simp [currentLua, luaFrameAt, hf]

/-! ## Frames: assertions and the loop of `reallocStack` -/

theorem assert_run_ok (env : Env) (c : Bool) (s : State) (h : env.checkAsserts = true → c = true) :
    assert env c s = .ok () s := by
  unfold assert
  cases hc : env.checkAsserts <;> cases c <;> simp_all

theorem updateFrame_run (d : Nat) (f : CallInfo → CallInfo) (s : State) (ci : CallInfo)
    (h : s.frames[d]? = some ci) :
    updateFrame d f s = .ok () { s with frames := s.frames.set d (f ci) } := by
  simp [updateFrame, h]

/-- The loop of `reallocStack` re-slices the window of every script frame below
depth `n` and touches nothing else. -/
theorem repoint_spec (n : Nat) : ∀ (t : State),
    (∀ j ci, j < n → t.frames[j]? = some (.lua ci) →
      0 ≤ ci.base ∧ 0 ≤ ci.frame.len ∧ ci.base + ci.frame.len ≤ t.stack.length) →
    n ≤ t.frames.length →
    ∃ fs, repoint n t = .ok () { t with frames := fs } ∧
      (∀ j, n ≤ j → fs[j]? = t.frames[j]?) ∧
      (∀ j ci, j < n → t.frames[j]? = some (.lua ci) →
        fs[j]? = some (.lua { ci with frame := ⟨t.stackArr, ci.base, ci.frame.len⟩ })) := by
  induction n with
  | zero =>
    intro t _ _
    exact ⟨t.frames, by simp [repoint], fun _ _ => rfl, fun _ _ h => absurd h (Nat.not_lt_zero _)⟩
  | succ n ih =>
    intro t hwf hlen
    have hn : n < t.frames.length := hlen
    obtain ⟨ci, hci⟩ : ∃ ci, t.frames[n]? = some ci := ⟨t.frames[n], by simp [hn]⟩
    cases ci with
    | go g =>
      obtain ⟨fs, hrun, hhi, hlo⟩ := ih t (fun j c hj h => hwf j c (by omega) h) (by omega)
      refine ⟨fs, ?_, ?_, ?_⟩
      · simp [repoint, frameAt, hci, hrun]
      · intro j hj; exact hhi j (by omega)
      · intro j c hj h
        by_cases hjn : j = n
        · subst hjn; rw [hci] at h; cases h
        · exact hlo j c (by omega) h
    | lua lci =>
      obtain ⟨h0, h1, h2⟩ := hwf n lci (by omega) hci
      have hok : sliceOk t.stack.length lci.base (lci.base + lci.frame.len) = true :=
        (sliceOk_iff _ _ _).mpr ⟨h0, by omega, h2⟩
      let w : CallInfo := .lua { lci with frame := ⟨t.stackArr, lci.base, lci.frame.len⟩ }
      let t1 : State := { t with frames := t.frames.set n w }
      have hstep : updateLuaFrame n (fun c => { c with frame := ⟨t.stackArr, lci.base, lci.frame.len⟩ }) t
          = .ok () t1 := by
        simp [updateLuaFrame, updateFrame, hci, t1, w]
      obtain ⟨fs, hrun, hhi, hlo⟩ := ih t1
        (fun j c hj h => by
          have hne : n ≠ j := by omega
          have : t.frames[j]? = some (.lua c) := by
            simpa [t1, List.getElem?_set, hne] using h
          simpa [t1] using hwf j c (by omega) this)
        (by simp [t1]; omega)
      refine ⟨fs, ?_, ?_, ?_⟩
      · simp only [repoint, bind_run, frameAt, hci, getState_run, hok, if_true, hstep]
        rw [hrun]
      · intro j hj
        rw [hhi j (by omega)]
        have hne : n ≠ j := by omega
        simp [t1, List.getElem?_set, hne]
      · intro j c hj h
        by_cases hjn : j = n
        · subst hjn
          rw [hci] at h
          injection h with h
          injection h with h
          subst h
          rw [hhi j (le_refl _)]
          simp [t1, w, List.getElem?_set, hn]
        · have hne : n ≠ j := by omega
          have := hlo j c (by omega) (by simpa [t1, List.getElem?_set, hne] using h)
          simpa [t1] using this

/-! ## `reallocStack` -/

theorem idx_append_left {α : Type} (xs ys : List α) (i : Int) (h : i < xs.length) :
    idx (xs ++ ys) i = idx xs i := by
  unfold idx
  split
  · rw [List.getElem?_append_left (by omega)]
  · rfl

/-- C10: on a state with `stackLast = len(stack) - extraStack`, a current
frame and frame windows inside the stack, `reallocStack(newSize)` with
`newSize ≥ len(stack)` (and, when assertions are checked, within the sizes
the code asserts) keeps every old slot, `top` and the current frame, and
every script frame down the `previous` chain keeps base, window length and
top, its window reading `stack[base+k]` at offset `k`. -/
theorem reallocStack_preserves_frames (env : Env) (s : State) (newSize : Int) (d : Nat)
    (hlast : s.stackLast = s.stack.length - extraStack)
    (hsize : (s.stack.length : Int) ≤ newSize)
    (hassert : env.checkAsserts = true → newSize ≤ maxStack ∨ newSize = errorStackSize)
    (hcur : s.callInfo = some d) (hd : d < s.frames.length)
    (hwf : ∀ j ci, j ≤ d → s.frames[j]? = some (.lua ci) →
      0 ≤ ci.base ∧ 0 ≤ ci.frame.len ∧ ci.top_ ≤ s.stack.length) :
    ∃ s1, reallocStack env newSize s = .ok () s1 ∧
      (s1.stack.length : Int) = newSize ∧
      s1.stackLast = newSize - extraStack ∧
      (∀ i : Int, i < s.stack.length → idx s1.stack i = idx s.stack i) ∧
      s1.top = s.top ∧
      s1.callInfo = s.callInfo ∧
      (∀ j ci, j ≤ d → s.frames[j]? = some (.lua ci) →
        ∃ ci1, s1.frames[j]? = some (.lua ci1) ∧
          ci1.base = ci.base ∧ ci1.frame.len = ci.frame.len ∧ ci1.top_ = ci.top_ ∧
          ∀ k : Int, 0 ≤ k → k < ci.frame.len →
            frameRead s1 ci1 k = idx s1.stack (ci.base + k) ∧
            (ci.base + k < s.stack.length → frameRead s1 ci1 k = idx s.stack (ci.base + k))) := by
  have ha1 : assert env (decide (newSize ≤ maxStack) || decide (newSize = errorStackSize)) s
      = .ok () s := assert_run_ok env _ s (by
    intro h; rcases hassert h with h | h <;> simp [h])
  have ha2 : assert env (decide (s.stackLast = s.stack.length - extraStack)) s = .ok () s :=
    assert_run_ok env _ s (by intro _; simp [hlast])
  have hns : ¬ newSize < s.stack.length := by omega
  let st := s.stack ++ List.replicate (newSize - s.stack.length).toNat Value.nil
  let arr := if newSize = s.stack.length then s.stackArr else s.stackArr + 1
  let t : State := { s with stack := st, stackArr := arr, stackLast := st.length - extraStack,
                            frames := s.frames.take (d + 1) }
  have hstlen : (st.length : Int) = newSize := by
    simp only [st, List.length_append, List.length_replicate]; omega
  have htf : ∀ j, j ≤ d → t.frames[j]? = s.frames[j]? := by
    intro j hj
    have : j < d + 1 := by omega
    simp [t, List.getElem?_take, this]
  obtain ⟨fs, hrun, _, hlo⟩ := repoint_spec (d + 1) t
    (by
      intro j ci hj hci
      rw [htf j (by omega)] at hci
      obtain ⟨h0, h1, h2⟩ := hwf j ci (by omega) hci
      refine ⟨h0, h1, ?_⟩
      have : ci.base + ci.frame.len = ci.top_ := by
        simp [LuaCallInfo.base, LuaCallInfo.stackIndex]
      rw [this]
      show ci.top_ ≤ (st.length : Int)
      omega)
    (by simp [t]; omega)
  have hcurrent : ∀ u : State, u.callInfo = some d → d < u.frames.length →
      current u = .ok d u := by
    intro u h1 h2; simp [current, h1, h2]
  refine ⟨{ t with frames := fs }, ?_, hstlen, ?_, ?_, rfl, rfl, ?_⟩
  · unfold reallocStack
    simp only [bind_run, getState_run, ha1, ha2, if_neg hns, pure_run, modify_run]
    rw [hcurrent _ (by exact hcur) (by exact hd)]
    exact hrun
  · show (st.length : Int) - extraStack = newSize - extraStack
    rw [hstlen]
  · intro i hi
    exact idx_append_left _ _ i hi
  · intro j ci hj hci
    have h := hlo j ci (by omega) (by rw [htf j hj]; exact hci)
    refine ⟨_, h, ?_, rfl, rfl, ?_⟩
    · simp [LuaCallInfo.base, LuaCallInfo.stackIndex]
    · intro k hk0 hk
      have hread : frameRead { t with frames := fs }
          { ci with frame := ⟨t.stackArr, ci.base, ci.frame.len⟩ } k = idx st (ci.base + k) := by
        simp [frameRead, hk0, hk, t]
      refine ⟨hread, fun hin => ?_⟩
      rw [hread]
      exact idx_append_left _ _ _ hin

/-! ## `pushLuaFrame` -/

theorem current_run (s : State) (d : Nat) (h1 : s.callInfo = some d) (h2 : d < s.frames.length) :
    current s = .ok d s := by
  simp [current, h1, h2]

theorem initializeCallInfo_run (env : Env) (k : Nat) (function top resultCount : Int)
    (callStatus : Nat) (u : State) (ci0 : CallInfo) (h : u.frames[k]? = some ci0)
    (hassert : env.checkAsserts = true → top ≤ u.stackLast) :
    initializeCallInfo env k function top resultCount callStatus u
      = .ok () { u with frames :=
          (u.frames.set k (ci0.mapCommon fun _ => ⟨function, top, resultCount, callStatus⟩)) } := by
  have hk : k < u.frames.length := by
    by_contra hc
    rw [List.getElem?_eq_none (by omega)] at h
    cases h
  unfold initializeCallInfo
  simp only [bind_run, updateFrame_run k _ u ci0 h, frameAt, List.getElem?_set, if_true, hk,
    getState_run]
  rw [assert_run_ok]
  · cases ci0 <;> simp [updateFrame, hk, CallInfo.mapCommon]
  · intro hc
    have := hassert hc
    cases ci0 <;> simpa [CallInfo.mapCommon, CallInfo.common] using this

/-- The frame `pushLuaFrame` makes current, whether pooled or fresh. -/
theorem pushLuaFrame_spec (env : Env) (function base resultCount : Int) (p : Prototype)
    (s : State) (d : Nat)
    (hcur : s.callInfo = some d) (hd : d < s.frames.length)
    (hassert : env.checkAsserts = true → base + p.maxStackSize ≤ s.stackLast)
    (hb : 0 ≤ base) (hm : 0 ≤ p.maxStackSize) (hfit : base + p.maxStackSize ≤ s.stack.length) :
    ∃ fs, pushLuaFrame env function base resultCount p s
        = .ok (d + 1) { s with frames := fs, callInfo := some (d + 1),
                               top := base + p.maxStackSize } ∧
      fs[d + 1]? = some (.lua ⟨⟨function, base + p.maxStackSize, resultCount, callStatusLua⟩,
        ⟨s.stackArr, base, p.maxStackSize⟩, 0, p.code⟩) ∧
      ∀ j, j ≤ d → fs[j]? = s.frames[j]? := by
  have hok : sliceOk s.stack.length base (base + p.maxStackSize) = true :=
    (sliceOk_iff _ _ _).mpr ⟨hb, by omega, hfit⟩
  have hw : base + p.maxStackSize - base = p.maxStackSize := by omega
  unfold pushLuaFrame
  simp only [bind_run, current_run s d hcur hd, getState_run]
  have key : ∀ (F : List CallInfo) (x : LuaCallInfo), F[d + 1]? = some (.lua x) →
      (do
        initializeCallInfo env (d + 1) function (base + p.maxStackSize) resultCount callStatusLua
        let lci ← luaFrameAt (d + 1)
        let s1 ← getState
        (if sliceOk s1.stack.length base lci.top_ then
          updateLuaFrame (d + 1) fun c =>
            { c with frame := ⟨s1.stackArr, base, lci.top_ - base⟩, savedPC := 0, code := p.code }
        else panic .sliceBounds)
        modify fun s => { s with top := lci.top_ }
        pure (d + 1) : Exec Nat) { s with frames := F, callInfo := some (d + 1) }
      = .ok (d + 1) { s with
          frames := (F.set (d + 1) (.lua ⟨⟨function, base + p.maxStackSize, resultCount,
            callStatusLua⟩, ⟨s.stackArr, base, p.maxStackSize⟩, 0, p.code⟩)),
          callInfo := some (d + 1),
          top := base + p.maxStackSize } := by
    intro F x hx
    have hk : d + 1 < F.length := by
      by_contra hc
      rw [List.getElem?_eq_none (by omega)] at hx
      cases hx
    simp only [bind_run]
    rw [initializeCallInfo_run env (d + 1) _ _ _ _
      { s with frames := F, callInfo := some (d + 1) } _ hx hassert]
    simp [luaFrameAt, List.getElem?_set, hk, CallInfo.mapCommon, hok, updateLuaFrame,
      updateFrame, hw]
  cases hnext : s.frames[d + 1]? with
  | none =>
    have hlen : s.frames.length = d + 1 := by
      have := List.getElem?_eq_none_iff.mp hnext
      omega
    have hlt : (s.frames.take (d + 1)).length = d + 1 := by simp [hlen]
    have hx : (s.frames.take (d + 1) ++ [CallInfo.lua LuaCallInfo.zero])[d + 1]?
        = some (.lua LuaCallInfo.zero) := by simp [hlen]
    have h1 : ∀ j, j ≤ d → (s.frames.take (d + 1) ++ [CallInfo.lua LuaCallInfo.zero])[j]?
        = s.frames[j]? := by
      intro j hj
      have : j < d + 1 := by omega
      simp [List.getElem?_append, hlen, this]
    simp only [pushFresh, modify_run, pure_run]
    generalize s.frames.take (d + 1) ++ [CallInfo.lua LuaCallInfo.zero] = F at hx h1 ⊢
    have hk : d + 1 < F.length := by
      by_contra hc
      rw [List.getElem?_eq_none (by omega)] at hx
      cases hx
    have hkey := key F _ hx
    simp only [bind_run, getState_run, modify_run, pure_run] at hkey
    refine ⟨_, hkey, by simp [hk], ?_⟩
    intro j hj
    have hne : d + 1 ≠ j := by omega
    rw [List.getElem?_set, if_neg hne]
    exact h1 j hj
  | some f =>
    have hk : d + 1 < s.frames.length := by
      by_contra hc
      rw [List.getElem?_eq_none (by omega)] at hnext
      cases hnext
    cases f with
    | lua x =>
      simp only [modify_run, pure_run]
      have hkey := key s.frames x hnext
      simp only [bind_run, getState_run, modify_run, pure_run] at hkey
      refine ⟨_, hkey, by simp [hk], ?_⟩
      intro j hj
      have hne : d + 1 ≠ j := by omega
      rw [List.getElem?_set, if_neg hne]
    | go g =>
      have hlt : (s.frames.take (d + 1)).length = d + 1 := by simp; omega
      have hx : (s.frames.take (d + 1) ++ [CallInfo.lua LuaCallInfo.zero])[d + 1]?
          = some (.lua LuaCallInfo.zero) := by
        rw [List.getElem?_append_right (by omega), hlt]; simp
      have h1 : ∀ j, j ≤ d → (s.frames.take (d + 1) ++ [CallInfo.lua LuaCallInfo.zero])[j]?
          = s.frames[j]? := by
        intro j hj
        have : j < d + 1 := by omega
        rw [List.getElem?_append_left (by omega), List.getElem?_take, if_pos this]
      simp only [pushFresh, modify_run, pure_run]
      generalize s.frames.take (d + 1) ++ [CallInfo.lua LuaCallInfo.zero] = F at hx h1 ⊢
      have hk : d + 1 < F.length := by
        by_contra hc
        rw [List.getElem?_eq_none (by omega)] at hx
        cases hx
      have hkey := key F _ hx
      simp only [bind_run, getState_run, modify_run, pure_run] at hkey
      refine ⟨_, hkey, by simp [hk], ?_⟩
      intro j hj
      have hne : d + 1 ≠ j := by omega
      rw [List.getElem?_set, if_neg hne]
      exact h1 j hj

/-! ## `preCall` on a script closure -/

theorem checkStack_enough (env : Env) (n : Int) (s : State) (h : n < s.stackLast - s.top) :
    checkStack env n s = .ok () s := by
  have : ¬ s.stackLast - s.top ≤ n := by omega
  unfold checkStack
  simp only [bind_run, getState_run]
  rw [if_neg this]
  rfl

theorem readStack_run (s : State) (i : Int) (v : Value) (h : idx s.stack i = some v) :
    readStack i s = .ok v s := by
  simp [readStack, h]

theorem idx_some_range {α : Type} (xs : List α) (i : Int) (v : α) (h : idx xs i = some v) :
    0 ≤ i ∧ i < xs.length := by
  unfold idx at h
  split at h
  · have := List.getElem?_eq_some.mp h
    obtain ⟨hlt, _⟩ := this
    omega
  · cases h

/-- The script-closure round of `preCall` for a variadic prototype: where the
arguments end up and which frame is pushed. -/
theorem preCallPass_vararg_spec (env : Env) (s : State) (function resultCount : Int)
    (c d : Nat) (cl : LuaClosure) (p : Prototype)
    (hf : idx s.stack function = some (.luaClosure c))
    (hcl : s.closures[c]? = some cl) (hp : s.protos[cl.prototype]? = some p)
    (hvar : p.isVarArg = true)
    (hfix0 : 0 ≤ p.parameterCount)
    (hargs : p.parameterCount ≤ s.top - function - 1)
    (hhook : s.hookMask &&& MaskCall = 0)
    (hcur : s.callInfo = some d) (hd : d < s.frames.length)
    (hmax : 0 ≤ p.maxStackSize)
    (hroom : p.maxStackSize < s.stackLast - s.top)
    (hlast : s.stackLast ≤ s.stack.length)
    (hargroom : s.top + (s.top - function - 1) ≤ s.stack.length) :
    ∃ st fs, preCallPass env function resultCount s
        = .ok (.returned false)
            { s with stack := st, frames := fs, callInfo := some (d + 1),
                     top := s.top + p.maxStackSize } ∧
      fs[d + 1]? = some (.lua ⟨⟨function, s.top + p.maxStackSize, resultCount, callStatusLua⟩,
        ⟨s.stackArr, s.top, p.maxStackSize⟩, 0, p.code⟩) ∧
      (∀ i : Int, 0 ≤ i → i < p.parameterCount →
        idx st (s.top + i) = idx s.stack (function + 1 + i) ∧
        idx st (function + 1 + i) = some Value.nil) ∧
      (∀ i : Int, p.parameterCount ≤ i → i < s.top - function - 1 →
        idx st (function + 1 + i) = idx s.stack (function + 1 + i)) := by
  obtain ⟨hf0, hflen⟩ := idx_some_range _ _ _ hf
  obtain ⟨st1, hrun1, hlen1, _, hkeep1⟩ :=
    nilStack_spec s.top (s.top + (s.top - function - 1)) s ⟨by omega, by omega, hargroom⟩
  obtain ⟨st2, hrun2, hlen2, hcp2, hkeep2⟩ :=
    copyStack_spec s.top (s.top + p.parameterCount) (s.top - (s.top - function - 1))
      (s.top - (s.top - function - 1) + p.parameterCount) { s with stack := st1 }
      ⟨by omega, by omega, by simp only [hlen1]; omega⟩
      ⟨by omega, by omega, by simp only [hlen1]; omega⟩
  obtain ⟨st3, hrun3, hlen3, hnil3, hkeep3⟩ :=
    nilStack_spec (s.top - (s.top - function - 1))
      (s.top - (s.top - function - 1) + p.parameterCount) { s with stack := st2 }
      ⟨by omega, by omega, by simp only [hlen2, hlen1]; omega⟩
  have hassertArgs : assert env (decide (s.top - function - 1 ≥ p.parameterCount))
      { s with stack := st1 } = .ok () { s with stack := st1 } :=
    assert_run_ok env _ _ (by intro _; simpa using hargs)
  obtain ⟨fs, hrun4, hnew, _⟩ :=
    pushLuaFrame_spec env function s.top resultCount p { s with stack := st3 } d hcur hd
      (by intro _; show s.top + p.maxStackSize ≤ s.stackLast; omega) (by omega) hmax
      (by show s.top + p.maxStackSize ≤ (st3.length : Int)
          rw [hlen3]; simp only [hlen2, hlen1]; omega)
  refine ⟨st3, fs, ?_, hnew, ?_, ?_⟩
  · unfold preCallPass
    simp only [preCallLua, bind_run, readStack_run s function _ hf, closureAt, hcl, protoAt, hp,
      checkStack_enough env _ s hroom, getState_run, hrun1, hvar, if_true, adjustVarArgs,
      hassertArgs, hrun2, hrun3, pure_run, hrun4, hhook, ne_eq, not_true_eq_false, if_false]
  · intro i hi0 hi
    refine ⟨?_, hnil3 (function + 1 + i) (by omega) (by omega)⟩
    rw [hkeep3 (s.top + i) (Or.inr (by omega))]
    rw [hcp2 i hi0 (by omega)]
    rw [hkeep1 _ (Or.inl (by omega))]
    congr 1; omega
  · intro i hi0 hi
    rw [hkeep3 _ (Or.inr (by omega)), hkeep2 _ (Or.inl (by omega)),
      hkeep1 _ (Or.inl (by omega))]

/-- The script-closure round of `preCall` for a prototype that is not
variadic returns with the new frame pushed at `function + 1`. -/
theorem preCallPass_fixed_spec (env : Env) (s : State) (function resultCount : Int)
    (c d : Nat) (cl : LuaClosure) (p : Prototype)
    (hf : idx s.stack function = some (.luaClosure c))
    (hcl : s.closures[c]? = some cl) (hp : s.protos[cl.prototype]? = some p)
    (hvar : p.isVarArg = false)
    (hfn : function < s.top)
    (hhook : s.hookMask &&& MaskCall = 0)
    (hcur : s.callInfo = some d) (hd : d < s.frames.length)
    (hmax : 0 ≤ p.maxStackSize)
    (hroom : p.maxStackSize < s.stackLast - s.top)
    (hlast : s.stackLast ≤ s.stack.length)
    (hargroom : s.top + (s.top - function - 1) ≤ s.stack.length) :
    ∃ st fs, preCallPass env function resultCount s
        = .ok (.returned false)
            { s with stack := st, frames := fs, callInfo := some (d + 1),
                     top := function + 1 + p.maxStackSize } ∧
      fs[d + 1]? = some (.lua ⟨⟨function, function + 1 + p.maxStackSize, resultCount,
        callStatusLua⟩, ⟨s.stackArr, function + 1, p.maxStackSize⟩, 0, p.code⟩) ∧
      (∀ i : Int, i < s.top → idx st i = idx s.stack i) := by
  obtain ⟨hf0, hflen⟩ := idx_some_range _ _ _ hf
  obtain ⟨st1, hrun1, hlen1, _, hkeep1⟩ :=
    nilStack_spec s.top (s.top + (s.top - function - 1)) s ⟨by omega, by omega, hargroom⟩
  obtain ⟨fs, hrun4, hnew, _⟩ :=
    pushLuaFrame_spec env function (function + 1) resultCount p { s with stack := st1 } d
      hcur hd
      (by intro _; show function + 1 + p.maxStackSize ≤ s.stackLast; omega) (by omega) hmax
      (by show function + 1 + p.maxStackSize ≤ (st1.length : Int)
          rw [hlen1]; omega)
  refine ⟨st1, fs, ?_, hnew, fun i hi => hkeep1 i (Or.inl hi)⟩
  unfold preCallPass
  simp only [preCallLua, bind_run, readStack_run s function _ hf, closureAt, hcl, protoAt, hp,
    checkStack_enough env _ s hroom, getState_run, hrun1, hvar, pure_run, hrun4, hhook,
    ne_eq, not_true_eq_false, if_false, Bool.false_eq_true]

/-- Where the `argCount` slots above `top` lie inside the stack: for a variadic
prototype with `f` fixed parameters called with `a ≥ f` arguments (hooks off,
room for `maxStackSize`), `preCall` returns `false` with a pushed script frame
whose base is the old `top`; the fixed arguments are read at frame offsets
`0..f-1`, the extra arguments stay where they were, and the original slots of
the fixed arguments are nil. -/
theorem preCall_vararg_fixed_parameters (env : Env) (s : State) (function resultCount : Int)
    (c d : Nat) (cl : LuaClosure) (p : Prototype)
    (hf : idx s.stack function = some (.luaClosure c))
    (hcl : s.closures[c]? = some cl) (hp : s.protos[cl.prototype]? = some p)
    (hvar : p.isVarArg = true)
    (hfix0 : 0 ≤ p.parameterCount)
    (hargs : p.parameterCount ≤ s.top - function - 1)
    (hhook : s.hookMask &&& MaskCall = 0)
    (hcur : s.callInfo = some d) (hd : d < s.frames.length)
    (hmax : 0 ≤ p.maxStackSize)
    (hroom : p.maxStackSize < s.stackLast - s.top)
    (hlast : s.stackLast ≤ s.stack.length)
    (hargroom : s.top + (s.top - function - 1) ≤ s.stack.length) :
    ∃ s1 lci, preCall env function resultCount s = .ok false s1 ∧
      s1.callInfo = some (d + 1) ∧ s1.frames[d + 1]? = some (.lua lci) ∧
      lci.base = s.top ∧ lci.function_ = function ∧
      (∀ i : Int, 0 ≤ i → i < p.parameterCount →
        idx s1.stack (lci.stackIndex i) = idx s.stack (function + 1 + i) ∧
        (i < p.maxStackSize → frameRead s1 lci i = idx s.stack (function + 1 + i)) ∧
        idx s1.stack (function + 1 + i) = some Value.nil) ∧
      (∀ i : Int, p.parameterCount ≤ i → i < s.top - function - 1 →
        idx s1.stack (function + 1 + i) = idx s.stack (function + 1 + i)) := by
  obtain ⟨st, fs, hpass, hnew, hfixed, hextra⟩ :=
    preCallPass_vararg_spec env s function resultCount c d cl p hf hcl hp hvar hfix0 hargs
      hhook hcur hd hmax hroom hlast hargroom
  refine ⟨{ s with stack := st, frames := fs, callInfo := some (d + 1),
                   top := s.top + p.maxStackSize },
    ⟨⟨function, s.top + p.maxStackSize, resultCount, callStatusLua⟩,
      ⟨s.stackArr, s.top, p.maxStackSize⟩, 0, p.code⟩, ?_, rfl, hnew, ?_, rfl, ?_, hextra⟩
  · simp only [preCall, preCallLoop, bind_run, hpass, pure_run]
  · simp [LuaCallInfo.base, LuaCallInfo.stackIndex]
  · intro i hi0 hi
    obtain ⟨hval, hnil⟩ := hfixed i hi0 hi
    refine ⟨?_, ?_, hnil⟩
    · have : (s.top + p.maxStackSize) - p.maxStackSize + i = s.top + i := by omega
      simp only [LuaCallInfo.stackIndex, this]
      exact hval
    · intro him
      simp only [frameRead, hi0, him, and_self, if_true]
      exact hval

/-! ## Writes to the stack and the sliding loop -/

theorem idx_set {α : Type} (xs : List α) (k i : Int) (v : α) (hk0 : 0 ≤ k)
    (hk : k < xs.length) :
    idx (xs.set k.toNat v) i = if i = k then some v else idx xs i := by
  unfold idx
  by_cases hi : 0 ≤ i
  · simp only [hi, if_true, List.getElem?_set]
    by_cases hik : i = k
    · subst hik
      have : i.toNat < xs.length := by omega
      simp [this]
    · have : ¬ k.toNat = i.toNat := by omega
      simp [hik, this]
  · have : ¬ i = k := by omega
    simp [hi, this]

theorem idx_in_range {α : Type} (xs : List α) (i : Int) (h0 : 0 ≤ i) (h1 : i < xs.length) :
    ∃ v, idx xs i = some v := by
  unfold idx
  rw [if_pos h0]
  cases h : xs[i.toNat]? with
  | none =>
    rw [List.getElem?_eq_none_iff] at h
    omega
  | some v => exact ⟨v, rfl⟩

theorem writeStack_run (s : State) (i : Int) (v : Value) (h0 : 0 ≤ i) (h1 : i < s.stack.length) :
    writeStack i v s = .ok () { s with stack := s.stack.set i.toNat v } := by
  simp [writeStack, h0, h1]

/-- The sliding loop of `preCall` moves the `n` slots from `function` on up by
one and leaves the others as they were. -/
theorem slideUp_spec (function : Int) (n : Nat) : ∀ s : State,
    0 ≤ function → function + n < s.stack.length →
    ∃ st, slideUp function n s = .ok () { s with stack := st } ∧
      st.length = s.stack.length ∧
      (∀ i : Int, function < i → i ≤ function + n → idx st i = idx s.stack (i - 1)) ∧
      (∀ i : Int, i ≤ function ∨ function + n < i → idx st i = idx s.stack i) := by
  induction n with
  | zero =>
    intro s _ _
    refine ⟨s.stack, by simp [slideUp], rfl, ?_, fun _ _ => rfl⟩
    intro i h1 h2
    simp at h2
    omega
  | succ n ih =>
    intro s hf hlen
    have hsrc : 0 ≤ function + ((n + 1 : Nat) : Int) - 1 ∧
        function + ((n + 1 : Nat) : Int) - 1 < s.stack.length := by
      constructor <;> push_cast <;> omega
    obtain ⟨v, hv⟩ := idx_in_range s.stack _ hsrc.1 hsrc.2
    have hw := writeStack_run s (function + ((n + 1 : Nat) : Int)) v (by omega) (by omega)
    obtain ⟨st, hrun, hl, hmove, hkeep⟩ :=
      ih { s with stack := s.stack.set (function + ((n + 1 : Nat) : Int)).toNat v } hf
        (by simp only [List.length_set]; push_cast at hlen; omega)
    have hset : ∀ i : Int,
        idx (s.stack.set (function + ((n + 1 : Nat) : Int)).toNat v) i
          = if i = function + ((n + 1 : Nat) : Int) then some v else idx s.stack i :=
      fun i => idx_set s.stack _ i v (by omega) (by omega)
    refine ⟨st, ?_, ?_, ?_, ?_⟩
    · simp only [slideUp, bind_run, readStack_run s _ v hv, hw]
      exact hrun
    · rw [hl]; simp
    · intro i h1 h2
      by_cases hi : i = function + ((n + 1 : Nat) : Int)
      · rw [hkeep i (Or.inr (by omega)), hset, if_pos hi, ← hv, hi]
      · have h3 : i ≤ function + (n : Int) := by push_cast at h2 hi; omega
        rw [hmove i h1 h3, hset, if_neg (by push_cast; omega)]
    · intro i hi
      have h3 : i ≤ function ∨ function + (n : Int) < i := by
        rcases hi with hi | hi
        · exact Or.inl hi
        · right; push_cast at hi; omega
      rw [hkeep i h3, hset, if_neg (by rcases hi with hi | hi <;> push_cast at * <;> omega)]

/-! ## `preCall` on a value with a "call" tag method -/

/-- The redirecting round of `preCall`: the callee and its arguments move up by
one slot and the tag method takes the callee position. -/
theorem preCallPass_redirect (env : Env) (s : State) (function resultCount : Int) (x : Value)
    (t : Nat)
    (hx : idx s.stack function = some x)
    (hx1 : ∀ c, x ≠ .luaClosure c) (hx2 : ∀ g, x ≠ .goClosure g)
    (htm : env.tagMethodByObject x = .luaClosure t)
    (hfn : function < s.top) (htop : s.top < s.stack.length)
    (hroom : 0 < s.stackLast - (s.top + 1)) :
    ∃ st, preCallPass env function resultCount s
        = .ok .again { s with stack := st, top := s.top + 1 } ∧
      st.length = s.stack.length ∧
      idx st function = some (.luaClosure t) ∧
      (∀ i : Int, function < i → i ≤ s.top → idx st i = idx s.stack (i - 1)) ∧
      (∀ i : Int, i < function ∨ s.top < i → idx st i = idx s.stack i) := by
  obtain ⟨hf0, hflen⟩ := idx_some_range _ _ _ hx
  have hn : function + ((s.top - function).toNat : Int) = s.top := by omega
  obtain ⟨st1, hrun1, hlen1, hmove, hkeep⟩ :=
    slideUp_spec function (s.top - function).toNat s hf0 (by rw [hn]; exact htop)
  have hcs : checkStack env 0 { s with stack := st1, top := s.top + 1 }
      = .ok () { s with stack := st1, top := s.top + 1 } :=
    checkStack_enough env 0 _ hroom
  have hw := writeStack_run { s with stack := st1, top := s.top + 1 } function
    (.luaClosure t) hf0 (by show function < (st1.length : Int); rw [hlen1]; exact hflen)
  have hset : ∀ i : Int, idx (st1.set function.toNat (.luaClosure t)) i
      = if i = function then some (.luaClosure t) else idx st1 i :=
    fun i => idx_set st1 function i _ hf0 (by rw [hlen1]; exact hflen)
  refine ⟨st1.set function.toNat (.luaClosure t), ?_, ?_, ?_, ?_, ?_⟩
  · unfold preCallPass
    simp only [bind_run, readStack_run s function x hx]
    cases x with
    | luaClosure c => exact absurd rfl (hx1 c)
    | goClosure g => exact absurd rfl (hx2 g)
    | _ => simp only [preCallDefault, htm, bind_run, getState_run, hrun1, modify_run, hcs, hw, pure_run]
  · simp [hlen1]
  · rw [hset, if_pos rfl]
  · intro i h1 h2
    rw [hset, if_neg (by omega), hmove i h1 (by omega)]
  · intro i hi
    rw [hset, if_neg (by omega)]
    exact hkeep i (by omega)

/-- Where the slots the nil loop of the second round runs over lie inside the
stack: when the callee `x` is no closure and its "call" tag method is the
script closure `t`, one round of the loop of `preCall` leaves `t` at the
callee position, `x` right above it, the arguments above `x` in order, and
`top` one higher; the next round takes the script-closure case and returns,
so two rounds of fuel, or any more, complete `preCall`. -/
theorem preCall_call_tag_method (env : Env) (s : State) (function resultCount : Int)
    (x : Value) (t d : Nat) (cl : LuaClosure) (p : Prototype)
    (hx : idx s.stack function = some x)
    (hx1 : ∀ c, x ≠ .luaClosure c) (hx2 : ∀ g, x ≠ .goClosure g)
    (htm : env.tagMethodByObject x = .luaClosure t)
    (hcl : s.closures[t]? = some cl) (hp : s.protos[cl.prototype]? = some p)
    (hfn : function < s.top)
    (hhook : s.hookMask &&& MaskCall = 0)
    (hcur : s.callInfo = some d) (hd : d < s.frames.length)
    (hmax : 0 ≤ p.maxStackSize)
    (hroom : p.maxStackSize < s.stackLast - (s.top + 1))
    (hlast : s.stackLast ≤ s.stack.length)
    (hargroom : s.top + 1 + (s.top - function) ≤ s.stack.length)
    (hvar : p.isVarArg = true → 0 ≤ p.parameterCount ∧ p.parameterCount ≤ s.top - function) :
    ∃ s1 s2,
      preCallPass env function resultCount s = .ok .again s1 ∧
      idx s1.stack function = some (.luaClosure t) ∧
      idx s1.stack (function + 1) = some x ∧
      (∀ i : Int, 1 ≤ i → i ≤ s.top - function - 1 →
        idx s1.stack (function + 1 + i) = idx s.stack (function + i)) ∧
      s1.top = s.top + 1 ∧
      preCallPass env function resultCount s1 = .ok (.returned false) s2 ∧
      (∀ fuel, 2 ≤ fuel → preCallLoop env function resultCount fuel s = .ok false s2) ∧
      preCall env function resultCount s = .ok false s2 := by
  obtain ⟨hf0, hflen⟩ := idx_some_range _ _ _ hx
  obtain ⟨st, hpass1, hlen, hcallee, hmove, _⟩ :=
    preCallPass_redirect env s function resultCount x t hx hx1 hx2 htm hfn (by omega) (by omega)
  have hsecond : ∃ s2, preCallPass env function resultCount
      { s with stack := st, top := s.top + 1 } = .ok (.returned false) s2 := by
    cases hv : p.isVarArg with
    | true =>
      obtain ⟨h0, h1⟩ := hvar hv
      obtain ⟨st2, fs, hrun, _⟩ :=
        preCallPass_vararg_spec env { s with stack := st, top := s.top + 1 } function
          resultCount t d cl p hcallee hcl hp hv h0
          (by show p.parameterCount ≤ s.top + 1 - function - 1; omega) hhook hcur hd hmax
          hroom (by show s.stackLast ≤ (st.length : Int); rw [hlen]; exact hlast)
          (by show s.top + 1 + (s.top + 1 - function - 1) ≤ (st.length : Int)
              rw [hlen]; omega)
      exact ⟨_, hrun⟩
    | false =>
      obtain ⟨st2, fs, hrun, _⟩ :=
        preCallPass_fixed_spec env { s with stack := st, top := s.top + 1 } function
          resultCount t d cl p hcallee hcl hp hv
          (by show function < s.top + 1; omega) hhook hcur hd hmax
          hroom (by show s.stackLast ≤ (st.length : Int); rw [hlen]; exact hlast)
          (by show s.top + 1 + (s.top + 1 - function - 1) ≤ (st.length : Int)
              rw [hlen]; omega)
      exact ⟨_, hrun⟩
  obtain ⟨s2, hpass2⟩ := hsecond
  have hloop : ∀ fuel, 2 ≤ fuel → preCallLoop env function resultCount fuel s = .ok false s2 := by
    intro fuel hfuel
    obtain ⟨k, rfl⟩ : ∃ k, fuel = k + 2 := ⟨fuel - 2, by omega⟩
    simp only [preCallLoop, bind_run, hpass1, hpass2, pure_run]
  refine ⟨_, s2, hpass1, hcallee, ?_, ?_, rfl, hpass2, hloop, hloop 2 (le_refl 2)⟩
  · have := hmove (function + 1) (by omega) (by omega)
    rw [this]
    have e : function + 1 - 1 = function := by omega
    rw [e]; exact hx
  · intro i hi1 hi2
    have := hmove (function + 1 + i) (by omega) (by omega)
    rw [this]
    congr 1; omega

/-! ## Runs that raise no call type error -/

theorem noTypeError_pure {α : Type} (a : α) : NoTypeError (pure a : Exec α) := by
  intro s e s1 h; cases h

theorem noTypeError_panic {α : Type} (e : Err) (he : e.isTypeError = false) :
    NoTypeError (panic e : Exec α) := by
  intro s e1 s1 h
  cases h
  exact he

theorem noTypeError_getState : NoTypeError getState := by
  intro s e s1 h; cases h

theorem noTypeError_modify (f : State → State) : NoTypeError (modify f) := by
  intro s e s1 h; cases h

theorem noTypeError_bind {α β : Type} (x : Exec α) (f : α → Exec β)
    (hx : NoTypeError x) (hf : ∀ a, NoTypeError (f a)) : NoTypeError (x >>= f) := by
  intro s e s1 h
  rw [bind_run] at h
  cases hxs : x s with
  | ok a s2 =>
    rw [hxs] at h
    exact hf a s2 e s1 h
  | panic e2 s2 =>
    rw [hxs] at h
    cases h
    exact hx s e s1 hxs

theorem noTypeError_ite {α : Type} (c : Prop) [Decidable c] (x y : Exec α)
    (hx : NoTypeError x) (hy : NoTypeError y) : NoTypeError (if c then x else y) := by
  split
  · exact hx
  · exact hy

theorem noTypeError_readStack (i : Int) : NoTypeError (readStack i) := by
  intro s e s1 h
  unfold readStack at h
  split at h <;> cases h
  rfl

theorem noTypeError_writeStack (i : Int) (v : Value) : NoTypeError (writeStack i v) := by
  intro s e s1 h
  unfold writeStack at h
  split at h <;> cases h
  rfl

theorem noTypeError_copyStack (a b c d : Int) : NoTypeError (copyStack a b c d) := by
  intro s e s1 h
  unfold copyStack at h
  split at h <;> cases h
  rfl

theorem noTypeError_nilStack (a b : Int) : NoTypeError (nilStack a b) := by
  intro s e s1 h
  unfold nilStack at h
  split at h <;> cases h
  rfl

theorem noTypeError_closureAt (c : Nat) : NoTypeError (closureAt c) := by
  intro s e s1 h
  unfold closureAt at h
  split at h <;> cases h
  rfl

theorem noTypeError_protoAt (c : Nat) : NoTypeError (protoAt c) := by
  intro s e s1 h
  unfold protoAt at h
  split at h <;> cases h
  rfl

theorem noTypeError_current : NoTypeError current := by
  intro s e s1 h
  unfold current at h
  split at h
  · split at h <;> cases h
    rfl
  · cases h
    rfl

theorem noTypeError_currentLua : NoTypeError currentLua := by
  intro s e s1 h
  unfold currentLua at h
  split at h
  · split at h <;> cases h
    rfl
  · cases h
    rfl

theorem noTypeError_frameAt (d : Nat) : NoTypeError (frameAt d) := by
  intro s e s1 h
  unfold frameAt at h
  split at h <;> cases h
  rfl

theorem noTypeError_luaFrameAt (d : Nat) : NoTypeError (luaFrameAt d) := by
  intro s e s1 h
  unfold luaFrameAt at h
  split at h <;> cases h
  rfl

theorem noTypeError_assert (env : Env) (c : Bool) : NoTypeError (assert env c) := by
  unfold assert
  exact noTypeError_ite _ _ _ (noTypeError_panic _ rfl) (noTypeError_pure _)

theorem noTypeError_updateFrame (d : Nat) (f : CallInfo → CallInfo) :
    NoTypeError (updateFrame d f) :=
  noTypeError_modify _

theorem noTypeError_updateLuaFrame (d : Nat) (f : LuaCallInfo → LuaCallInfo) :
    NoTypeError (updateLuaFrame d f) :=
  noTypeError_modify _

theorem noTypeError_initializeCallInfo (env : Env) (d : Nat) (a b c : Int) (st : Nat) :
    NoTypeError (initializeCallInfo env d a b c st) := by
  unfold initializeCallInfo
  refine noTypeError_bind _ _ (noTypeError_updateFrame _ _) fun _ => ?_
  refine noTypeError_bind _ _ (noTypeError_frameAt _) fun _ => ?_
  refine noTypeError_bind _ _ noTypeError_getState fun _ => ?_
  refine noTypeError_bind _ _ (noTypeError_assert _ _) fun _ => ?_
  exact noTypeError_updateFrame _ _

theorem noTypeError_pushLuaFrame (env : Env) (a b c : Int) (p : Prototype) :
    NoTypeError (pushLuaFrame env a b c p) := by
  unfold pushLuaFrame
  refine noTypeError_bind _ _ noTypeError_current fun d => ?_
  refine noTypeError_bind _ _ noTypeError_getState fun s => ?_
  refine noTypeError_bind _ _ ?_ fun _ => ?_
  · split
    · exact noTypeError_modify _
    · exact noTypeError_modify _
  refine noTypeError_bind _ _ (noTypeError_initializeCallInfo _ _ _ _ _ _) fun _ => ?_
  refine noTypeError_bind _ _ (noTypeError_luaFrameAt _) fun _ => ?_
  refine noTypeError_bind _ _ noTypeError_getState fun _ => ?_
  refine noTypeError_bind _ _ ?_ fun _ => ?_
  · exact noTypeError_ite _ _ _ (noTypeError_updateLuaFrame _ _) (noTypeError_panic _ rfl)
  refine noTypeError_bind _ _ (noTypeError_modify _) fun _ => ?_
  exact noTypeError_pure _

theorem noTypeError_repoint (n : Nat) : NoTypeError (repoint n) := by
  induction n with
  | zero => exact noTypeError_pure _
  | succ n ih =>
    unfold repoint
    refine noTypeError_bind _ _ (noTypeError_frameAt _) fun ci => ?_
    refine noTypeError_bind _ _ ?_ fun _ => ih
    cases ci with
    | lua lci =>
      refine noTypeError_bind _ _ noTypeError_getState fun _ => ?_
      exact noTypeError_ite _ _ _ (noTypeError_updateLuaFrame _ _) (noTypeError_panic _ rfl)
    | go g => exact noTypeError_pure _

theorem noTypeError_reallocStack (env : Env) (n : Int) : NoTypeError (reallocStack env n) := by
  unfold reallocStack
  refine noTypeError_bind _ _ noTypeError_getState fun _ => ?_
  refine noTypeError_bind _ _ (noTypeError_assert _ _) fun _ => ?_
  refine noTypeError_bind _ _ (noTypeError_assert _ _) fun _ => ?_
  refine noTypeError_bind _ _ ?_ fun _ => ?_
  · exact noTypeError_ite _ _ _ (noTypeError_panic _ rfl) (noTypeError_pure _)
  refine noTypeError_bind _ _ (noTypeError_modify _) fun _ => ?_
  refine noTypeError_bind _ _ (noTypeError_modify _) fun _ => ?_
  refine noTypeError_bind _ _ noTypeError_current fun _ => ?_
  refine noTypeError_bind _ _ (noTypeError_modify _) fun _ => ?_
  exact noTypeError_repoint _

theorem noTypeError_growStack (env : Env) (n : Int) : NoTypeError (growStack env n) := by
  unfold growStack
  refine noTypeError_bind _ _ noTypeError_getState fun _ => ?_
  refine noTypeError_ite _ _ _ (noTypeError_panic _ rfl) ?_
  refine noTypeError_ite _ _ _ ?_ (noTypeError_reallocStack _ _)
  exact noTypeError_bind _ _ (noTypeError_reallocStack _ _) fun _ => noTypeError_panic _ rfl

theorem noTypeError_checkStack (env : Env) (n : Int) : NoTypeError (checkStack env n) := by
  unfold checkStack
  refine noTypeError_bind _ _ noTypeError_getState fun _ => ?_
  exact noTypeError_ite _ _ _ (noTypeError_growStack _ _) (noTypeError_pure _)

theorem noTypeError_adjustVarArgs (env : Env) (p : Prototype) (n : Int) :
    NoTypeError (adjustVarArgs env p n) := by
  unfold adjustVarArgs
  refine noTypeError_bind _ _ (noTypeError_assert _ _) fun _ => ?_
  refine noTypeError_bind _ _ noTypeError_getState fun _ => ?_
  refine noTypeError_bind _ _ (noTypeError_copyStack _ _ _ _) fun _ => ?_
  refine noTypeError_bind _ _ (noTypeError_nilStack _ _) fun _ => ?_
  exact noTypeError_pure _

theorem noTypeError_slideUp (function : Int) (n : Nat) : NoTypeError (slideUp function n) := by
  induction n with
  | zero => exact noTypeError_pure _
  | succ n ih =>
    unfold slideUp
    refine noTypeError_bind _ _ (noTypeError_readStack _) fun _ => ?_
    exact noTypeError_bind _ _ (noTypeError_writeStack _ _) fun _ => ih

/-- A hook raises no call type error when its callback raises none. -/
theorem noTypeError_hook (env : Env)
    (hh : ∀ h, env.hooker = some h → ∀ ar, NoTypeError (h ar)) (ev line : Int) :
    NoTypeError (hook env ev line) := by
  unfold hook
  refine noTypeError_bind _ _ noTypeError_getState fun s => ?_
  cases hk : env.hooker with
  | none => exact noTypeError_pure _
  | some h =>
    simp only []
    refine noTypeError_ite _ _ _ (noTypeError_pure _) ?_
    refine noTypeError_bind _ _ noTypeError_currentLua fun _ => ?_
    refine noTypeError_bind _ _ (noTypeError_luaFrameAt _) fun _ => ?_
    refine noTypeError_bind _ _ (noTypeError_checkStack _ _) fun _ => ?_
    refine noTypeError_bind _ _ noTypeError_getState fun _ => ?_
    refine noTypeError_bind _ _ (noTypeError_updateFrame _ _) fun _ => ?_
    refine noTypeError_bind _ _ (noTypeError_luaFrameAt _) fun _ => ?_
    refine noTypeError_bind _ _ noTypeError_getState fun _ => ?_
    refine noTypeError_bind _ _ (noTypeError_assert _ _) fun _ => ?_
    refine noTypeError_bind _ _ (noTypeError_modify _) fun _ => ?_
    refine noTypeError_bind _ _ (noTypeError_updateFrame _ _) fun _ => ?_
    refine noTypeError_bind _ _ (hh h hk _) fun _ => ?_
    refine noTypeError_bind _ _ noTypeError_getState fun _ => ?_
    refine noTypeError_bind _ _ (noTypeError_assert _ _) fun _ => ?_
    refine noTypeError_bind _ _ (noTypeError_modify _) fun _ => ?_
    refine noTypeError_bind _ _ (noTypeError_updateFrame _ _) fun _ => ?_
    refine noTypeError_bind _ _ (noTypeError_modify _) fun _ => ?_
    exact noTypeError_updateFrame _ _

theorem noTypeError_callHook (env : Env)
    (hh : ∀ h, env.hooker = some h → ∀ ar, NoTypeError (h ar)) (ci : Nat) :
    NoTypeError (callHook env ci) := by
  unfold callHook
  refine noTypeError_bind _ _ (noTypeError_updateLuaFrame _ _) fun _ => ?_
  refine noTypeError_bind _ _ noTypeError_getState fun s => ?_
  refine noTypeError_bind _ _ ?_ fun _ => noTypeError_updateLuaFrame _ _
  cases ci with
  | zero => exact noTypeError_hook env hh _ _
  | succ d =>
    simp only []
    split
    · split
      · exact noTypeError_panic _ rfl
      · refine noTypeError_ite _ _ _ ?_ (noTypeError_hook env hh _ _)
        exact noTypeError_bind _ _ (noTypeError_updateFrame _ _) fun _ =>
          noTypeError_hook env hh _ _
    · exact noTypeError_hook env hh _ _

/-! ## The loop of `preCall` takes at most two rounds -/

theorem bind_ok_inv {α β : Type} (x : Exec α) (f : α → Exec β) (s s1 : State) (r : β)
    (h : (x >>= f) s = .ok r s1) : ∃ a s0, x s = .ok a s0 ∧ f a s0 = .ok r s1 := by
  rw [bind_run] at h
  cases hx : x s with
  | ok a s0 =>
    rw [hx] at h
    exact ⟨a, s0, rfl, h⟩
  | panic e s0 =>
    rw [hx] at h
    cases h

theorem returns_bind {α : Type} (x : Exec α) (f : α → Exec Pass) (hf : ∀ a, Returns (f a)) :
    Returns (x >>= f) := by
  intro s s1 h
  obtain ⟨a, s0, _, h2⟩ := bind_ok_inv x f s s1 _ h
  exact hf a s0 s1 h2

theorem returns_pure (b : Bool) : Returns (pure (.returned b)) := by
  intro s s1 h
  cases h

theorem returns_preCallGo (env : Env) (function resultCount : Int) (g : Nat) :
    Returns (preCallGo env function resultCount g) := by
  unfold preCallGo
  refine returns_bind _ _ (fun _ => ?_)
  refine returns_bind _ _ (fun _ => ?_)
  refine returns_bind _ _ (fun _ => ?_)
  refine returns_bind _ _ (fun _ => ?_)
  refine returns_bind _ _ (fun _ => ?_)
  refine returns_bind _ _ (fun _ => ?_)
  refine returns_bind _ _ (fun _ => ?_)
  refine returns_bind _ _ (fun _ => ?_)
  exact returns_pure _

theorem returns_preCallLua (env : Env) (function resultCount : Int) (c : Nat) :
    Returns (preCallLua env function resultCount c) := by
  unfold preCallLua
  refine returns_bind _ _ (fun _ => ?_)
  refine returns_bind _ _ (fun _ => ?_)
  refine returns_bind _ _ (fun _ => ?_)
  refine returns_bind _ _ (fun _ => ?_)
  refine returns_bind _ _ (fun _ => ?_)
  refine returns_bind _ _ (fun _ => ?_)
  refine returns_bind _ _ (fun _ => ?_)
  refine returns_bind _ _ (fun _ => ?_)
  refine returns_bind _ _ (fun _ => ?_)
  exact returns_pure _

/-- When the `default` case reaches the end of the loop body, the callee
position holds a script closure. -/
theorem preCallDefault_again (env : Env) (function : Int) (f : Value) (s s1 : State)
    (h : preCallDefault env function f s = .ok .again s1) :
    ∃ fn, env.tagMethodByObject f = .luaClosure fn ∧
      idx s1.stack function = some (.luaClosure fn) := by
  unfold preCallDefault at h
  cases htm : env.tagMethodByObject f with
  | luaClosure fn =>
    rw [htm] at h
    simp only [] at h
    refine ⟨fn, rfl, ?_⟩
    obtain ⟨_, _, _, h⟩ := bind_ok_inv _ _ _ _ _ h
    obtain ⟨_, _, _, h⟩ := bind_ok_inv _ _ _ _ _ h
    obtain ⟨_, _, _, h⟩ := bind_ok_inv _ _ _ _ _ h
    obtain ⟨_, _, _, h⟩ := bind_ok_inv _ _ _ _ _ h
    obtain ⟨_, s0, hw, h⟩ := bind_ok_inv _ _ _ _ _ h
    cases h
    unfold writeStack at hw
    split at hw
    · rename_i hr
      cases hw
      show idx (List.set _ function.toNat _) function = _
      rw [idx_set _ _ _ _ hr.1 hr.2, if_pos rfl]
    · cases hw
  | _ =>
    rw [htm] at h
    cases h

theorem preCallPass_again (env : Env) (function resultCount : Int) (s s1 : State)
    (h : preCallPass env function resultCount s = .ok .again s1) :
    ∃ fn, idx s1.stack function = some (.luaClosure fn) := by
  unfold preCallPass at h
  obtain ⟨v, s0, _, h⟩ := bind_ok_inv _ _ _ _ _ h
  cases v with
  | goClosure g => exact absurd h (returns_preCallGo env function resultCount g s0 s1)
  | luaClosure c => exact absurd h (returns_preCallLua env function resultCount c s0 s1)
  | _ =>
    obtain ⟨fn, _, hfn⟩ := preCallDefault_again env function _ s0 s1 h
    exact ⟨fn, hfn⟩

/-- A round that starts with a script closure at the callee position returns
or fails. -/
theorem preCallPass_closure_returns (env : Env) (function resultCount : Int) (s s1 : State)
    (c : Nat) (hc : idx s.stack function = some (.luaClosure c)) :
    preCallPass env function resultCount s ≠ .ok .again s1 := by
  intro h
  unfold preCallPass at h
  rw [bind_run, readStack_run s function _ hc] at h
  exact returns_preCallLua env function resultCount c s s1 h

/-- The loop of `preCall` never takes a third round: more fuel than two
rounds changes nothing. -/
theorem preCallLoop_two_rounds (env : Env) (function resultCount : Int) (fuel : Nat)
    (s : State) :
    preCallLoop env function resultCount (fuel + 2) s = preCall env function resultCount s := by
  unfold preCall
  simp only [preCallLoop, bind_run]
  cases h1 : preCallPass env function resultCount s with
  | panic e s1 => rfl
  | ok r s1 =>
    cases r with
    | returned b => rfl
    | again =>
      simp only []
      obtain ⟨fn, hfn⟩ := preCallPass_again env function resultCount s s1 h1
      cases h2 : preCallPass env function resultCount s1 with
      | panic e s2 => simp only [bind_run, h2]
      | ok r2 s2 =>
        cases r2 with
        | returned b => simp only [bind_run, h2]
        | again =>
          exact absurd h2 (preCallPass_closure_returns env function resultCount s1 s2 fn hfn)

/-! ## The call type error -/

theorem preCallPass_eq_default (env : Env) (function resultCount : Int) (s : State) (x : Value)
    (hx : idx s.stack function = some x)
    (hx1 : ∀ c, x ≠ .luaClosure c) (hx2 : ∀ g, x ≠ .goClosure g) :
    preCallPass env function resultCount s = preCallDefault env function x s := by
  unfold preCallPass
  rw [bind_run, readStack_run s function x hx]
  cases x with
  | luaClosure c => exact absurd rfl (hx1 c)
  | goClosure g => exact absurd rfl (hx2 g)
  | _ => rfl

theorem preCallPass_eq_lua (env : Env) (function resultCount : Int) (s : State) (c : Nat)
    (hc : idx s.stack function = some (.luaClosure c)) :
    preCallPass env function resultCount s = preCallLua env function resultCount c s := by
  unfold preCallPass
  rw [bind_run, readStack_run s function _ hc]

theorem noTypeError_preCallLua (env : Env)
    (hh : ∀ h, env.hooker = some h → ∀ ar, NoTypeError (h ar))
    (function resultCount : Int) (c : Nat) :
    NoTypeError (preCallLua env function resultCount c) := by
  unfold preCallLua
  refine noTypeError_bind _ _ (noTypeError_closureAt _) fun _ => ?_
  refine noTypeError_bind _ _ (noTypeError_protoAt _) fun _ => ?_
  refine noTypeError_bind _ _ (noTypeError_checkStack _ _) fun _ => ?_
  refine noTypeError_bind _ _ noTypeError_getState fun _ => ?_
  refine noTypeError_bind _ _ (noTypeError_nilStack _ _) fun _ => ?_
  refine noTypeError_bind _ _ ?_ fun _ => ?_
  · exact noTypeError_ite _ _ _ (noTypeError_adjustVarArgs _ _ _) (noTypeError_pure _)
  refine noTypeError_bind _ _ (noTypeError_pushLuaFrame _ _ _ _ _) fun _ => ?_
  refine noTypeError_bind _ _ noTypeError_getState fun _ => ?_
  refine noTypeError_bind _ _ ?_ fun _ => noTypeError_pure _
  exact noTypeError_ite _ _ _ (noTypeError_callHook env hh _) (noTypeError_pure _)

/-- With a script closure as tag method the `default` case raises no call type
error. -/
theorem noTypeError_preCallDefault (env : Env) (function : Int) (x : Value) (t : Nat)
    (htm : env.tagMethodByObject x = .luaClosure t) :
    NoTypeError (preCallDefault env function x) := by
  unfold preCallDefault
  rw [htm]
  simp only []
  refine noTypeError_bind _ _ noTypeError_getState fun _ => ?_
  refine noTypeError_bind _ _ (noTypeError_slideUp _ _) fun _ => ?_
  refine noTypeError_bind _ _ (noTypeError_modify _) fun _ => ?_
  refine noTypeError_bind _ _ (noTypeError_checkStack _ _) fun _ => ?_
  refine noTypeError_bind _ _ (noTypeError_writeStack _ _) fun _ => ?_
  exact noTypeError_pure _

/-- Without a script closure as tag method the `default` case raises the call
type error on the callee and changes nothing. -/
theorem preCallDefault_type_error (env : Env) (function : Int) (x : Value) (s : State)
    (hnl : ∀ t, env.tagMethodByObject x ≠ .luaClosure t) :
    preCallDefault env function x s = .panic (.typeErrorCall x) s := by
  unfold preCallDefault
  cases htm : env.tagMethodByObject x with
  | luaClosure t => exact absurd htm (hnl t)
  | _ => rfl

/-- C9, amended: for a callee `x` that is no closure and a "call" tag method
that is no native closure, `preCall` raises the call type error exactly when
the lookup returns no script closure (none, or a value that is not callable),
then on `x` and with the state unchanged; when it returns a script closure,
the round redirects the call to it.  The hypothesis `_hnat` keeps native
closures as tag methods out of the statement; `hh` says that a hook callback
raises no call type error of its own. -/
theorem preCall_call_type_error (env : Env) (s : State) (function resultCount : Int) (x : Value)
    (hx : idx s.stack function = some x)
    (hx1 : ∀ c, x ≠ .luaClosure c) (hx2 : ∀ g, x ≠ .goClosure g)
    (_hnat : ∀ g, env.tagMethodByObject x ≠ .goClosure g)
    (hh : ∀ h, env.hooker = some h → ∀ ar, NoTypeError (h ar)) :
    ((∃ v s1, preCall env function resultCount s = .panic (.typeErrorCall v) s1) ↔
        ∀ t, env.tagMethodByObject x ≠ .luaClosure t) ∧
    ((∀ t, env.tagMethodByObject x ≠ .luaClosure t) →
        preCall env function resultCount s = .panic (.typeErrorCall x) s) ∧
    (∀ t, env.tagMethodByObject x = .luaClosure t →
        function < s.top → s.top < s.stack.length → 0 < s.stackLast - (s.top + 1) →
        ∃ s1, preCallPass env function resultCount s = .ok .again s1 ∧
          s1.top = s.top + 1 ∧
          idx s1.stack function = some (.luaClosure t) ∧
          idx s1.stack (function + 1) = some x) := by
  have hdef := preCallPass_eq_default env function resultCount s x hx hx1 hx2
  have herr : (∀ t, env.tagMethodByObject x ≠ .luaClosure t) →
      preCall env function resultCount s = .panic (.typeErrorCall x) s := by
    intro hnl
    simp only [preCall, preCallLoop, bind_run, hdef,
      preCallDefault_type_error env function x s hnl]
  refine ⟨⟨?_, ?_⟩, herr, ?_⟩
  · rintro ⟨v, s1, h⟩ t ht
    have hno := noTypeError_preCallDefault env function x t ht
    simp only [preCall, preCallLoop, bind_run, hdef] at h
    cases h1 : preCallDefault env function x s with
    | panic e s2 =>
      rw [h1] at h
      cases h
      have := hno s _ s1 h1
      cases this
    | ok r s2 =>
      rw [h1] at h
      cases r with
      | returned b => cases h
      | again =>
        simp only [] at h
        obtain ⟨fn, _, hfn⟩ := preCallDefault_again env function x s s2 h1
        rw [bind_run, preCallPass_eq_lua env function resultCount s2 fn hfn] at h
        cases h2 : preCallLua env function resultCount fn s2 with
        | panic e s3 =>
          rw [h2] at h
          cases h
          have := noTypeError_preCallLua env hh function resultCount fn s2 _ s1 h2
          cases this
        | ok r2 s3 =>
          rw [h2] at h
          cases r2 with
          | returned b => cases h
          | again => cases h
  · intro h
    exact ⟨x, s, herr h⟩
  · intro t ht hfn htop hroom
    obtain ⟨st, hpass, _, hcallee, hmove, _⟩ :=
      preCallPass_redirect env s function resultCount x t hx hx1 hx2 ht hfn htop hroom
    refine ⟨_, hpass, rfl, hcallee, ?_⟩
    have := hmove (function + 1) (by omega) (by omega)
    rw [this]
    have e : function + 1 - 1 = function := by omega
    rw [e]; exact hx

/-! ## The open-upvalue list -/

theorem isInStackAt_iff (c : UpValue) (level : Int) :
    c.isInStackAt level = true ↔ c = ⟨.stackLocation level⟩ := by
  cases c with
  | mk home =>
    cases home with
    | stackLocation i => simp [UpValue.isInStackAt]
    | value v => simp [UpValue.isInStackAt]

theorem cell_run (s : State) (e : Nat) (c : UpValue) (h : s.cells[e]? = some c) :
    cell e s = .ok c s := by
  simp [cell, h]

/-- The search loop of `findUpValue` returns the first listed cell bound to
`level`, or allocates a new one when there is none. -/
theorem findFrom_spec (level : Int) (l : List Nat) (s : State)
    (hcells : ∀ e ∈ l, ∃ c, s.cells[e]? = some c) :
    (∃ e ∈ l, s.cells[e]? = some ⟨.stackLocation level⟩ ∧ findFrom level l s = .ok e s) ∨
    ((∀ e ∈ l, s.cells[e]? ≠ some ⟨.stackLocation level⟩) ∧
      findFrom level l s = newUpValueAt level s) := by
  induction l with
  | nil =>
    right
    exact ⟨fun _ h => absurd h (List.not_mem_nil _), rfl⟩
  | cons e rest ih =>
    obtain ⟨c, hc⟩ := hcells e (List.mem_cons_self _ _)
    by_cases hat : c.isInStackAt level = true
    · left
      refine ⟨e, List.mem_cons_self _ _, ?_, ?_⟩
      · rw [hc, (isInStackAt_iff c level).mp hat]
      · simp only [findFrom, bind_run, cell_run s e c hc, hat, if_true, pure_run]
    · have hstep : findFrom level (e :: rest) s = findFrom level rest s := by
        simp only [findFrom, bind_run, cell_run s e c hc, hat]
        rfl
      rcases ih (fun e1 h1 => hcells e1 (List.mem_cons_of_mem _ h1)) with
        ⟨e1, hmem, hopen, hrun⟩ | ⟨hnone, hrun⟩
      · left
        exact ⟨e1, List.mem_cons_of_mem _ hmem, hopen, by rw [hstep, hrun]⟩
      · right
        refine ⟨?_, by rw [hstep, hrun]⟩
        intro e1 h1
        rcases List.mem_cons.mp h1 with h | h
        · subst h
          rw [hc]
          intro heq
          injection heq with heq
          exact hat ((isInStackAt_iff c level).mpr heq)
        · exact hnone e1 h

theorem extends_refl (s : State) : Extends s s :=
  ⟨rfl, fun _ h => h, fun _ _ h => h⟩

theorem extends_trans (s t u : State) (h1 : Extends s t) (h2 : Extends t u) : Extends s u :=
  ⟨h2.1.trans h1.1, fun e h => h2.2.1 e (h1.2.1 e h), fun k c h => h2.2.2 k c (h1.2.2 k c h)⟩

theorem getElem?_append_some {α : Type} (xs ys : List α) (k : Nat) (c : α)
    (h : xs[k]? = some c) : (xs ++ ys)[k]? = some c := by
  have hk : k < xs.length := by
    by_contra hc
    rw [List.getElem?_eq_none (by omega)] at h
    cases h
  rw [List.getElem?_append_left hk, h]

/-- What `findUpValue` returns on a well-formed list: a listed open cell bound
to `level`, in a state that extends the old one. -/
theorem findUpValue_spec (level : Int) (s : State) (hwf : RegistryWF s)
    (h0 : 0 ≤ level) (h1 : level < s.stack.length) :
    ∃ e t, findUpValue level s = .ok e t ∧ RegistryWF t ∧ Extends s t ∧
      t.closures = s.closures ∧ t.protos = s.protos ∧
      e ∈ t.upValues ∧ t.cells[e]? = some ⟨.stackLocation level⟩ ∧
      (∀ e0 ∈ s.upValues, s.cells[e0]? = some ⟨.stackLocation level⟩ → e = e0 ∧ t = s) := by
  obtain ⟨hnd, hopen, huniq⟩ := hwf
  have hcells : ∀ e ∈ s.upValues, ∃ c, s.cells[e]? = some c := by
    intro e he
    obtain ⟨i, hi, _⟩ := hopen e he
    exact ⟨_, hi⟩
  rcases findFrom_spec level s.upValues s hcells with ⟨e, hmem, hcell, hrun⟩ | ⟨hnone, hrun⟩
  · refine ⟨e, s, ?_, ⟨hnd, hopen, huniq⟩, extends_refl s, rfl, rfl, hmem, hcell, ?_⟩
    · simp only [findUpValue, bind_run, getState_run, hrun]
    · intro e0 h0m h0c
      exact ⟨huniq e hmem e0 h0m level hcell h0c, rfl⟩
  · have hlt : ∀ e ∈ s.upValues, e < s.cells.length := by
      intro e he
      obtain ⟨c, hc⟩ := hcells e he
      by_contra hcon
      rw [List.getElem?_eq_none (by omega)] at hc
      cases hc
    have hfresh : s.cells.length ∉ s.upValues := fun h => absurd (hlt _ h) (lt_irrefl _)
    have hnew : (s.cells ++ [(⟨.stackLocation level⟩ : UpValue)])[s.cells.length]?
        = some ⟨.stackLocation level⟩ := by
      simp
    refine ⟨s.cells.length,
      { s with cells := s.cells ++ [⟨.stackLocation level⟩],
               upValues := s.cells.length :: s.upValues }, ?_, ⟨?_, ?_, ?_⟩, ⟨rfl, ?_, ?_⟩,
      rfl, rfl, List.mem_cons_self _ _, hnew, ?_⟩
    · simp only [findUpValue, bind_run, getState_run, hrun]
      rfl
    · exact List.nodup_cons.mpr ⟨hfresh, hnd⟩
    · intro e he
      rcases List.mem_cons.mp he with h | h
      · subst h
        exact ⟨level, hnew, h0, h1⟩
      · obtain ⟨i, hi, hr⟩ := hopen e h
        exact ⟨i, getElem?_append_some _ _ _ _ hi, hr⟩
    · intro e1 he1 e2 he2 i hc1 hc2
      have old : ∀ e ∈ s.upValues, ∀ c, s.cells[e]? = some c →
          (s.cells ++ [(⟨.stackLocation level⟩ : UpValue)])[e]? = some c :=
        fun e _ c hc => getElem?_append_some _ _ _ _ hc
      rcases List.mem_cons.mp he1 with h | h <;> rcases List.mem_cons.mp he2 with h' | h'
      · rw [h, h']
      · exfalso
        subst h
        obtain ⟨j, hj, _⟩ := hopen e2 h'
        have := old e2 h' _ hj
        rw [this] at hc2
        rw [hnew] at hc1
        injection hc1 with hc1
        injection hc2 with hc2
        rw [← hc1] at hc2
        exact hnone e2 h' (by rw [hj, hc2])
      · exfalso
        subst h'
        obtain ⟨j, hj, _⟩ := hopen e1 h
        have := old e1 h _ hj
        rw [this] at hc1
        rw [hnew] at hc2
        injection hc1 with hc1
        injection hc2 with hc2
        rw [← hc2] at hc1
        exact hnone e1 h (by rw [hj, hc1])
      · obtain ⟨j1, hj1, _⟩ := hopen e1 h
        obtain ⟨j2, hj2, _⟩ := hopen e2 h'
        rw [old e1 h _ hj1] at hc1
        rw [old e2 h' _ hj2] at hc2
        exact huniq e1 h e2 h' i (by rw [hj1, hc1]) (by rw [hj2, hc2])
    · intro e he
      exact List.mem_cons_of_mem _ he
    · intro k c hc
      exact getElem?_append_some _ _ _ _ hc
    · intro e0 h0m h0c
      exact absurd h0c (hnone e0 h0m)

/-! ## The loop of `newClosure` -/

theorem getElem?_some_lt {α : Type} (xs : List α) (k : Nat) (c : α) (h : xs[k]? = some c) :
    k < xs.length := by
  by_contra hc
  rw [List.getElem?_eq_none (by omega)] at h
  cases h

theorem setClosureUpValue_run (c i : Nat) (x : Option Nat) (u : State) (cl : LuaClosure)
    (h : u.closures[c]? = some cl) :
    setClosureUpValue c i x u
      = .ok () { u with closures :=
          (u.closures.set c { cl with upValues := cl.upValues.set i x }) } := by
  simp [setClosureUpValue, h]

/-- The loop of `newClosure` fills the upvalue slots from `i` on: a slot with
a local descriptor gets a listed open cell bound to `base + index`. -/
theorem bindUpValues_spec (c : Nat) (ups : List (Option Nat)) (base : Int) :
    ∀ (rest : List UpValueDesc) (i : Nat) (u : State) (cl : LuaClosure),
    RegistryWF u → u.closures[c]? = some cl → i + rest.length ≤ cl.upValues.length →
    (∀ d ∈ rest, d.isLocal = true → 0 ≤ base + d.index ∧ base + d.index < u.stack.length) →
    (∀ d ∈ rest, d.isLocal = false → ∃ x, idx ups d.index = some x) →
    ∃ t cl1, bindUpValues c ups base i rest u = .ok () t ∧ RegistryWF t ∧ Extends u t ∧
      t.protos = u.protos ∧ t.closures.length = u.closures.length ∧
      (∀ k, k ≠ c → t.closures[k]? = u.closures[k]?) ∧
      t.closures[c]? = some cl1 ∧ cl1.upValues.length = cl.upValues.length ∧
      (∀ j, j < i → cl1.upValues[j]? = cl.upValues[j]?) ∧
      (∀ j d, rest[j]? = some d → d.isLocal = true →
        ∃ e, cl1.upValues[i + j]? = some (some e) ∧ e ∈ t.upValues ∧
          t.cells[e]? = some ⟨.stackLocation (base + d.index)⟩) := by
  intro rest
  induction rest with
  | nil =>
    intro i u cl hwf hcl _ _ _
    refine ⟨u, cl, rfl, hwf, extends_refl u, rfl, rfl, fun _ _ => rfl, hcl, rfl,
      fun _ _ => rfl, ?_⟩
    intro j d hj
    simp at hj
  | cons d rest ih =>
    intro i u cl hwf hcl hlen hloc hinh
    have hc : c < u.closures.length := getElem?_some_lt _ _ _ hcl
    have hi : i < cl.upValues.length := by
      simp only [List.length_cons] at hlen; omega
    -- the state after the assignment to slot `i`, for the cell `x` stored there
    have step : ∀ (t0 : State) (x : Option Nat), RegistryWF t0 → Extends u t0 →
        t0.closures = u.closures → t0.protos = u.protos →
        (d.isLocal = true → ∃ e, x = some e ∧ e ∈ t0.upValues ∧
          t0.cells[e]? = some ⟨.stackLocation (base + d.index)⟩) →
        ∃ t cl1, bindUpValues c ups base (i + 1) rest
            { t0 with closures :=
              (t0.closures.set c { cl with upValues := cl.upValues.set i x }) } = .ok () t ∧
          RegistryWF t ∧ Extends u t ∧
          t.protos = u.protos ∧ t.closures.length = u.closures.length ∧
          (∀ k, k ≠ c → t.closures[k]? = u.closures[k]?) ∧
          t.closures[c]? = some cl1 ∧ cl1.upValues.length = cl.upValues.length ∧
          (∀ j, j < i → cl1.upValues[j]? = cl.upValues[j]?) ∧
          (∀ j d1, (d :: rest)[j]? = some d1 → d1.isLocal = true →
            ∃ e, cl1.upValues[i + j]? = some (some e) ∧ e ∈ t.upValues ∧
              t.cells[e]? = some ⟨.stackLocation (base + d1.index)⟩) := by
      intro t0 x hwf0 hext0 hclos0 hprot0 hxl
      obtain ⟨t, cl1, hrun, hwft, hext, hprot, hclen, hother, hcl1, hl1, hlow, hent⟩ :=
        ih (i + 1)
          { t0 with closures :=
            (t0.closures.set c { cl with upValues := cl.upValues.set i x }) }
          { cl with upValues := cl.upValues.set i x } hwf0
          (by
            show (t0.closures.set c _)[c]? = _
            rw [List.getElem?_set, if_pos rfl, hclos0, if_pos hc])
          (by simp only [List.length_set, List.length_cons] at hlen ⊢; omega)
          (fun d1 h1 hl => by
            have := hloc d1 (List.mem_cons_of_mem _ h1) hl
            show 0 ≤ base + d1.index ∧ base + d1.index < (t0.stack.length : Int)
            rw [hext0.1]; exact this)
          (fun d1 h1 hl => hinh d1 (List.mem_cons_of_mem _ h1) hl)
      refine ⟨t, cl1, hrun, hwft, ?_, ?_, ?_, ?_, hcl1, ?_, ?_, ?_⟩
      · exact extends_trans u t0 t hext0
          ⟨hext.1, hext.2.1, hext.2.2⟩
      · rw [hprot]; exact hprot0
      · rw [hclen]
        show (t0.closures.set c _).length = _
        rw [List.length_set, hclos0]
      · intro k hk
        rw [hother k hk]
        show (t0.closures.set c _)[k]? = _
        rw [List.getElem?_set, if_neg (Ne.symm hk), hclos0]
      · rw [hl1]; simp
      · intro j hj
        rw [hlow j (by omega)]
        show (cl.upValues.set i x)[j]? = _
        rw [List.getElem?_set, if_neg (by omega)]
      · intro j d1 hj hl
        cases j with
        | zero =>
          simp only [List.getElem?_cons_zero, Option.some.injEq] at hj
          subst hj
          obtain ⟨e, he, hmem, hcell⟩ := hxl hl
          refine ⟨e, ?_, hext.2.1 e hmem, hext.2.2 e _ hcell⟩
          rw [Nat.add_zero, hlow i (by omega)]
          show (cl.upValues.set i x)[i]? = _
          rw [List.getElem?_set, if_pos rfl, if_pos hi, he]
        | succ j =>
          simp only [List.getElem?_cons_succ] at hj
          obtain ⟨e, h1, h2, h3⟩ := hent j d1 hj hl
          refine ⟨e, ?_, h2, h3⟩
          have : i + (j + 1) = i + 1 + j := by omega
          rw [this]; exact h1
    cases hl : d.isLocal with
    | true =>
      obtain ⟨hr0, hr1⟩ := hloc d (List.mem_cons_self _ _) hl
      obtain ⟨e, t0, hfind, hwf0, hext0, hclos0, hprot0, hmem, hcell, _⟩ :=
        findUpValue_spec (base + d.index) u hwf hr0 hr1
      obtain ⟨t, cl1, hrun, hrest⟩ := step t0 (some e) hwf0 hext0 hclos0 hprot0
        (fun _ => ⟨e, rfl, hmem, hcell⟩)
      refine ⟨t, cl1, ?_, hrest⟩
      simp only [bindUpValues, hl, if_true, bind_run, hfind,
        setClosureUpValue_run c i (some e) t0 cl (by rw [hclos0]; exact hcl)]
      exact hrun
    | false =>
      obtain ⟨x, hx⟩ := hinh d (List.mem_cons_self _ _) hl
      obtain ⟨t, cl1, hrun, hrest⟩ := step u x hwf (extends_refl u) rfl rfl
        (fun h => by rw [hl] at h; cases h)
      refine ⟨t, cl1, ?_, hrest⟩
      simp only [bindUpValues, hl, bind_run, Bool.false_eq_true, if_false, hx,
        setClosureUpValue_run c i x u cl hcl]
      exact hrun

/-! ## `newClosure` and access through a cell -/

/-- What `newClosure` builds on a well-formed open-upvalue list. -/
theorem newClosure_spec (s : State) (p : Nat) (pr : Prototype) (ups : List (Option Nat))
    (base : Int) (hwf : RegistryWF s) (hp : s.protos[p]? = some pr)
    (hloc : ∀ d ∈ pr.upValues, d.isLocal = true →
      0 ≤ base + d.index ∧ base + d.index < s.stack.length)
    (hinh : ∀ d ∈ pr.upValues, d.isLocal = false → ∃ x, idx ups d.index = some x) :
    ∃ t cl1, newClosure p ups base s = .ok (.luaClosure s.closures.length) t ∧
      RegistryWF t ∧ Extends s t ∧
      t.protos[p]? = some { pr with cache := some s.closures.length } ∧
      t.closures.length = s.closures.length + 1 ∧
      (∀ k, k < s.closures.length → t.closures[k]? = s.closures[k]?) ∧
      t.closures[s.closures.length]? = some cl1 ∧
      (∀ (j : Nat) (d : UpValueDesc), pr.upValues[j]? = some d → d.isLocal = true →
        ∃ e, cl1.upValues[j]? = some (some e) ∧ e ∈ t.upValues ∧
          t.cells[e]? = some ⟨.stackLocation (base + d.index)⟩) := by
  have hpl : p < s.protos.length := getElem?_some_lt _ _ _ hp
  obtain ⟨t, cl1, hrun, hwft, hext, hprot, hclen, hother, hcl1, _, _, hent⟩ :=
    bindUpValues_spec s.closures.length ups base pr.upValues 0
      { s with
        closures := s.closures ++ [⟨p, List.replicate pr.upValues.length none⟩],
        protos := (s.protos.set p { pr with cache := some s.closures.length }) }
      ⟨p, List.replicate pr.upValues.length none⟩ hwf (by simp) (by simp) hloc hinh
  refine ⟨t, cl1, ?_, hwft, hext, ?_, ?_, ?_, hcl1, ?_⟩
  · simp only [newClosure, newLuaClosure, bind_run, protoAt, hp, getState_run, modify_run,
      pure_run, List.getElem?_set, if_true, hpl]
    rw [hrun]
  · rw [hprot]
    show (s.protos.set p _)[p]? = _
    rw [List.getElem?_set, if_pos rfl, if_pos hpl]
  · rw [hclen]; simp
  · intro k hk
    rw [hother k (by omega)]
    show (s.closures ++ _)[k]? = _
    rw [List.getElem?_append_left hk]
  · intro j d hj hl
    obtain ⟨e, h1, h2, h3⟩ := hent j d hj hl
    exact ⟨e, by simpa using h1, h2, h3⟩

theorem idx_natCast {α : Type} (xs : List α) (i : Nat) : idx xs (i : Int) = xs[i]? := by
  simp [idx]

theorem setUpValue_eq (c i : Nat) (v : Value) (u : State) (cl : LuaClosure) (e : Nat)
    (hcl : u.closures[c]? = some cl) (he : cl.upValues[i]? = some (some e)) :
    LuaClosure.setUpValue c i v u = UpValue.setValue e v u := by
  simp only [LuaClosure.setUpValue, bind_run, closureAt, hcl, idx_natCast, he]

theorem upValue_eq (c i : Nat) (u : State) (cl : LuaClosure) (e : Nat)
    (hcl : u.closures[c]? = some cl) (he : cl.upValues[i]? = some (some e)) :
    LuaClosure.upValue c i u = UpValue.value e u := by
  simp only [LuaClosure.upValue, bind_run, closureAt, hcl, idx_natCast, he]

/-- A write through a cell is read back through the same cell, and leaves the
closures alone. -/
theorem setValue_value (u : State) (e : Nat) (w : Value) (h : CellOk u e) :
    ∃ t, UpValue.setValue e w u = .ok () t ∧ UpValue.value e t = .ok w t ∧
      t.closures = u.closures ∧ t.upValues = u.upValues ∧
      t.stack.length = u.stack.length ∧
      (∀ i : Int, u.cells[e]? = some ⟨.stackLocation i⟩ →
        t.cells = u.cells ∧ idx t.stack i = some w) := by
  rcases h with ⟨i, hc, h0, h1⟩ | ⟨v, hc⟩
  · refine ⟨{ u with stack := u.stack.set i.toNat w }, ?_, ?_, rfl, rfl, by simp, ?_⟩
    · simp only [UpValue.setValue, bind_run, cell_run u e _ hc, writeStack_run u i w h0 h1]
    · have hidx : idx (u.stack.set i.toNat w) i = some w := by
        rw [idx_set _ _ _ _ h0 h1, if_pos rfl]
      simp only [UpValue.value, bind_run, cell, hc, readStack, hidx]
    · intro j hj
      rw [hc] at hj
      injection hj with hj
      injection hj with hj
      injection hj with hj
      subst hj
      exact ⟨rfl, by show idx (u.stack.set i.toNat w) i = _; rw [idx_set _ _ _ _ h0 h1, if_pos rfl]⟩
  · have he : e < u.cells.length := getElem?_some_lt _ _ _ hc
    refine ⟨{ u with cells := u.cells.set e ⟨.value w⟩ }, ?_, ?_, rfl, rfl, rfl, ?_⟩
    · simp only [UpValue.setValue, bind_run, cell_run u e _ hc, setCell, modify_run]
    · simp only [UpValue.value, bind_run, cell, List.getElem?_set, if_true, he, pure_run]
    · intro j hj
      rw [hc] at hj
      injection hj with hj
      injection hj with hj
      cases hj

/-! ## Upvalue sharing -/

theorem close_cell_run (s : State) (e : Nat) (i : Int) (v : Value)
    (hc : s.cells[e]? = some ⟨.stackLocation i⟩) (hv : idx s.stack i = some v) :
    UpValue.close e s = .ok () { s with cells := s.cells.set e ⟨.value v⟩ } := by
  simp only [UpValue.close, bind_run, cell_run s e _ hc, readStack, hv, setCell, modify_run]

theorem isInStackBelow_open (i level : Int) :
    (⟨.stackLocation i⟩ : UpValue).isInStackBelow level = decide (i < level) := rfl

/-- The loop of `state.close` on listed cells that are open: it fails nowhere,
leaves stack and closures alone, and a cell is afterwards as it was or closed
over the value of its slot. -/
theorem closeFrom_spec (level : Int) : ∀ (l : List Nat) (s : State), l.Nodup →
    (∀ e ∈ l, ∃ i : Int, s.cells[e]? = some ⟨.stackLocation i⟩ ∧ 0 ≤ i ∧ i < s.stack.length) →
    ∃ t, closeFrom level l s = .ok () t ∧ t.stack = s.stack ∧ t.closures = s.closures ∧
      (∀ (e : Nat) (i : Int), s.cells[e]? = some ⟨.stackLocation i⟩ →
        t.cells[e]? = some ⟨.stackLocation i⟩ ∨
          ∃ v, idx s.stack i = some v ∧ t.cells[e]? = some ⟨.value v⟩) ∧
      (∀ (e : Nat) (v : Value), s.cells[e]? = some ⟨.value v⟩ →
        t.cells[e]? = some ⟨.value v⟩) ∧
      (∃ k, t.upValues = l.drop k) ∧
      (∀ e ∈ t.upValues, t.cells[e]? = s.cells[e]?) := by
  intro l
  induction l with
  | nil =>
    intro s _ _
    exact ⟨{ s with upValues := [] }, rfl, rfl, rfl, fun _ _ h => Or.inl h, fun _ _ h => h,
      ⟨0, rfl⟩, fun _ h => absurd h (List.not_mem_nil _)⟩
  | cons e rest ih =>
    intro s hnd hopen
    obtain ⟨i, hc, h0, h1⟩ := hopen e (List.mem_cons_self _ _)
    by_cases hb : i < level
    · refine ⟨{ s with upValues := e :: rest }, ?_, rfl, rfl, fun _ _ h => Or.inl h,
        fun _ _ h => h, ⟨0, rfl⟩, fun _ _ => rfl⟩
      simp only [closeFrom, bind_run, cell_run s e _ hc, isInStackBelow_open, hb, decide_True,
        if_true, modify_run]
    · obtain ⟨v, hv⟩ := idx_in_range s.stack i h0 h1
      have he : e < s.cells.length := getElem?_some_lt _ _ _ hc
      have hne : ∀ e1 ∈ rest, e ≠ e1 := by
        intro e1 h1 heq
        subst heq
        exact (List.nodup_cons.mp hnd).1 h1
      obtain ⟨t, hrun, hst, hcl, hopen1, hclosed1, ⟨k, hk⟩, hsame⟩ :=
        ih { s with cells := s.cells.set e ⟨.value v⟩ } (List.nodup_cons.mp hnd).2
          (by
            intro e1 hm
            obtain ⟨j, hj, hr⟩ := hopen e1 (List.mem_cons_of_mem _ hm)
            refine ⟨j, ?_, hr⟩
            show (s.cells.set e _)[e1]? = _
            rw [List.getElem?_set, if_neg (hne e1 hm)]
            exact hj)
      refine ⟨t, ?_, hst, hcl, ?_, ?_, ⟨k + 1, hk⟩, ?_⟩
      · simp only [closeFrom, bind_run, cell_run s e _ hc, isInStackBelow_open, hb,
          decide_False, Bool.false_eq_true, if_false, close_cell_run s e i v hc hv]
        exact hrun
      · intro e0 i0 h
        by_cases heq : e = e0
        · subst heq
          rw [hc] at h
          injection h with h
          injection h with h
          injection h with h
          subst h
          right
          refine ⟨v, hv, hclosed1 e v ?_⟩
          show (s.cells.set e _)[e]? = _
          rw [List.getElem?_set, if_pos rfl, if_pos he]
        · exact hopen1 e0 i0 (by
            show (s.cells.set e _)[e0]? = _
            rw [List.getElem?_set, if_neg heq]
            exact h)
      · intro e0 v0 h
        have heq : e ≠ e0 := by
          intro heq
          subst heq
          rw [hc] at h
          injection h with h
          injection h with h
          cases h
        exact hclosed1 e0 v0 (by
          show (s.cells.set e _)[e0]? = _
          rw [List.getElem?_set, if_neg heq]
          exact h)
      · intro e0 he0
        rw [hsame e0 he0]
        have hmem : e0 ∈ rest := by
          rw [hk] at he0
          exact List.mem_of_mem_drop he0
        show (s.cells.set e _)[e0]? = _
        rw [List.getElem?_set, if_neg (hne e0 hmem)]

/-- The method `close` keeps the open-upvalue list well formed and never fails
on a well-formed list. -/
theorem close_registryWF (level : Int) (s : State) (hwf : RegistryWF s) :
    ∃ t, close level s = .ok () t ∧ RegistryWF t ∧ t.stack = s.stack := by
  obtain ⟨t, hrun, hst, _, _, _, ⟨k, hk⟩, hsame⟩ :=
    closeFrom_spec level s.upValues s hwf.1 hwf.2.1
  have hmem : ∀ e ∈ t.upValues, e ∈ s.upValues := by
    intro e he
    rw [hk] at he
    exact List.mem_of_mem_drop he
  refine ⟨t, ?_, ⟨?_, ?_, ?_⟩, hst⟩
  · simp only [close, bind_run, getState_run]
    exact hrun
  · rw [hk]
    exact hwf.1.sublist (List.drop_sublist _ _)
  · intro e he
    obtain ⟨i, hi, hr⟩ := hwf.2.1 e (hmem e he)
    exact ⟨i, by rw [hsame e he]; exact hi, by rw [hst]; exact hr⟩
  · intro e1 h1 e2 h2 i hc1 hc2
    rw [hsame e1 h1] at hc1
    rw [hsame e2 h2] at hc2
    exact hwf.2.2 e1 (hmem e1 h1) e2 (hmem e2 h2) i hc1 hc2

/-- The open-upvalue list is well formed when it is empty. -/
theorem registryWF_of_empty (s : State) (h : s.upValues = []) : RegistryWF s := by
  refine ⟨by rw [h]; exact List.nodup_nil, ?_, ?_⟩
  · intro e he
    rw [h] at he
    exact absurd he (List.not_mem_nil _)
  · intro e he
    rw [h] at he
    exact absurd he (List.not_mem_nil _)

/-- C2: on a well-formed open-upvalue list, `findUpValue(level)` returns the
listed cell bound to `level` and changes nothing; two closures built by
`newClosure` from the same prototype at the same base hold the identical cell
in every slot with a local descriptor; a value written through one closure
is read through the other, before `close(base)`, after it, and when written
after it. -/
theorem upvalue_sharing (s : State) (p : Nat) (pr : Prototype) (ups : List (Option Nat))
    (base : Int) (hwf : RegistryWF s) (hp : s.protos[p]? = some pr)
    (hloc : ∀ d ∈ pr.upValues, d.isLocal = true →
      0 ≤ base + d.index ∧ base + d.index < s.stack.length)
    (hinh : ∀ d ∈ pr.upValues, d.isLocal = false → ∃ x, idx ups d.index = some x) :
    (∀ (level : Int) (e : Nat), e ∈ s.upValues → s.cells[e]? = some ⟨.stackLocation level⟩ →
        findUpValue level s = .ok e s) ∧
    ∃ c1 c2 s1 s2 cl1 cl2,
      newClosure p ups base s = .ok (.luaClosure c1) s1 ∧
      newClosure p ups base s1 = .ok (.luaClosure c2) s2 ∧
      c1 ≠ c2 ∧ s2.closures[c1]? = some cl1 ∧ s2.closures[c2]? = some cl2 ∧
      ∀ (i : Nat) (d : UpValueDesc), pr.upValues[i]? = some d → d.isLocal = true →
        ∃ e, cl1.upValues[i]? = some (some e) ∧ cl2.upValues[i]? = some (some e) ∧
          ∀ v w : Value, ∃ s3 s4 s5,
            LuaClosure.setUpValue c1 i v s2 = .ok () s3 ∧
            LuaClosure.upValue c2 i s3 = .ok v s3 ∧
            close base s3 = .ok () s4 ∧
            LuaClosure.upValue c2 i s4 = .ok v s4 ∧
            LuaClosure.upValue c1 i s4 = .ok v s4 ∧
            LuaClosure.setUpValue c1 i w s4 = .ok () s5 ∧
            LuaClosure.upValue c2 i s5 = .ok w s5 := by
  constructor
  · intro level e hmem hcell
    obtain ⟨j, hj, h0, h1⟩ := hwf.2.1 e hmem
    rw [hcell] at hj
    injection hj with hj
    injection hj with hj
    injection hj with hj
    subst hj
    obtain ⟨e1, t, hrun, _, _, _, _, _, _, hsame⟩ := findUpValue_spec level s hwf h0 h1
    obtain ⟨h2, h3⟩ := hsame e hmem hcell
    rw [hrun, h2, h3]
  · obtain ⟨s1, cl1, hrun1, hwf1, hext1, hp1, hlen1, _, hcl1, hent1⟩ :=
      newClosure_spec s p pr ups base hwf hp hloc hinh
    obtain ⟨s2, cl2, hrun2, hwf2, hext2, _, hlen2, hold2, hcl2, hent2⟩ :=
      newClosure_spec s1 p { pr with cache := some s.closures.length } ups base hwf1 hp1
        (by intro d hd hl; rw [hext1.1]; exact hloc d hd hl) hinh
    have hcl1' : s2.closures[s.closures.length]? = some cl1 := by
      rw [hold2 _ (by omega)]; exact hcl1
    refine ⟨s.closures.length, s1.closures.length, s1, s2, cl1, cl2, hrun1, hrun2, by omega,
      hcl1', hcl2, ?_⟩
    intro i d hd hl
    obtain ⟨e1, hu1, hm1, hc1⟩ := hent1 i d hd hl
    obtain ⟨e2, hu2, hm2, hc2⟩ := hent2 i d hd hl
    have heq : e1 = e2 :=
      hwf2.2.2 e1 (hext2.2.1 e1 hm1) e2 hm2 _ (hext2.2.2 e1 _ hc1) hc2
    subst heq
    refine ⟨e1, hu1, hu2, ?_⟩
    intro v w
    obtain ⟨lv0, lv1⟩ := hloc d (List.getElem?_mem hd) hl
    have hlen : s2.stack.length = s.stack.length := by rw [hext2.1, hext1.1]
    -- the write through the first closure, before the close
    obtain ⟨s3, hset3, hget3, hcl3, hup3, hlen3, hopen3⟩ :=
      setValue_value s2 e1 v (Or.inl ⟨_, hc2, lv0, by rw [hlen]; exact lv1⟩)
    obtain ⟨hcells3, hval3⟩ := hopen3 _ hc2
    -- the close
    obtain ⟨s4, hclose, hst4, hcl4, hopen4, _⟩ :=
      closeFrom_spec base s3.upValues s3 (by rw [hup3]; exact hwf2.1)
        (by
          intro e he
          rw [hup3] at he
          obtain ⟨j, hj, hj0, hj1⟩ := hwf2.2.1 e he
          exact ⟨j, by rw [hcells3]; exact hj, hj0, by rw [hlen3]; exact hj1⟩)
    have hcell4 : CellOk s4 e1 := by
      rcases hopen4 e1 _ (by rw [hcells3]; exact hc2) with h | ⟨v1, _, h⟩
      · exact Or.inl ⟨_, h, lv0, by rw [hst4, hlen3, hlen]; exact lv1⟩
      · exact Or.inr ⟨v1, h⟩
    have hget4 : UpValue.value e1 s4 = .ok v s4 := by
      rcases hopen4 e1 _ (by rw [hcells3]; exact hc2) with h | ⟨v1, hv1, h⟩
      · simp only [UpValue.value, bind_run, cell, h, readStack, hst4, hval3]
      · rw [hval3] at hv1
        injection hv1 with hv1
        subst hv1
        simp only [UpValue.value, bind_run, cell, h, pure_run]
    -- the write through the first closure, after the close
    obtain ⟨s5, hset5, hget5, hcl5, _, _, _⟩ := setValue_value s4 e1 w hcell4
    have c1s3 : s3.closures[s.closures.length]? = some cl1 := by rw [hcl3]; exact hcl1'
    have c2s3 : s3.closures[s1.closures.length]? = some cl2 := by rw [hcl3]; exact hcl2
    have c1s4 : s4.closures[s.closures.length]? = some cl1 := by rw [hcl4]; exact c1s3
    have c2s4 : s4.closures[s1.closures.length]? = some cl2 := by rw [hcl4]; exact c2s3
    have c2s5 : s5.closures[s1.closures.length]? = some cl2 := by rw [hcl5]; exact c2s4
    refine ⟨s3, s4, s5, ?_, ?_, ?_, ?_, ?_, ?_, ?_⟩
    · rw [setUpValue_eq _ _ _ _ _ _ hcl1' hu1]; exact hset3
    · rw [upValue_eq _ _ _ _ _ c2s3 hu2]; exact hget3
    · simp only [close, bind_run, getState_run]; exact hclose
    · rw [upValue_eq _ _ _ _ _ c2s4 hu2]; exact hget4
    · rw [upValue_eq _ _ _ _ _ c1s4 hu1]; exact hget4
    · rw [setUpValue_eq _ _ _ _ _ _ c1s4 hu1]; exact hset5
    · rw [upValue_eq _ _ _ _ _ c2s5 hu2]; exact hget5

/-! ## The code at concrete inputs -/

/-- C1, the code at the failing input: after `findUpValue(1); findUpValue(0);
close(1)` on the empty list the cell bound to slot 1 (cell 0) is still open
and still listed.  The loop of `close` returns at the first cell below the
level, while `newUpValueAt` puts every new cell at the head of the list. -/
theorem close_skips_open_upvalue :
    closeOutOfOrder state0 = .ok ()
      { state0 with cells := [⟨.stackLocation 1⟩, ⟨.stackLocation 0⟩], upValues := [1, 0] } := by
  decide

/-- The upvalue sharing theorem at the prototype `protoCapture` and base 1. -/
theorem upvalue_sharing_witness :
    ∃ c1 c2 s1 s2 s3, newClosure 0 [] 1 stateCapture = .ok (.luaClosure c1) s1 ∧
      newClosure 0 [] 1 s1 = .ok (.luaClosure c2) s2 ∧ c1 ≠ c2 ∧
      LuaClosure.setUpValue c1 (0 : Nat) (.number 5) s2 = .ok () s3 ∧
      LuaClosure.upValue c2 (0 : Nat) s3 = .ok (.number 5) s3 := by
  obtain ⟨_, c1, c2, s1, s2, cl1, cl2, h1, h2, hne, _, _, hshare⟩ :=
    upvalue_sharing stateCapture 0 protoCapture [] 1
      ⟨List.nodup_nil, fun _ h => absurd h (List.not_mem_nil _),
        fun _ h => absurd h (List.not_mem_nil _)⟩
      rfl (by decide)
      (by
        intro d hd hl
        have hd1 : d = ⟨true, 0⟩ := by simpa [protoCapture] using hd
        subst hd1
        cases hl)
  obtain ⟨e, _, _, hrw⟩ := hshare 0 ⟨true, 0⟩ rfl rfl
  obtain ⟨s3, _, _, h3, h4, _⟩ := hrw (.number 5) .nil
  exact ⟨c1, c2, s1, s2, s3, h1, h2, hne, h3, h4⟩

/-- The exact-count theorem at `k = 2`, `m = 1`: one value and one nil. -/
theorem postCall_exact_count_witness :
    ∃ s1, postCall env0 2 (stateReturning 2 3) = .ok true s1 ∧
      idx s1.stack 1 = some (.number 7) ∧ idx s1.stack 2 = some .nil := by
  obtain ⟨s1, _, hcaller, hcp, hnil⟩ :=
    postCall_exact_count env0 (stateReturning 2 3) 1 (frameReturning 2) 2 rfl rfl
      (by decide) (by decide) (by decide) (by decide) (by decide) (by decide) (by decide)
  exact ⟨s1, hcaller (by decide), (hcp 0 (by decide) (by decide)).trans (by decide),
    hnil 1 (by decide) (by decide)⟩

/-- C4, the code at the failing input: with result count `MultipleReturns`
and two produced values `postCall` fails on the slice
`l.stack[result:result+wanted]`, whose upper bound lies below the lower one,
and leaves the state as it was. -/
theorem postCall_all_results_fails :
    postCall env0 2 (stateReturning MultipleReturns 4)
      = .panic .sliceBounds (stateReturning MultipleReturns 4) := by
  decide

/-- C5, the code at the failing input: with result count 1 and one produced
value `postCall` returns `true`, makes the caller current and delivers the
value to slot 1, but sets `top` to the function position 1, not to 2. -/
theorem postCall_top_at_callee :
    (postCall env0 2 (stateReturning 1 3)).value = some true ∧
      (postCall env0 2 (stateReturning 1 3)).state.top = 1 ∧
      (postCall env0 2 (stateReturning 1 3)).state.callInfo = some 0 ∧
      idx (postCall env0 2 (stateReturning 1 3)).state.stack 1 = some (.number 7) := by
  decide

/-- C6, the code at the failing input: a closure with one parameter called
with no argument; the nil loop of `preCall` runs over `argCount = 0` slots,
and the parameter slot 2 keeps the stale value 42. -/
theorem preCall_missing_argument_not_nil :
    (preCall env0 1 0 (stateCalling (.luaClosure 0) [] [.number 42] protoOneParam)).value
        = some false ∧
      idx (preCall env0 1 0
        (stateCalling (.luaClosure 0) [] [.number 42] protoOneParam)).state.stack 2
        = some (.number 42) := by
  decide

/-- The vararg theorem at one fixed parameter and two arguments. -/
theorem preCall_vararg_fixed_parameters_witness :
    ∃ s1 lci, preCall env0 1 0 (stateCalling (.luaClosure 0) [.number 7, .number 8] []
        protoVarArg) = .ok false s1 ∧
      s1.frames[1]? = some (.lua lci) ∧ lci.base = 4 ∧
      idx s1.stack (lci.stackIndex 0) = some (.number 7) ∧
      idx s1.stack 3 = some (.number 8) ∧ idx s1.stack 2 = some .nil := by
  obtain ⟨s1, lci, h1, _, h3, h4, _, hfix, hextra⟩ :=
    preCall_vararg_fixed_parameters env0
      (stateCalling (.luaClosure 0) [.number 7, .number 8] [] protoVarArg) 1 0 0 0 ⟨0, []⟩
      protoVarArg (by decide) rfl rfl rfl (by decide) (by decide) (by decide) rfl (by decide)
      (by decide) (by decide) (by decide) (by decide)
  obtain ⟨hf1, _, hf3⟩ := hfix 0 (by decide) (by decide)
  exact ⟨s1, lci, h1, h3, h4, hf1.trans (by decide),
    (hextra 1 (by decide) (by decide)).trans (by decide), hf3⟩

/-- The tag-method theorem at a table called with one argument. -/
theorem preCall_call_tag_method_witness :
    ∃ s1 s2, preCallPass (envTag (.luaClosure 0)) 1 0
        (stateCalling (.table 0) [.number 7] [] protoOneParam) = .ok .again s1 ∧
      idx s1.stack 1 = some (.luaClosure 0) ∧ idx s1.stack 2 = some (.table 0) ∧
      idx s1.stack 3 = some (.number 7) ∧ s1.top = 4 ∧
      preCall (envTag (.luaClosure 0)) 1 0
        (stateCalling (.table 0) [.number 7] [] protoOneParam) = .ok false s2 := by
  obtain ⟨s1, s2, h1, h2, h3, h4, h5, _, _, h8⟩ :=
    preCall_call_tag_method (envTag (.luaClosure 0))
      (stateCalling (.table 0) [.number 7] [] protoOneParam) 1 0 (.table 0) 0 0 ⟨0, []⟩
      protoOneParam (by decide) (fun _ h => by cases h) (fun _ h => by cases h) rfl rfl rfl
      (by decide) (by decide) rfl (by decide) (by decide) (by decide) (by decide) (by decide)
      (by decide)
  exact ⟨s1, s2, h1, h2, h3, (h4 1 (by decide) (by decide)).trans (by decide), h5, h8⟩

/-- C9 as stated fails: the lookup returns `true`, which is not none, and
`preCall` raises the call type error. -/
theorem preCall_call_type_error_counterexample :
    (envTag (.bool true)).tagMethodByObject (.table 0) = .bool true ∧
      preCall (envTag (.bool true)) 1 0 (stateCalling (.table 0) [] [] protoOneParam)
        = .panic (.typeErrorCall (.table 0)) (stateCalling (.table 0) [] [] protoOneParam) := by
  decide

/-- The type-error theorem at a table without "call" tag method. -/
theorem preCall_call_type_error_witness :
    preCall env0 1 0 (stateCalling (.table 0) [] [] protoOneParam)
      = .panic (.typeErrorCall (.table 0)) (stateCalling (.table 0) [] [] protoOneParam) :=
  (preCall_call_type_error env0 (stateCalling (.table 0) [] [] protoOneParam) 1 0 (.table 0)
    (by decide) (fun _ h => by cases h) (fun _ h => by cases h) (fun _ h => by cases h)
    (fun _ h => by cases h)).2.1 (fun _ h => by cases h)

/-- A native closure as "call" tag method is turned down with the call type
error as well. -/
theorem preCall_native_tag_method :
    preCall (envTag (.goClosure 0)) 1 0 (stateCalling (.table 0) [] [] protoOneParam)
      = .panic (.typeErrorCall (.table 0)) (stateCalling (.table 0) [] [] protoOneParam) := by
  decide

/-- The reallocation theorem at `state0`, grown from 45 to 90 slots. -/
theorem reallocStack_preserves_frames_witness :
    ∃ s1, reallocStack env0 90 state0 = .ok () s1 ∧ (s1.stack.length : Int) = 90 ∧
      s1.top = 1 ∧ s1.callInfo = some 0 := by
  obtain ⟨s1, h1, h2, _, _, h5, h6, _⟩ :=
    reallocStack_preserves_frames env0 state0 90 0 (by decide) (by decide)
      (fun _ => Or.inl (by decide)) rfl (by decide)
      (by
        intro j ci hj h
        have hj0 : j = 0 := by omega
        subst hj0
        have hci : ci = ⟨⟨0, 21, 0, callStatusLua⟩, ⟨1, 1, 20⟩, 0, []⟩ := by
          have h2 : state0.frames[0]? = some (.lua ⟨⟨0, 21, 0, callStatusLua⟩, ⟨1, 1, 20⟩, 0, []⟩) :=
            rfl
          rw [h2] at h
          injection h with h
          injection h with h
          exact h.symm
        subst hci
        decide)
  exact ⟨s1, h1, h2, h5, h6⟩

/-! ## Native calls, the closure cache and frame reuse at concrete inputs -/

/-- C15: a native closure at the callee position whose function returns no
result, hooks disabled: `preCall` pushes the native frame, runs the function,
and then fails in `postCall` at the assertion that the current frame is a
script frame; the native frame is still the current one. -/
theorem preCall_native_fails :
    (preCall envNative 1 0 (stateCalling (.goClosure 0) [] [] protoOneParam)).error
      = some .typeAssertion ∧
    (preCall envNative 1 0 (stateCalling (.goClosure 0) [] [] protoOneParam)).state.callInfo
      = some 1 ∧
    (preCall envNative 1 0 (stateCalling (.goClosure 0) [] [] protoOneParam)).state.frames[1]?
      = some (.go ⟨⟨1, 22, 0, 0⟩, 0, false, 0⟩) := by
  decide

/-- C16: the cache holds a closure whose inherited upvalue is the closed cell
0; asked for a closure over the distinct closed cell 1 of equal content,
`cached` returns the cached closure.  A write through the cell 1 is then not
seen through that closure, while it is seen through the closure `newClosure`
builds. -/
theorem cached_equal_content_distinct_cell :
    (cached 0 [some 1] 1 stateCached).value = some (some 0) ∧
    stateCached.closures[0]? = some ⟨0, [some 0]⟩ ∧
    (cachedThenWrite stateCached).value = some (.bool true) ∧
    (newThenWrite stateCached).value = some (.bool false) := by
  decide

/-- C20: with a native frame pooled as the next of the current frame,
`pushGoFrame` initializes the pooled frame and returns with the base script
frame still current. -/
theorem pushGoFrame_reuse_not_current :
    (pushGoFrame env0 1 0 statePooled).value = some () ∧
    (pushGoFrame env0 1 0 statePooled).state.callInfo = some 0 ∧
    (pushGoFrame env0 1 0 statePooled).state.frames =
      [.lua ⟨⟨0, 21, 0, callStatusLua⟩, ⟨1, 1, 20⟩, 0, []⟩, .go ⟨⟨1, 21, 0, 0⟩, 0, false, 0⟩] ∧
    (pushGoFrame env0 1 0 state0).state.callInfo = some 1 := by
  decide

/-- C11 as stated fails: on `state0`, `checkStack` with the largest `int`
returns, and only 84 slots are free above `top`. -/
theorem checkStack_free_slots_counterexample :
    state0.stackLast = state0.stack.length - extraStack ∧ 0 ≤ maxInt ∧
    (checkStack env0 maxInt state0).value = some () ∧
    (checkStack env0 maxInt state0).state.stackLast
      - (checkStack env0 maxInt state0).state.top = 84 ∧
    84 < maxInt := by
  decide

/-- C13 as stated fails: a call at nesting depth 199 fails with the "Go stack
overflow" error and leaves the nesting counter at 200. -/
theorem call_counters_balanced_counterexample :
    (stateNested 199).nestedGoCallCount = 199 ∧
    (call env0 1 0 true (stateNested 199)).error = some .goStackOverflow ∧
    (call env0 1 0 true (stateNested 199)).state.nestedGoCallCount = 200 := by
  decide

/-! ## Runs that keep a part of the state -/

theorem keeps_pure {α β : Type} (proj : State → β) (a : α) : Keeps proj (pure a : Exec α) := by
  intro s b s1 h; cases h; rfl

theorem keeps_panic {α β : Type} (proj : State → β) (e : Err) :
    Keeps proj (panic e : Exec α) := by
  intro s b s1 h; cases h

theorem keeps_getState {β : Type} (proj : State → β) : Keeps proj getState := by
  intro s b s1 h; cases h; rfl

theorem keeps_modify {β : Type} (proj : State → β) (f : State → State)
    (h : ∀ s, proj (f s) = proj s) : Keeps proj (modify f) := by
  intro s b s1 h1; cases h1; exact h s

theorem keeps_bind {α γ β : Type} (proj : State → β) (x : Exec α) (f : α → Exec γ)
    (hx : Keeps proj x) (hf : ∀ a, Keeps proj (f a)) : Keeps proj (x >>= f) := by
  intro s b s1 h
  rw [bind_run] at h
  cases hxs : x s with
  | ok a s2 =>
    rw [hxs] at h
    exact (hf a s2 b s1 h).trans (hx s a s2 hxs)
  | panic e2 s2 =>
    rw [hxs] at h
    cases h

theorem keeps_ite {α β : Type} (proj : State → β) (c : Prop) [Decidable c] (x y : Exec α)
    (hx : Keeps proj x) (hy : Keeps proj y) : Keeps proj (if c then x else y) := by
  split
  · exact hx
  · exact hy

/-- A run that returns in the state it started in keeps every part of it. -/
theorem keeps_of_same {α β : Type} (proj : State → β) (m : Exec α)
    (h : ∀ s a s1, m s = .ok a s1 → s1 = s) : Keeps proj m := by
  intro s a s1 h1
  rw [h s a s1 h1]

theorem readStack_same (i : Int) (s : State) (a : Value) (s1 : State)
    (h : readStack i s = .ok a s1) : s1 = s := by
  unfold readStack at h
  split at h <;> cases h
  rfl

theorem closureAt_same (c : Nat) (s : State) (a : LuaClosure) (s1 : State)
    (h : closureAt c s = .ok a s1) : s1 = s := by
  unfold closureAt at h
  split at h <;> cases h
  rfl

theorem protoAt_same (c : Nat) (s : State) (a : Prototype) (s1 : State)
    (h : protoAt c s = .ok a s1) : s1 = s := by
  unfold protoAt at h
  split at h <;> cases h
  rfl

theorem current_same (s : State) (a : Nat) (s1 : State)
    (h : current s = .ok a s1) : s1 = s := by
  unfold current at h
  split at h
  · split at h <;> cases h
    rfl
  · cases h

theorem currentLua_same (s : State) (a : Nat) (s1 : State)
    (h : currentLua s = .ok a s1) : s1 = s := by
  unfold currentLua at h
  split at h
  · split at h <;> cases h
    rfl
  · cases h

theorem frameAt_same (d : Nat) (s : State) (a : CallInfo) (s1 : State)
    (h : frameAt d s = .ok a s1) : s1 = s := by
  unfold frameAt at h
  split at h <;> cases h
  rfl

theorem luaFrameAt_same (d : Nat) (s : State) (a : LuaCallInfo) (s1 : State)
    (h : luaFrameAt d s = .ok a s1) : s1 = s := by
  unfold luaFrameAt at h
  split at h <;> cases h
  rfl

theorem assert_same (env : Env) (c : Bool) (s : State) (a : Unit) (s1 : State)
    (h : assert env c s = .ok a s1) : s1 = s := by
  unfold assert at h
  split at h <;> cases h
  rfl

theorem keeps_updateFrame {β : Type} (proj : State → β)
    (hF : ∀ s x, proj { s with frames := x } = proj s) (d : Nat) (f : CallInfo → CallInfo) :
    Keeps proj (updateFrame d f) := by
  unfold updateFrame
  refine keeps_modify _ _ fun s => ?_
  split
  · exact hF _ _
  · rfl

theorem keeps_updateLuaFrame {β : Type} (proj : State → β)
    (hF : ∀ s x, proj { s with frames := x } = proj s) (d : Nat)
    (f : LuaCallInfo → LuaCallInfo) : Keeps proj (updateLuaFrame d f) :=
  keeps_updateFrame proj hF _ _

theorem keeps_repoint {β : Type} (proj : State → β)
    (hF : ∀ s x, proj { s with frames := x } = proj s) (n : Nat) : Keeps proj (repoint n) := by
  induction n with
  | zero => exact keeps_pure _ _
  | succ n ih =>
    unfold repoint
    refine keeps_bind _ _ _ (keeps_of_same _ _ (frameAt_same _)) fun ci => ?_
    refine keeps_bind _ _ _ ?_ fun _ => ih
    cases ci with
    | lua lci =>
      refine keeps_bind _ _ _ (keeps_getState _) fun _ => ?_
      exact keeps_ite _ _ _ _ (keeps_updateLuaFrame _ hF _ _) (keeps_panic _ _)
    | go g => exact keeps_pure _ _

theorem keeps_reallocStack {β : Type} (proj : State → β)
    (hF : ∀ s x, proj { s with frames := x } = proj s)
    (hS : ∀ s x y z, proj { s with stack := x, stackArr := y, stackLast := z } = proj s)
    (env : Env) (n : Int) : Keeps proj (reallocStack env n) := by
  unfold reallocStack
  refine keeps_bind _ _ _ (keeps_getState _) fun _ => ?_
  refine keeps_bind _ _ _ (keeps_of_same _ _ (assert_same _ _)) fun _ => ?_
  refine keeps_bind _ _ _ (keeps_of_same _ _ (assert_same _ _)) fun _ => ?_
  refine keeps_bind _ _ _ ?_ fun _ => ?_
  · exact keeps_ite _ _ _ _ (keeps_panic _ _) (keeps_pure _ _)
  refine keeps_bind _ _ _ (keeps_modify _ _ fun s => hS s _ _ _) fun _ => ?_
  refine keeps_bind _ _ _ (keeps_modify _ _ fun s => hS s _ _ _) fun _ => ?_
  refine keeps_bind _ _ _ (keeps_of_same _ _ current_same) fun _ => ?_
  refine keeps_bind _ _ _ (keeps_modify _ _ fun s => hF s _) fun _ => ?_
  exact keeps_repoint _ hF _

theorem keeps_growStack {β : Type} (proj : State → β)
    (hF : ∀ s x, proj { s with frames := x } = proj s)
    (hS : ∀ s x y z, proj { s with stack := x, stackArr := y, stackLast := z } = proj s)
    (env : Env) (n : Int) : Keeps proj (growStack env n) := by
  unfold growStack
  refine keeps_bind _ _ _ (keeps_getState _) fun _ => ?_
  refine keeps_ite _ _ _ _ (keeps_panic _ _) ?_
  refine keeps_ite _ _ _ _ ?_ (keeps_reallocStack _ hF hS _ _)
  exact keeps_bind _ _ _ (keeps_reallocStack _ hF hS _ _) fun _ => keeps_panic _ _

theorem keeps_checkStack {β : Type} (proj : State → β)
    (hF : ∀ s x, proj { s with frames := x } = proj s)
    (hS : ∀ s x y z, proj { s with stack := x, stackArr := y, stackLast := z } = proj s)
    (env : Env) (n : Int) : Keeps proj (checkStack env n) := by
  unfold checkStack
  refine keeps_bind _ _ _ (keeps_getState _) fun _ => ?_
  exact keeps_ite _ _ _ _ (keeps_growStack _ hF hS _ _) (keeps_pure _ _)

theorem keeps_writeStack {β : Type} (proj : State → β)
    (hS : ∀ s x y z, proj { s with stack := x, stackArr := y, stackLast := z } = proj s)
    (i : Int) (v : Value) : Keeps proj (writeStack i v) := by
  intro s a s1 h
  unfold writeStack at h
  split at h <;> cases h
  exact hS s _ _ _

theorem keeps_initializeCallInfo {β : Type} (proj : State → β)
    (hF : ∀ s x, proj { s with frames := x } = proj s)
    (env : Env) (d : Nat) (a b c : Int) (st : Nat) :
    Keeps proj (initializeCallInfo env d a b c st) := by
  unfold initializeCallInfo
  refine keeps_bind _ _ _ (keeps_updateFrame _ hF _ _) fun _ => ?_
  refine keeps_bind _ _ _ (keeps_of_same _ _ (frameAt_same _)) fun _ => ?_
  refine keeps_bind _ _ _ (keeps_getState _) fun _ => ?_
  refine keeps_bind _ _ _ (keeps_of_same _ _ (assert_same _ _)) fun _ => ?_
  exact keeps_updateFrame _ hF _ _

/-- With a native frame pooled after the current frame, `pushGoFrame` returns
with the current frame it was called with. -/
theorem pushGoFrame_pooled_keeps_current (env : Env) (function resultCount : Int)
    (s s1 : State) (d : Nat) (g : GoCallInfo)
    (hcur : s.callInfo = some d) (hnext : s.frames[d + 1]? = some (.go g))
    (h : pushGoFrame env function resultCount s = .ok () s1) : s1.callInfo = some d := by
  unfold pushGoFrame at h
  simp only [bind_run] at h
  cases hc : current s with
  | panic e t =>
    rw [hc] at h
    cases h
  | ok d1 t =>
    have ht := current_same _ _ _ hc
    subst ht
    have hd1 : d1 = d := by
      unfold current at hc
      rw [hcur] at hc
      simp only [] at hc
      split at hc
      · cases hc
        rfl
      · cases hc
    subst hd1
    rw [hc] at h
    simp only [getState_run, hnext, pure_run] at h
    have hk := keeps_initializeCallInfo (fun u : State => u.callInfo) (fun _ _ => rfl)
      env (d1 + 1) function (t.top + MinStack) resultCount 0 _ _ _ h
    exact (show s1.callInfo = t.callInfo from hk).trans hcur

/-- With a native frame current, `postCall` fails at its first statement, the
type assertion `l.callInfo.(*luaCallInfo)`. -/
theorem postCall_native_frame_fails (env : Env) (firstResult : Int) (s : State) (d : Nat)
    (g : GoCallInfo) (hcur : s.callInfo = some d) (hd : s.frames[d]? = some (.go g)) :
    postCall env firstResult s = .panic .typeAssertion s := by
  have hc : currentLua s = .panic .typeAssertion s := by
    simp [currentLua, hcur, hd]
  unfold postCall
  rw [bind_run, hc]

/-! ## The counters of `call` through `preCall` -/

theorem counters_frames (s : State) (x : List CallInfo) :
    State.counters { s with frames := x } = State.counters s := rfl

theorem counters_storage (s : State) (x : List Value) (y : Nat) (z : Int) :
    State.counters { s with stack := x, stackArr := y, stackLast := z } = State.counters s := rfl

theorem counters_writeStack (i : Int) (v : Value) : Keeps State.counters (writeStack i v) := by
  intro s a s1 h
  unfold writeStack at h
  split at h <;> cases h
  rfl

theorem counters_copyStack (a b c d : Int) : Keeps State.counters (copyStack a b c d) := by
  intro s x s1 h
  unfold copyStack at h
  split at h <;> cases h
  rfl

theorem counters_nilStack (a b : Int) : Keeps State.counters (nilStack a b) := by
  intro s x s1 h
  unfold nilStack at h
  split at h <;> cases h
  rfl

theorem counters_initializeCallInfo (env : Env) (d : Nat) (a b c : Int) (st : Nat) :
    Keeps State.counters (initializeCallInfo env d a b c st) := by
  unfold initializeCallInfo
  refine keeps_bind _ _ _ (keeps_updateFrame _ counters_frames _ _) fun _ => ?_
  refine keeps_bind _ _ _ (keeps_of_same _ _ (frameAt_same _)) fun _ => ?_
  refine keeps_bind _ _ _ (keeps_getState _) fun _ => ?_
  refine keeps_bind _ _ _ (keeps_of_same _ _ (assert_same _ _)) fun _ => ?_
  exact keeps_updateFrame _ counters_frames _ _

theorem counters_pushLuaFrame (env : Env) (a b c : Int) (p : Prototype) :
    Keeps State.counters (pushLuaFrame env a b c p) := by
  unfold pushLuaFrame
  refine keeps_bind _ _ _ (keeps_of_same _ _ current_same) fun d => ?_
  refine keeps_bind _ _ _ (keeps_getState _) fun s => ?_
  refine keeps_bind _ _ _ ?_ fun _ => ?_
  · split
    · exact keeps_modify _ _ fun _ => rfl
    · exact keeps_modify _ _ fun _ => rfl
  refine keeps_bind _ _ _ (counters_initializeCallInfo _ _ _ _ _ _) fun _ => ?_
  refine keeps_bind _ _ _ (keeps_of_same _ _ (luaFrameAt_same _)) fun _ => ?_
  refine keeps_bind _ _ _ (keeps_getState _) fun _ => ?_
  refine keeps_bind _ _ _ ?_ fun _ => ?_
  · exact keeps_ite _ _ _ _ (keeps_updateLuaFrame _ counters_frames _ _) (keeps_panic _ _)
  refine keeps_bind _ _ _ (keeps_modify _ _ fun _ => rfl) fun _ => ?_
  exact keeps_pure _ _

theorem counters_pushGoFrame (env : Env) (a b : Int) :
    Keeps State.counters (pushGoFrame env a b) := by
  unfold pushGoFrame
  refine keeps_bind _ _ _ (keeps_of_same _ _ current_same) fun d => ?_
  refine keeps_bind _ _ _ (keeps_getState _) fun s => ?_
  refine keeps_bind _ _ _ ?_ fun _ => ?_
  · split
    · exact keeps_pure _ _
    · exact keeps_modify _ _ fun _ => rfl
  refine keeps_bind _ _ _ (keeps_getState _) fun _ => ?_
  exact counters_initializeCallInfo _ _ _ _ _ _

theorem counters_adjustVarArgs (env : Env) (p : Prototype) (n : Int) :
    Keeps State.counters (adjustVarArgs env p n) := by
  unfold adjustVarArgs
  refine keeps_bind _ _ _ (keeps_of_same _ _ (assert_same _ _)) fun _ => ?_
  refine keeps_bind _ _ _ (keeps_getState _) fun _ => ?_
  refine keeps_bind _ _ _ (counters_copyStack _ _ _ _) fun _ => ?_
  refine keeps_bind _ _ _ (counters_nilStack _ _) fun _ => ?_
  exact keeps_pure _ _

theorem counters_slideUp (function : Int) (n : Nat) :
    Keeps State.counters (slideUp function n) := by
  induction n with
  | zero => exact keeps_pure _ _
  | succ n ih =>
    unfold slideUp
    refine keeps_bind _ _ _ (keeps_of_same _ _ (readStack_same _)) fun _ => ?_
    exact keeps_bind _ _ _ (counters_writeStack _ _) fun _ => ih

theorem counters_checkStack (env : Env) (n : Int) : Keeps State.counters (checkStack env n) :=
  keeps_checkStack _ counters_frames counters_storage _ _

/-- A hook keeps the counters when its callback does. -/
theorem counters_hook (env : Env)
    (hh : ∀ h, env.hooker = some h → ∀ ar, Keeps State.counters (h ar)) (ev line : Int) :
    Keeps State.counters (hook env ev line) := by
  unfold hook
  refine keeps_bind _ _ _ (keeps_getState _) fun s => ?_
  cases hk : env.hooker with
  | none => exact keeps_pure _ _
  | some h =>
    simp only []
    refine keeps_ite _ _ _ _ (keeps_pure _ _) ?_
    refine keeps_bind _ _ _ (keeps_of_same _ _ currentLua_same) fun _ => ?_
    refine keeps_bind _ _ _ (keeps_of_same _ _ (luaFrameAt_same _)) fun _ => ?_
    refine keeps_bind _ _ _ (counters_checkStack _ _) fun _ => ?_
    refine keeps_bind _ _ _ (keeps_getState _) fun _ => ?_
    refine keeps_bind _ _ _ (keeps_updateFrame _ counters_frames _ _) fun _ => ?_
    refine keeps_bind _ _ _ (keeps_of_same _ _ (luaFrameAt_same _)) fun _ => ?_
    refine keeps_bind _ _ _ (keeps_getState _) fun _ => ?_
    refine keeps_bind _ _ _ (keeps_of_same _ _ (assert_same _ _)) fun _ => ?_
    refine keeps_bind _ _ _ (keeps_modify _ _ fun _ => rfl) fun _ => ?_
    refine keeps_bind _ _ _ (keeps_updateFrame _ counters_frames _ _) fun _ => ?_
    refine keeps_bind _ _ _ (hh h hk _) fun _ => ?_
    refine keeps_bind _ _ _ (keeps_getState _) fun _ => ?_
    refine keeps_bind _ _ _ (keeps_of_same _ _ (assert_same _ _)) fun _ => ?_
    refine keeps_bind _ _ _ (keeps_modify _ _ fun _ => rfl) fun _ => ?_
    refine keeps_bind _ _ _ (keeps_updateFrame _ counters_frames _ _) fun _ => ?_
    refine keeps_bind _ _ _ (keeps_modify _ _ fun _ => rfl) fun _ => ?_
    exact keeps_updateFrame _ counters_frames _ _

theorem counters_callHook (env : Env)
    (hh : ∀ h, env.hooker = some h → ∀ ar, Keeps State.counters (h ar)) (ci : Nat) :
    Keeps State.counters (callHook env ci) := by
  unfold callHook
  refine keeps_bind _ _ _ (keeps_updateLuaFrame _ counters_frames _ _) fun _ => ?_
  refine keeps_bind _ _ _ (keeps_getState _) fun s => ?_
  refine keeps_bind _ _ _ ?_ fun _ => keeps_updateLuaFrame _ counters_frames _ _
  cases ci with
  | zero => exact counters_hook env hh _ _
  | succ d =>
    simp only []
    split
    · split
      · exact keeps_panic _ _
      · refine keeps_ite _ _ _ _ ?_ (counters_hook env hh _ _)
        exact keeps_bind _ _ _ (keeps_updateFrame _ counters_frames _ _) fun _ =>
          counters_hook env hh _ _
    · exact counters_hook env hh _ _

theorem counters_postCall (env : Env)
    (hh : ∀ h, env.hooker = some h → ∀ ar, Keeps State.counters (h ar)) (firstResult : Int) :
    Keeps State.counters (postCall env firstResult) := by
  unfold postCall
  refine keeps_bind _ _ _ (keeps_of_same _ _ currentLua_same) fun _ => ?_
  refine keeps_bind _ _ _ (keeps_getState _) fun _ => ?_
  refine keeps_bind _ _ _ ?_ fun _ => ?_
  · exact keeps_ite _ _ _ _ (counters_hook env hh _ _) (keeps_pure _ _)
  refine keeps_bind _ _ _ (keeps_of_same _ _ (luaFrameAt_same _)) fun _ => ?_
  refine keeps_bind _ _ _ (keeps_getState _) fun _ => ?_
  refine keeps_bind _ _ _ ?_ fun _ => ?_
  · refine keeps_ite _ _ _ _ (counters_copyStack _ _ _ _) ?_
    exact keeps_bind _ _ _ (counters_copyStack _ _ _ _) fun _ => counters_nilStack _ _
  refine keeps_bind _ _ _ (keeps_modify _ _ fun _ => rfl) fun _ => ?_
  refine keeps_bind _ _ _ (keeps_modify _ _ fun _ => rfl) fun _ => ?_
  refine keeps_bind _ _ _ (keeps_getState _) fun _ => ?_
  refine keeps_bind _ _ _ ?_ fun _ => keeps_pure _ _
  refine keeps_ite _ _ _ _ ?_ (keeps_pure _ _)
  refine keeps_bind _ _ _ (keeps_of_same _ _ currentLua_same) fun _ => ?_
  refine keeps_bind _ _ _ (keeps_of_same _ _ (luaFrameAt_same _)) fun _ => ?_
  exact keeps_modify _ _ fun _ => rfl

theorem counters_preCallGo (env : Env) (hbal : Balanced env) (function resultCount : Int)
    (g : Nat) : Keeps State.counters (preCallGo env function resultCount g) := by
  unfold preCallGo
  refine keeps_bind _ _ _ (counters_checkStack _ _) fun _ => ?_
  refine keeps_bind _ _ _ (counters_pushGoFrame _ _ _) fun _ => ?_
  refine keeps_bind _ _ _ (keeps_getState _) fun _ => ?_
  refine keeps_bind _ _ _ ?_ fun _ => ?_
  · exact keeps_ite _ _ _ _ (counters_hook env hbal.1 _ _) (keeps_pure _ _)
  refine keeps_bind _ _ _ (hbal.2.1 _) fun _ => ?_
  refine keeps_bind _ _ _ (hbal.2.2.1 _) fun _ => ?_
  refine keeps_bind _ _ _ (keeps_getState _) fun _ => ?_
  refine keeps_bind _ _ _ (counters_postCall env hbal.1 _) fun _ => ?_
  exact keeps_pure _ _

theorem counters_preCallLua (env : Env) (hbal : Balanced env) (function resultCount : Int)
    (c : Nat) : Keeps State.counters (preCallLua env function resultCount c) := by
  unfold preCallLua
  refine keeps_bind _ _ _ (keeps_of_same _ _ (closureAt_same _)) fun _ => ?_
  refine keeps_bind _ _ _ (keeps_of_same _ _ (protoAt_same _)) fun _ => ?_
  refine keeps_bind _ _ _ (counters_checkStack _ _) fun _ => ?_
  refine keeps_bind _ _ _ (keeps_getState _) fun _ => ?_
  refine keeps_bind _ _ _ (counters_nilStack _ _) fun _ => ?_
  refine keeps_bind _ _ _ ?_ fun _ => ?_
  · exact keeps_ite _ _ _ _ (counters_adjustVarArgs _ _ _) (keeps_pure _ _)
  refine keeps_bind _ _ _ (counters_pushLuaFrame _ _ _ _ _) fun _ => ?_
  refine keeps_bind _ _ _ (keeps_getState _) fun _ => ?_
  refine keeps_bind _ _ _ ?_ fun _ => keeps_pure _ _
  exact keeps_ite _ _ _ _ (counters_callHook env hbal.1 _) (keeps_pure _ _)

theorem counters_preCallDefault (env : Env) (function : Int) (f : Value) :
    Keeps State.counters (preCallDefault env function f) := by
  unfold preCallDefault
  split
  · exact keeps_panic _ _
  · refine keeps_bind _ _ _ (keeps_getState _) fun _ => ?_
    refine keeps_bind _ _ _ (counters_slideUp _ _) fun _ => ?_
    refine keeps_bind _ _ _ (keeps_modify _ _ fun _ => rfl) fun _ => ?_
    refine keeps_bind _ _ _ (counters_checkStack _ _) fun _ => ?_
    refine keeps_bind _ _ _ (counters_writeStack _ _) fun _ => ?_
    exact keeps_pure _ _
  · exact keeps_panic _ _

theorem counters_preCallPass (env : Env) (hbal : Balanced env) (function resultCount : Int) :
    Keeps State.counters (preCallPass env function resultCount) := by
  unfold preCallPass
  refine keeps_bind _ _ _ (keeps_of_same _ _ (readStack_same _)) fun f => ?_
  split
  · exact counters_preCallGo env hbal _ _ _
  · exact counters_preCallLua env hbal _ _ _
  · exact counters_preCallDefault env _ _

theorem counters_preCallLoop (env : Env) (hbal : Balanced env) (function resultCount : Int)
    (fuel : Nat) : Keeps State.counters (preCallLoop env function resultCount fuel) := by
  induction fuel with
  | zero => exact keeps_panic _ _
  | succ n ih =>
    unfold preCallLoop
    refine keeps_bind _ _ _ (counters_preCallPass env hbal _ _) fun r => ?_
    cases r with
    | returned b => exact keeps_pure _ _
    | again => exact ih

/-- The method `preCall` returns with the counters of `call` as they were. -/
theorem counters_preCall (env : Env) (hbal : Balanced env) (function resultCount : Int) :
    Keeps State.counters (preCall env function resultCount) :=
  counters_preCallLoop env hbal _ _ _

/-! ## `call` -/

/-- The nesting check of `call`, by the value of the incremented counter. -/
theorem call_nesting_check (env : Env) (function resultCount : Int) (allowYield : Bool)
    (s : State) :
    call env function resultCount allowYield s =
      if s.nestedGoCallCount + 1 = maxCallCount then
        .panic .goStackOverflow { s with nestedGoCallCount := s.nestedGoCallCount + 1 }
      else if s.nestedGoCallCount + (1 : Int) ≥ maxCallCount + (maxCallCount >>> 3) then
        .panic .errorError { s with nestedGoCallCount := s.nestedGoCallCount + 1 }
      else
        callBody env function resultCount allowYield
          { s with nestedGoCallCount := s.nestedGoCallCount + 1 } := by
  unfold call
  simp only [bind_run, modify_run, getState_run]
  by_cases h1 : s.nestedGoCallCount + 1 = maxCallCount
  · simp only [if_pos h1, panic_run]
  · by_cases h2 : s.nestedGoCallCount + (1 : Int) ≥ maxCallCount + (maxCallCount >>> 3)
    · simp only [if_neg h1, if_pos h2, panic_run]
    · simp only [if_neg h1, if_neg h2, pure_run]

theorem nesting_limit : maxCallCount + (maxCallCount >>> 3) = 225 := by decide

/-- C12: `call` increments `nestedGoCallCount` first; it then raises the "Go
stack overflow" error when the incremented counter is `maxCallCount` = 200,
raises the fatal `ErrorError` when the incremented counter is at least
`maxCallCount + maxCallCount >> 3` = 225, and for every other value (below
200, and 201 to 224) raises neither and goes on with the rest of `call` in the
state with the incremented counter. -/
theorem call_nesting_thresholds (env : Env) (function resultCount : Int) (allowYield : Bool)
    (s : State) :
    maxCallCount = 200 ∧ maxCallCount + (maxCallCount >>> 3) = 225 ∧
    (s.nestedGoCallCount + 1 = 200 →
      call env function resultCount allowYield s =
        .panic .goStackOverflow { s with nestedGoCallCount := s.nestedGoCallCount + 1 }) ∧
    (225 ≤ s.nestedGoCallCount + 1 →
      call env function resultCount allowYield s =
        .panic .errorError { s with nestedGoCallCount := s.nestedGoCallCount + 1 }) ∧
    (s.nestedGoCallCount + 1 < 200 ∨
        (201 ≤ s.nestedGoCallCount + 1 ∧ s.nestedGoCallCount + 1 ≤ 224) →
      call env function resultCount allowYield s =
        callBody env function resultCount allowYield
          { s with nestedGoCallCount := s.nestedGoCallCount + 1 }) := by
  have hmax : maxCallCount = 200 := rfl
  refine ⟨hmax, nesting_limit, ?_, ?_, ?_⟩
  · intro h
    rw [call_nesting_check, nesting_limit, hmax, if_pos h]
  · intro h
    rw [call_nesting_check, nesting_limit, hmax, if_neg (by omega), if_pos (by omega)]
  · intro h
    rw [call_nesting_check, nesting_limit, hmax, if_neg (by omega), if_neg (by omega)]

/-- A run that returns a value returns it in its end state. -/
theorem ok_of_value {α : Type} (m : Exec α) (s : State) (a : α)
    (h : (m s).value = some a) : m s = .ok a (m s).state := by
  cases hm : m s with
  | ok b t =>
    rw [hm] at h
    cases h
    rfl
  | panic e t =>
    rw [hm] at h
    cases h

/-- When the rest of `call` returns, the nesting counter is one lower than it
was and the non-yieldable counter is as it was. -/
theorem callBody_counters (env : Env) (hbal : Balanced env) (function resultCount : Int)
    (allowYield : Bool) (s s1 : State)
    (h : callBody env function resultCount allowYield s = .ok () s1) :
    s1.nestedGoCallCount = s.nestedGoCallCount - 1 ∧
    s1.nonYieldableCallCount = s.nonYieldableCallCount := by
  unfold callBody at h
  obtain ⟨_, t1, h1, h⟩ := bind_ok_inv _ _ _ _ _ h
  obtain ⟨b, t2, h2, h⟩ := bind_ok_inv _ _ _ _ _ h
  obtain ⟨_, t3, h3, h⟩ := bind_ok_inv _ _ _ _ _ h
  obtain ⟨_, t4, h4, h⟩ := bind_ok_inv _ _ _ _ _ h
  have k2 : t2.counters = t1.counters := counters_preCall env hbal _ _ _ _ _ h2
  have k3 : t3.counters = t2.counters := by
    cases b
    · exact hbal.2.2.2 _ _ _ h3
    · cases h3
      rfl
  have k : t3.counters = t1.counters := k3.trans k2
  simp only [State.counters, Prod.mk.injEq] at k
  cases h
  cases allowYield
  · cases h1
    cases h4
    refine ⟨?_, ?_⟩
    · show t3.nestedGoCallCount - 1 = s.nestedGoCallCount - 1
      rw [k.1]
    · show t3.nonYieldableCallCount - 1 = s.nonYieldableCallCount
      rw [k.2]
      show s.nonYieldableCallCount + 1 - 1 = s.nonYieldableCallCount
      omega
  · cases h1
    cases h4
    refine ⟨?_, ?_⟩
    · show t3.nestedGoCallCount - 1 = s.nestedGoCallCount - 1
      rw [k.1]
    · show t3.nonYieldableCallCount = s.nonYieldableCallCount
      rw [k.2]

theorem balanced_env0 : Balanced env0 := by
  unfold Balanced
  exact ⟨fun h hh => (by cases hh), fun _ => keeps_panic _ _, fun _ => keeps_pure _ _,
    keeps_pure _ _⟩

/-- C13: when the hook, the host functions, the API check and the interpreter
loop leave the two counters balanced, a `call` that returns leaves
`nestedGoCallCount` and `nonYieldableCallCount` at their values before the
call; a `call` that fails in the nesting check stops with `nestedGoCallCount`
one above its value before the call. -/
theorem call_counters_on_return (env : Env) (function resultCount : Int) (allowYield : Bool)
    (s : State) (hbal : Balanced env) :
    (∀ s1, call env function resultCount allowYield s = .ok () s1 →
      s1.nestedGoCallCount = s.nestedGoCallCount ∧
      s1.nonYieldableCallCount = s.nonYieldableCallCount) ∧
    (s.nestedGoCallCount + 1 = 200 ∨ 225 ≤ s.nestedGoCallCount + 1 →
      ∃ e, call env function resultCount allowYield s =
        .panic e { s with nestedGoCallCount := s.nestedGoCallCount + 1 }) := by
  have hmax : maxCallCount = 200 := rfl
  constructor
  · intro s1 h
    rw [call_nesting_check, nesting_limit, hmax] at h
    split at h
    · cases h
    · split at h
      · cases h
      · have hb := callBody_counters env hbal _ _ _ _ _ h
        constructor
        · rw [hb.1]
          show s.nestedGoCallCount + 1 - 1 = s.nestedGoCallCount
          omega
        · exact hb.2
  · intro h
    rw [call_nesting_check, nesting_limit, hmax]
    split
    · exact ⟨_, rfl⟩
    · rw [if_pos (by omega)]
      exact ⟨_, rfl⟩

/-- The counters theorem at a call of a script closure that does not allow a
yield: the call returns with both counters at 0. -/
theorem call_counters_on_return_witness :
    Balanced env0 ∧ (call env0 1 0 false (stateNested 0)).value = some () ∧
    (call env0 1 0 false (stateNested 0)).state.nestedGoCallCount
      = (stateNested 0).nestedGoCallCount ∧
    (call env0 1 0 false (stateNested 0)).state.nonYieldableCallCount
      = (stateNested 0).nonYieldableCallCount :=
  ⟨balanced_env0, by decide,
    (call_counters_on_return env0 1 0 false (stateNested 0) balanced_env0).1 _
      (ok_of_value _ _ _ (by decide))⟩

/-! ## `checkStack` -/

theorem wrap64_of_fits (x : Int) (h0 : -(2 ^ 63) ≤ x) (h1 : x < 2 ^ 63) : wrap64 x = x := by
  unfold wrap64
  omega

/-- The method `growStack` by the size of the growth policy. -/
theorem growStack_eq (env : Env) (n : Int) (s : State) :
    growStack env n s =
      if (s.stack.length : Int) > maxStack then .panic .errorError s
      else if policySize s n > maxStack then
        (reallocStack env errorStackSize >>= fun _ => (panic .stackOverflow : Exec Unit)) s
      else reallocStack env (policySize s n) s := by
  unfold growStack
  simp only [bind_run, getState_run]
  by_cases hL : (s.stack.length : Int) > maxStack
  · simp only [if_pos hL, panic_run]
  · simp only [if_neg hL]
    have hmax : maxStack = 1000000 := rfl
    have h2 : wrap64 (2 * (s.stack.length : Int)) = 2 * (s.stack.length : Int) :=
      wrap64_of_fits _ (by omega) (by omega)
    have hsize : (if (if wrap64 (2 * (s.stack.length : Int)) > maxStack then maxStack
          else wrap64 (2 * (s.stack.length : Int))) < wrap64 (wrap64 (s.top + n) + extraStack)
        then wrap64 (wrap64 (s.top + n) + extraStack)
        else (if wrap64 (2 * (s.stack.length : Int)) > maxStack then maxStack
          else wrap64 (2 * (s.stack.length : Int)))) = policySize s n := by
      unfold policySize neededSize
      rw [h2]
      generalize wrap64 (wrap64 (s.top + n) + extraStack) = need
      split <;> split <;> omega
    rw [hsize]
    split <;> rfl

/-- What `reallocStack` has done when it returns: the stack is the old one
with nils appended up to the new size, `top` is as it was and `stackLast` is
`extraStack` below the new length. -/
theorem reallocStack_ok_inv (env : Env) (n : Int) (s s1 : State)
    (h : reallocStack env n s = .ok () s1) :
    (s.stack.length : Int) ≤ n ∧ s1.top = s.top ∧
    s1.stack = s.stack ++ List.replicate (n - s.stack.length).toNat Value.nil ∧
    s1.stackLast = (s1.stack.length : Int) - extraStack := by
  unfold reallocStack at h
  obtain ⟨_, t0, h0, h⟩ := bind_ok_inv _ _ _ _ _ h
  cases h0
  obtain ⟨_, t1, h1, h⟩ := bind_ok_inv _ _ _ _ _ h
  have e1 := assert_same _ _ _ _ _ h1
  subst e1
  obtain ⟨_, t2, h2, h⟩ := bind_ok_inv _ _ _ _ _ h
  have e2 := assert_same _ _ _ _ _ h2
  subst e2
  obtain ⟨_, t3, h3, h⟩ := bind_ok_inv _ _ _ _ _ h
  have hn : ¬ n < (t2.stack.length : Int) := by
    intro hlt
    rw [if_pos hlt] at h3
    cases h3
  rw [if_neg hn] at h3
  cases h3
  obtain ⟨_, t4, h4, h⟩ := bind_ok_inv _ _ _ _ _ h
  cases h4
  obtain ⟨_, t5, h5, h⟩ := bind_ok_inv _ _ _ _ _ h
  cases h5
  obtain ⟨d, t6, h6, h⟩ := bind_ok_inv _ _ _ _ _ h
  have e6 := current_same _ _ _ h6
  subst e6
  obtain ⟨_, t7, h7, h⟩ := bind_ok_inv _ _ _ _ _ h
  cases h7
  have hk := keeps_repoint (fun u : State => (u.stack, u.top, u.stackLast)) (fun _ _ => rfl)
    _ _ _ _ h
  simp only [Prod.mk.injEq] at hk
  obtain ⟨hk1, hk2, hk3⟩ := hk
  refine ⟨by omega, hk2, hk1, ?_⟩
  rw [hk3, hk1]

/-- The method `reallocStack` returns when its assertions hold, the new size
is no less than the old one, there is a current frame and the windows of the
script frames lie within the stack. -/
theorem reallocStack_returns (env : Env) (s : State) (newSize : Int) (d : Nat)
    (hlast : env.checkAsserts = true → s.stackLast = s.stack.length - extraStack)
    (hsize : (s.stack.length : Int) ≤ newSize)
    (hassert : env.checkAsserts = true → newSize ≤ maxStack ∨ newSize = errorStackSize)
    (hcur : s.callInfo = some d) (hd : d < s.frames.length)
    (hwf : ∀ j ci, j ≤ d → s.frames[j]? = some (.lua ci) →
      0 ≤ ci.base ∧ 0 ≤ ci.frame.len ∧ ci.top_ ≤ s.stack.length) :
    ∃ s1, reallocStack env newSize s = .ok () s1 := by
  have ha1 : assert env (decide (newSize ≤ maxStack) || decide (newSize = errorStackSize)) s
      = .ok () s := assert_run_ok env _ s (by
    intro h; rcases hassert h with h | h <;> simp [h])
  have ha2 : assert env (decide (s.stackLast = s.stack.length - extraStack)) s = .ok () s :=
    assert_run_ok env _ s (by intro h; simp [hlast h])
  have hns : ¬ newSize < s.stack.length := by omega
  let st := s.stack ++ List.replicate (newSize - s.stack.length).toNat Value.nil
  let arr := if newSize = s.stack.length then s.stackArr else s.stackArr + 1
  let t : State := { s with stack := st, stackArr := arr, stackLast := st.length - extraStack,
                            frames := s.frames.take (d + 1) }
  have hstlen : (st.length : Int) = newSize := by
    simp only [st, List.length_append, List.length_replicate]; omega
  have htf : ∀ j, j ≤ d → t.frames[j]? = s.frames[j]? := by
    intro j hj
    have : j < d + 1 := by omega
    simp [t, List.getElem?_take, this]
  obtain ⟨fs, hrun, _, _⟩ := repoint_spec (d + 1) t
    (by
      intro j ci hj hci
      rw [htf j (by omega)] at hci
      obtain ⟨h0, h1, h2⟩ := hwf j ci (by omega) hci
      refine ⟨h0, h1, ?_⟩
      have : ci.base + ci.frame.len = ci.top_ := by
        simp [LuaCallInfo.base, LuaCallInfo.stackIndex]
      rw [this]
      show ci.top_ ≤ (st.length : Int)
      omega)
    (by simp [t]; omega)
  refine ⟨{ t with frames := fs }, ?_⟩
  unfold reallocStack
  simp only [bind_run, getState_run, ha1, ha2, if_neg hns, pure_run, modify_run]
  rw [current_run _ d (by exact hcur) (by exact hd)]
  exact hrun

/-- C11: for a state with `stackLast = len(stack) - extraStack` and every `n`
for which `top + n + extraStack` does not exceed the largest 64-bit `int`:
when `checkStack(n)` returns, at least `n` slots are free above `top`, `top`
is unchanged, every slot of the old stack keeps its value, and
`stackLast = len(stack) - extraStack` still holds. -/
theorem checkStack_free_slots (env : Env) (s s1 : State) (n : Int)
    (hlast : s.stackLast = s.stack.length - extraStack)
    (hfit : s.top + n + extraStack < 2 ^ 63)
    (h : checkStack env n s = .ok () s1) :
    s1.stackLast - s1.top ≥ n ∧ s1.top = s.top ∧
    (∀ i : Int, i < s.stack.length → idx s1.stack i = idx s.stack i) ∧
    s1.stackLast = s1.stack.length - extraStack := by
  unfold checkStack at h
  simp only [bind_run, getState_run] at h
  by_cases hgrow : s.stackLast - s.top ≤ n
  · rw [if_pos hgrow, growStack_eq] at h
    split at h
    · cases h
    · split at h
      · obtain ⟨_, _, _, h⟩ := bind_ok_inv _ _ _ _ _ h
        cases h
      · rename_i hpol
        obtain ⟨hle, htop1, hstack, hlast1⟩ := reallocStack_ok_inv _ _ _ _ h
        have hext : extraStack = 5 := rfl
        have hneed : neededSize s n = s.top + n + extraStack := by
          unfold neededSize
          rw [wrap64_of_fits (s.top + n) (by omega) (by omega),
            wrap64_of_fits _ (by omega) (by omega)]
        have hpn : neededSize s n ≤ policySize s n := by
          unfold policySize
          exact le_max_right _ _
        have hlen : (s1.stack.length : Int) = policySize s n := by
          rw [hstack, List.length_append, List.length_replicate]
          push_cast
          omega
        refine ⟨?_, htop1, ?_, hlast1⟩
        · rw [hlast1, hlen, htop1]
          omega
        · intro i hi
          rw [hstack]
          exact idx_append_left _ _ i hi
  · rw [if_neg hgrow] at h
    cases h
    exact ⟨by omega, rfl, fun _ _ => rfl, hlast⟩

/-- The free-slots theorem at `state0` and `n = 50`: the stack grows from 45
to 90 slots. -/
theorem checkStack_free_slots_witness :
    state0.stackLast = state0.stack.length - extraStack ∧
    (checkStack env0 50 state0).value = some () ∧
    (checkStack env0 50 state0).state.stack.length = 90 ∧
    (checkStack env0 50 state0).state.stackLast - (checkStack env0 50 state0).state.top ≥ 50 ∧
    (checkStack env0 50 state0).state.top = state0.top ∧
    (∀ i : Int, i < state0.stack.length →
      idx (checkStack env0 50 state0).state.stack i = idx state0.stack i) ∧
    (checkStack env0 50 state0).state.stackLast
      = (checkStack env0 50 state0).state.stack.length - extraStack :=
  ⟨by decide, by decide, by decide,
    checkStack_free_slots env0 state0 _ 50 (by decide) (by decide)
      (ok_of_value _ _ _ (by decide))⟩

/-! ## The growth policy of `growStack` -/

/-- C19: for `growStack(n)` with `L = len(stack)` and `need` the value of
`top + n + extraStack` in the 64-bit `int` (the sum itself when it does not
overflow): if `L > maxStack` it raises `ErrorError` and leaves the state as it
is; otherwise, with the policy size `max(min(2 * L, maxStack), need)`, the
size exceeds `maxStack` exactly when `need` does, and then the stack is
resized to exactly `errorStackSize = maxStack + 200 > maxStack` and the
"stack overflow" error is raised; when the size does not exceed `maxStack`
the stack length becomes exactly that size, which is no less than `L`, and no
error is raised. -/
theorem growStack_policy (env : Env) (s : State) (n : Int) (d : Nat)
    (hlast : env.checkAsserts = true → s.stackLast = s.stack.length - extraStack)
    (hcur : s.callInfo = some d) (hd : d < s.frames.length)
    (hwf : ∀ j ci, j ≤ d → s.frames[j]? = some (.lua ci) →
      0 ≤ ci.base ∧ 0 ≤ ci.frame.len ∧ ci.top_ ≤ s.stack.length) :
    (-(2 ^ 63) ≤ s.top + n → s.top + n + extraStack < 2 ^ 63 →
      neededSize s n = s.top + n + extraStack) ∧
    ((s.stack.length : Int) > maxStack → growStack env n s = .panic .errorError s) ∧
    ((s.stack.length : Int) ≤ maxStack →
      (policySize s n > maxStack ↔ neededSize s n > maxStack) ∧
      (policySize s n > maxStack →
        ∃ s1, growStack env n s = .panic .stackOverflow s1 ∧
          (s1.stack.length : Int) = errorStackSize ∧
          errorStackSize = maxStack + 200 ∧ errorStackSize > maxStack) ∧
      (policySize s n ≤ maxStack →
        (s.stack.length : Int) ≤ policySize s n ∧
        ∃ s1, growStack env n s = .ok () s1 ∧
          (s1.stack.length : Int) = policySize s n)) := by
  have hmax : maxStack = 1000000 := rfl
  have herr : errorStackSize = 1000200 := rfl
  have hext : extraStack = 5 := rfl
  refine ⟨?_, ?_, ?_⟩
  · intro h0 h1
    unfold neededSize
    rw [wrap64_of_fits (s.top + n) h0 (by omega), wrap64_of_fits _ (by omega) h1]
  · intro hL
    rw [growStack_eq, if_pos hL]
  · intro hL
    have hLn : ¬ (s.stack.length : Int) > maxStack := by omega
    have hpol : policySize s n = max (min (2 * (s.stack.length : Int)) maxStack)
        (neededSize s n) := rfl
    refine ⟨?_, ?_, ?_⟩
    · rw [hpol]
      omega
    · intro hbig
      obtain ⟨s1, hs1⟩ := reallocStack_returns env s errorStackSize d hlast (by omega)
        (fun _ => Or.inr rfl) hcur hd hwf
      obtain ⟨hle, _, hstack, _⟩ := reallocStack_ok_inv _ _ _ _ hs1
      refine ⟨s1, ?_, ?_, by omega, by omega⟩
      · rw [growStack_eq, if_neg hLn, if_pos hbig, bind_run, hs1]
        rfl
      · rw [hstack, List.length_append, List.length_replicate]
        push_cast
        omega
    · intro hsmall
      have hge : (s.stack.length : Int) ≤ policySize s n := by
        rw [hpol]
        omega
      obtain ⟨s1, hs1⟩ := reallocStack_returns env s (policySize s n) d hlast hge
        (fun _ => Or.inl hsmall) hcur hd hwf
      obtain ⟨hle, _, hstack, _⟩ := reallocStack_ok_inv _ _ _ _ hs1
      refine ⟨hge, s1, ?_, ?_⟩
      · rw [growStack_eq, if_neg hLn, if_neg (by omega)]
        exact hs1
      · rw [hstack, List.length_append, List.length_replicate]
        push_cast
        omega

/-- The window of the base frame of `state0` lies within its stack. -/
theorem state0_windows (j : Nat) (ci : LuaCallInfo) (hj : j ≤ 0)
    (h : state0.frames[j]? = some (.lua ci)) :
    0 ≤ ci.base ∧ 0 ≤ ci.frame.len ∧ ci.top_ ≤ state0.stack.length := by
  have hj0 : j = 0 := by omega
  subst hj0
  have hci : ci = ⟨⟨0, 21, 0, callStatusLua⟩, ⟨1, 1, 20⟩, 0, []⟩ := by
    have h2 : state0.frames[0]? = some (.lua ⟨⟨0, 21, 0, callStatusLua⟩, ⟨1, 1, 20⟩, 0, []⟩) :=
      rfl
    rw [h2] at h
    injection h with h
    injection h with h
    exact h.symm
  subst hci
  decide

/-- The growth policy at `state0` and `n = 50`: the size is 90 and the stack
grows to it. -/
theorem growStack_policy_witness :
    policySize state0 50 = 90 ∧
    ∃ s1, growStack env0 50 state0 = .ok () s1 ∧ (s1.stack.length : Int) = 90 := by
  have hp : policySize state0 50 = 90 := by decide
  obtain ⟨_, _, h⟩ := growStack_policy env0 state0 50 0 (fun _ => by decide) rfl (by decide)
    state0_windows
  obtain ⟨_, _, h3⟩ := h (by decide)
  obtain ⟨_, s1, h4, h5⟩ := h3 (by decide)
  exact ⟨hp, s1, h4, by rw [h5, hp]⟩

/-! ## `hook` -/

theorem hooked_bit_set (x : Nat) :
    (x ||| callStatusHooked) &&& callStatusHooked = callStatusHooked := by
  apply Nat.eq_of_testBit_eq
  intro i
  simp only [Nat.testBit_and, Nat.testBit_or]
  cases x.testBit i <;> cases callStatusHooked.testBit i <;> rfl

theorem hooked_bit_clear (x : Nat) :
    (x &&& (x ^^^ callStatusHooked)) &&& callStatusHooked = 0 := by
  apply Nat.eq_of_testBit_eq
  intro i
  simp only [Nat.testBit_and, Nat.testBit_xor, Nat.zero_testBit]
  cases x.testBit i <;> cases callStatusHooked.testBit i <;> rfl

theorem mapCommon_common (f : CommonCallInfo → CommonCallInfo) (c : CallInfo) :
    (c.mapCommon f).common = f c.common := by
  cases c <;> rfl

/-- The frames after `updateFrame`: the frame at depth `d`, when there is
one, is mapped by `f`. -/
theorem updateFrame_frame (d : Nat) (f : CallInfo → CallInfo) (s : State) :
    ∃ fs, updateFrame d f s = .ok () { s with frames := fs } ∧
      fs[d]? = (s.frames[d]?).map f := by
  cases hc : s.frames[d]? with
  | none =>
    refine ⟨s.frames, ?_, ?_⟩
    · simp [updateFrame, hc]
    · rw [hc]; rfl
  | some c =>
    refine ⟨s.frames.set d (f c), updateFrame_run d f s c hc, ?_⟩
    have hd : d < s.frames.length := getElem?_some_lt _ _ _ hc
    simp [hd]

theorem luaFrameAt_ok_inv (d : Nat) (s : State) (c : LuaCallInfo) (s1 : State)
    (h : luaFrameAt d s = .ok c s1) : s1 = s ∧ s.frames[d]? = some (.lua c) := by
  unfold luaFrameAt at h
  split at h
  · rename_i x hx
    cases h
    exact ⟨rfl, hx⟩
  · cases h

/-- What a hook has done when it returns. -/
theorem hook_ok_inv (env : Env) (s : State) (event line : Int)
    (h : Debug → Exec Unit) (d : Nat) (ci : LuaCallInfo)
    (hh : env.hooker = some h) (hallow : s.allowHook = true)
    (hcur : s.callInfo = some d) (hci : s.frames[d]? = some (.lua ci))
    (hkeep : ∀ ar t t1, h ar t = .ok () t1 → (t.frames[d]?).isSome → (t1.frames[d]?).isSome)
    (s1 : State) (hrun : hook env event line s = .ok () s1) :
    s1.top = s.top ∧ s1.allowHook = true ∧
    (∃ c1, s1.frames[d]? = some c1 ∧ c1.common.top_ = ci.top_ ∧
      c1.common.callStatus_ &&& callStatusHooked = 0) ∧
    ∃ t t1 c, h ⟨event, line, d⟩ t = .ok () t1 ∧ s1.stack = t1.stack ∧
      t.allowHook = false ∧ t.top = s.top ∧ t.frames[d]? = some (.lua c) ∧
      c.top_ = t.top + MinStack ∧ c.callStatus_ &&& callStatusHooked = callStatusHooked := by
  unfold hook at hrun
  obtain ⟨_, _, h0, r1⟩ := bind_ok_inv _ _ _ _ _ hrun
  clear hrun
  cases h0
  rw [hh] at r1
  simp only [hallow, Bool.not_true, Bool.false_eq_true, if_false] at r1
  obtain ⟨d1, t1, h1, r2⟩ := bind_ok_inv _ _ _ _ _ r1
  clear r1
  have hcl : currentLua s = .ok d s := by simp [currentLua, hcur, hci]
  rw [hcl] at h1
  cases h1
  obtain ⟨lci, t1, h1, r3⟩ := bind_ok_inv _ _ _ _ _ r2
  clear r2
  have hlf : luaFrameAt d s = .ok ci s := by simp [luaFrameAt, hci]
  rw [hlf] at h1
  cases h1
  obtain ⟨_, t2, hck, r4⟩ := bind_ok_inv _ _ _ _ _ r3
  clear r3
  have htop2 : t2.top = s.top :=
    keeps_checkStack (fun u : State => u.top) (fun _ _ => rfl) (fun _ _ _ _ => rfl) _ _ _ _ _ hck
  obtain ⟨_, _, h1, r5⟩ := bind_ok_inv _ _ _ _ _ r4
  clear r4
  cases h1
  obtain ⟨_, t3, h3, r6⟩ := bind_ok_inv _ _ _ _ _ r5
  clear r5
  obtain ⟨fs3, hu3, hfs3⟩ := updateFrame_frame d
    (CallInfo.mapCommon fun c => { c with top_ := t2.top + MinStack }) t2
  rw [hu3] at h3
  cases h3
  obtain ⟨lci1, t4, h4, r7⟩ := bind_ok_inv _ _ _ _ _ r6
  clear r6
  obtain ⟨e4, hl4⟩ := luaFrameAt_ok_inv _ _ _ _ h4
  subst e4
  have hl4b : fs3[d]? = some (.lua lci1) := hl4
  rw [hfs3] at hl4b
  have htop4 : lci1.top_ = t2.top + MinStack := by
    cases hc0 : t2.frames[d]? with
    | none =>
      rw [hc0] at hl4b
      cases hl4b
    | some c0 =>
      rw [hc0] at hl4b
      have hf0 := congrArg CallInfo.common (Option.some.inj hl4b)
      rw [mapCommon_common] at hf0
      exact (congrArg CommonCallInfo.top_ hf0).symm
  obtain ⟨_, _, h1, r8⟩ := bind_ok_inv _ _ _ _ _ r7
  clear r7
  cases h1
  obtain ⟨_, t5, h5, r9⟩ := bind_ok_inv _ _ _ _ _ r8
  clear r8
  have e5 := assert_same _ _ _ _ _ h5
  subst e5
  obtain ⟨_, t6, h6, r10⟩ := bind_ok_inv _ _ _ _ _ r9
  clear r9
  cases h6
  obtain ⟨_, t7, h7, r11⟩ := bind_ok_inv _ _ _ _ _ r10
  clear r10
  obtain ⟨fs7, hu7, hfs7⟩ := updateFrame_frame d
    (CallInfo.mapCommon fun c => { c with callStatus_ := c.callStatus_ ||| callStatusHooked })
    { ({ t2 with frames := fs3 } : State) with allowHook := false }
  rw [hu7] at h7
  cases h7
  obtain ⟨_, t8, h8, r12⟩ := bind_ok_inv _ _ _ _ _ r11
  clear r11
  have hfs7b : fs7[d]? = some (.lua
      { lci1 with callStatus_ := lci1.callStatus_ ||| callStatusHooked }) := by
    rw [hfs7]
    show Option.map _ (fs3[d]?) = _
    rw [hl4]
    rfl
  have hsome8 : (t8.frames[d]?).isSome := by
    refine hkeep _ _ _ h8 ?_
    show (fs7[d]?).isSome
    rw [hfs7b]
    rfl
  obtain ⟨c8, hc8⟩ := Option.isSome_iff_exists.mp hsome8
  obtain ⟨_, _, h1, r13⟩ := bind_ok_inv _ _ _ _ _ r12
  clear r12
  cases h1
  obtain ⟨_, t9, h9, r14⟩ := bind_ok_inv _ _ _ _ _ r13
  clear r13
  have e9 := assert_same _ _ _ _ _ h9
  subst e9
  obtain ⟨_, t10, h10, r15⟩ := bind_ok_inv _ _ _ _ _ r14
  clear r14
  cases h10
  obtain ⟨_, t11, h11, r16⟩ := bind_ok_inv _ _ _ _ _ r15
  clear r15
  obtain ⟨fs11, hu11, hfs11⟩ := updateFrame_frame d
    (CallInfo.mapCommon fun c => { c with top_ := ci.top_ })
    { t9 with allowHook := true }
  rw [hu11] at h11
  cases h11
  obtain ⟨_, t12, h12, r17⟩ := bind_ok_inv _ _ _ _ _ r16
  clear r16
  cases h12
  obtain ⟨fs13, hu13, hfs13⟩ := updateFrame_frame d
    (CallInfo.mapCommon fun c =>
      { c with callStatus_ := c.callStatus_ &&& (c.callStatus_ ^^^ callStatusHooked) })
    { ({ ({ t9 with allowHook := true } : State) with frames := fs11 } : State) with top := s.top }
  rw [hu13] at r17
  cases r17
  have hfs11b : fs11[d]? = some (c8.mapCommon fun c => { c with top_ := ci.top_ }) := by
    rw [hfs11]
    show Option.map _ (t9.frames[d]?) = _
    rw [hc8]
    rfl
  have hfs13b : fs13[d]? = some ((c8.mapCommon fun c => { c with top_ := ci.top_ }).mapCommon
      fun c => { c with callStatus_ := c.callStatus_ &&& (c.callStatus_ ^^^ callStatusHooked) }) := by
    rw [hfs13]
    show Option.map _ (fs11[d]?) = _
    rw [hfs11b]
    rfl
  refine ⟨rfl, rfl, ⟨_, hfs13b, ?_, ?_⟩, _, _, _, h8, rfl, rfl, htop2, hfs7b, ?_, ?_⟩
  · rw [mapCommon_common, mapCommon_common]
  · rw [mapCommon_common, mapCommon_common]
    exact hooked_bit_clear _
  · exact htop4
  · exact hooked_bit_set _

theorem keeps_push {β : Type} (proj : State → β)
    (hS : ∀ s x y z, proj { s with stack := x, stackArr := y, stackLast := z } = proj s)
    (hT : ∀ s x, proj { s with top := x } = proj s) (v : Value) : Keeps proj (push v) := by
  unfold push
  refine keeps_bind _ _ _ (keeps_getState _) fun _ => ?_
  refine keeps_bind _ _ _ (keeps_writeStack _ hS _ _) fun _ => ?_
  exact keeps_modify _ _ fun s => hT s _

/-- C14: a hook with no hooker installed, or with `allowHook` false, returns
in the state it was called in, whatever the hooker is.  With a hooker
installed, `allowHook` true and a script frame current, the callback runs in
a state with `allowHook` false, `top` as before, the frame's top at
`top + MinStack` and its hooked bit set; and when the hook returns, `top` and
the frame's top have their values from before the call whatever the callback
did to the stack, `allowHook` is true and the hooked bit of the frame is
clear.  The callback is taken to leave a frame at the depth of that frame. -/
theorem hook_restores (env : Env) (s : State) (event line : Int) :
    (env.hooker = none ∨ s.allowHook = false → hook env event line s = .ok () s) ∧
    (∀ (h : Debug → Exec Unit) (d : Nat) (ci : LuaCallInfo),
      env.hooker = some h → s.allowHook = true →
      s.callInfo = some d → s.frames[d]? = some (.lua ci) →
      (∀ ar t t1, h ar t = .ok () t1 → (t.frames[d]?).isSome → (t1.frames[d]?).isSome) →
      ∀ s1, hook env event line s = .ok () s1 →
        s1.top = s.top ∧ s1.allowHook = true ∧
        (∃ c1, s1.frames[d]? = some c1 ∧ c1.common.top_ = ci.top_ ∧
          c1.common.callStatus_ &&& callStatusHooked = 0) ∧
        ∃ t t1 c, h ⟨event, line, d⟩ t = .ok () t1 ∧ s1.stack = t1.stack ∧
          t.allowHook = false ∧ t.top = s.top ∧ t.frames[d]? = some (.lua c) ∧
          c.top_ = t.top + MinStack ∧
          c.callStatus_ &&& callStatusHooked = callStatusHooked) := by
  constructor
  · intro hoff
    unfold hook
    simp only [bind_run, getState_run]
    cases hk : env.hooker with
    | none => rfl
    | some h =>
      rcases hoff with hnone | hallow
      · rw [hk] at hnone
        cases hnone
      · simp only [hallow, Bool.not_false, if_true, pure_run]
  · intro h d ci hh hallow hcur hci hkeep s1 hrun
    exact hook_ok_inv env s event line h d ci hh hallow hcur hci hkeep s1 hrun

/-- The hook theorem at `state0` with a callback that pushes a number: the
number stays in slot 1, `top` is back at 1 and the frame top at 21. -/
theorem hook_restores_witness :
    (hook envHook HookCall (-1) state0).value = some () ∧
    (hook envHook HookCall (-1) state0).state.top = state0.top ∧
    (hook envHook HookCall (-1) state0).state.allowHook = true ∧
    (hook envHook HookCall (-1) state0).state.stack[1]? = some (.number 1) ∧
    ∃ c1, (hook envHook HookCall (-1) state0).state.frames[0]? = some c1 ∧
      c1.common.top_ = 21 ∧ c1.common.callStatus_ &&& callStatusHooked = 0 := by
  obtain ⟨h1, h2, h3, _⟩ := (hook_restores envHook state0 HookCall (-1)).2
    (fun _ => push (.number 1)) 0 ⟨⟨0, 21, 0, callStatusLua⟩, ⟨1, 1, 20⟩, 0, []⟩
    rfl rfl rfl rfl
    (fun _ t t1 hp hs => by
      have hf : t1.frames = t.frames :=
        keeps_push (fun u : State => u.frames) (fun _ _ _ _ => rfl) (fun _ _ => rfl) _ _ _ _ hp
      rw [hf]
      exact hs)
    _ (ok_of_value _ _ _ (by decide))
  exact ⟨by decide, h1, h2, by decide, h3⟩

/-! ## Access to an upvalue cell and its close -/

/-- C17: for an open cell bound to the stack index `i`, `value()` returns
`stack[i]` and `setValue(v)` writes `v` to `stack[i]` and leaves every other
slot and every cell as they are; for a closed cell, `setValue(v)` leaves the
stack as it is and a following `value()` returns `v`; and `close()` on an
open cell bound to `i` makes `value()` return what `stack[i]` held at the
close, also after a later write to `stack[i]`. -/
theorem upvalue_cell_access (s : State) (e : Nat) :
    (∀ (i : Int) (x : Value), s.cells[e]? = some ⟨.stackLocation i⟩ → idx s.stack i = some x →
      UpValue.value e s = .ok x s ∧
      (∀ v, UpValue.setValue e v s = .ok () { s with stack := s.stack.set i.toNat v } ∧
        idx (s.stack.set i.toNat v) i = some v ∧
        ∀ j : Int, j ≠ i → idx (s.stack.set i.toNat v) j = idx s.stack j) ∧
      UpValue.close e s = .ok () { s with cells := s.cells.set e ⟨.value x⟩ } ∧
      ∀ w, ∃ t, writeStack i w { s with cells := s.cells.set e ⟨.value x⟩ } = .ok () t ∧
        idx t.stack i = some w ∧ UpValue.value e t = .ok x t) ∧
    (∀ v0, s.cells[e]? = some ⟨.value v0⟩ →
      ∀ v, ∃ t, UpValue.setValue e v s = .ok () t ∧ t.stack = s.stack ∧
        UpValue.value e t = .ok v t) := by
  constructor
  · intro i x hc hx
    obtain ⟨hi0, hi1⟩ := idx_some_range _ _ _ hx
    have hlt : e < s.cells.length := getElem?_some_lt _ _ _ hc
    refine ⟨?_, ?_, close_cell_run s e i x hc hx, ?_⟩
    · simp [UpValue.value, bind_run, cell_run s e _ hc, readStack, hx]
    · intro v
      refine ⟨?_, ?_, fun j hj => ?_⟩
      · simp [UpValue.setValue, bind_run, cell_run s e _ hc, writeStack, hi0, hi1]
      · rw [idx_set _ _ _ _ hi0 hi1, if_pos rfl]
      · rw [idx_set _ _ _ _ hi0 hi1, if_neg hj]
    · intro w
      refine ⟨{ s with cells := s.cells.set e ⟨.value x⟩, stack := s.stack.set i.toNat w },
        ?_, ?_, ?_⟩
      · simp [writeStack, hi0, hi1]
      · show idx (s.stack.set i.toNat w) i = some w
        rw [idx_set _ _ _ _ hi0 hi1, if_pos rfl]
      · have hce : (s.cells.set e (⟨.value x⟩ : UpValue))[e]? = some ⟨.value x⟩ := by
          simp [hlt]
        simp [UpValue.value, bind_run, cell, hce]
  · intro v0 hc v
    have hlt : e < s.cells.length := getElem?_some_lt _ _ _ hc
    refine ⟨{ s with cells := s.cells.set e ⟨.value v⟩ }, ?_, rfl, ?_⟩
    · simp [UpValue.setValue, bind_run, cell_run s e _ hc, setCell]
    · have hce : (s.cells.set e (⟨.value v⟩ : UpValue))[e]? = some ⟨.value v⟩ := by
        simp [hlt]
      simp [UpValue.value, bind_run, cell, hce]

/-- The cell-access theorem at `stateCells`: a read through the open cell 0
and a write through the closed cell 1. -/
theorem upvalue_cell_access_witness :
    UpValue.value 0 stateCells = .ok (.number 7) stateCells ∧
    (∃ t, UpValue.setValue 1 (.number 9) stateCells = .ok () t ∧ t.stack = stateCells.stack ∧
      UpValue.value 1 t = .ok (.number 9) t) :=
  ⟨((upvalue_cell_access stateCells 0).1 1 (.number 7) rfl rfl).1,
    (upvalue_cell_access stateCells 1).2 (.number 3) rfl (.number 9)⟩

/-- One operation on a closed cell leaves it closed. -/
theorem isClosed_run (e : Nat) (op : CellOp) (s : State) (h : isClosed s e = true) :
    isClosed (op.run e s) e = true := by
  unfold isClosed at h
  split at h
  · rename_i v hc
    have hlt : e < s.cells.length := getElem?_some_lt _ _ _ hc
    cases op with
    | value =>
      have : UpValue.value e s = .ok v s := by
        simp [UpValue.value, bind_run, cell_run s e _ hc]
      simp only [CellOp.run, this, Outcome.state]
      simp [isClosed, hc]
    | setValue w =>
      have : UpValue.setValue e w s = .ok () { s with cells := s.cells.set e ⟨.value w⟩ } := by
        simp [UpValue.setValue, bind_run, cell_run s e _ hc, setCell]
      simp only [CellOp.run, this, Outcome.state]
      simp [isClosed, hlt]
    | close =>
      have : UpValue.close e s = .panic .closeClosed s := by
        simp [UpValue.close, bind_run, cell_run s e _ hc]
      simp only [CellOp.run, this, Outcome.state]
      simp [isClosed, hc]
  · cases h

theorem isClosed_runCellOps (e : Nat) (ops : List CellOp) (s : State)
    (h : isClosed s e = true) : isClosed (runCellOps e ops s) e = true := by
  induction ops generalizing s with
  | nil => exact h
  | cons op ops ih => exact ih _ (isClosed_run e op s h)

/-- When the loop of `state.close` returns, running it again from the head of
the list it left changes nothing. -/
theorem closeFrom_again (level : Int) : ∀ (l : List Nat) (s s1 : State),
    closeFrom level l s = .ok () s1 → closeFrom level s1.upValues s1 = .ok () s1 := by
  intro l
  induction l with
  | nil =>
    intro s s1 h
    unfold closeFrom at h
    cases h
    rfl
  | cons e rest ih =>
    intro s s1 h
    unfold closeFrom at h
    obtain ⟨c, t, hc, h2⟩ := bind_ok_inv _ _ _ _ _ h
    clear h
    have hcs : s.cells[e]? = some c ∧ t = s := by
      unfold cell at hc
      split at hc
      · rename_i x hx
        cases hc
        exact ⟨hx, rfl⟩
      · cases hc
    obtain ⟨hce, ht⟩ := hcs
    subst ht
    by_cases hb : c.isInStackBelow level = true
    · rw [if_pos hb] at h2
      cases h2
      show closeFrom level (e :: rest) _ = _
      unfold closeFrom
      rw [bind_run]
      have hc2 : cell e { t with upValues := e :: rest } = .ok c { t with upValues := e :: rest } :=
        cell_run _ e c hce
      simp only [modify_run]
      rw [hc2]
      simp only [if_pos hb, modify_run]
    · rw [if_neg hb] at h2
      obtain ⟨_, t2, _, h3⟩ := bind_ok_inv _ _ _ _ _ h2
      exact ih _ _ h3

/-- C18: no sequence of `value`, `setValue` and `close` operations on a
closed cell, with values of the value model, leaves it open; `close()` on a
closed cell fails with the fatal error and leaves the state as it is; and a
second `state.close(L)` right after a first one that returned returns and
changes nothing, the first one returning whenever the open-upvalue list is
well formed. -/
theorem upvalue_close_irreversible (s : State) (e : Nat) (level : Int) :
    (isClosed s e = true → ∀ ops, isClosed (runCellOps e ops s) e = true) ∧
    (isClosed s e = true → UpValue.close e s = .panic .closeClosed s) ∧
    (∀ s1, close level s = .ok () s1 → close level s1 = .ok () s1) ∧
    (RegistryWF s → ∃ s1, close level s = .ok () s1 ∧ close level s1 = .ok () s1) := by
  have hagain : ∀ s1, close level s = .ok () s1 → close level s1 = .ok () s1 := by
    intro s1 h
    unfold close at h ⊢
    simp only [bind_run, getState_run] at h ⊢
    exact closeFrom_again level _ _ _ h
  refine ⟨?_, ?_, hagain, ?_⟩
  · intro h ops
    exact isClosed_runCellOps e ops s h
  · intro h
    unfold isClosed at h
    split at h
    · rename_i v hc
      simp [UpValue.close, bind_run, cell_run s e _ hc]
    · cases h
  · intro hwf
    obtain ⟨s1, h1, _⟩ := close_registryWF level s hwf
    exact ⟨s1, h1, hagain s1 h1⟩

/-- The close theorem at `stateCells`: three operations on the closed cell 1,
and `close(1)` twice. -/
theorem upvalue_close_irreversible_witness :
    isClosed stateCells 1 = true ∧
    isClosed (runCellOps 1 [.setValue (.number 1), .close, .value] stateCells) 1 = true ∧
    UpValue.close 1 stateCells = .panic .closeClosed stateCells ∧
    (close 1 stateCells).value = some () ∧
    isClosed (close 1 stateCells).state 0 = true ∧
    close 1 (close 1 stateCells).state = .ok () (close 1 stateCells).state :=
  ⟨by decide,
    (upvalue_close_irreversible stateCells 1 1).1 (by decide) _,
    (upvalue_close_irreversible stateCells 1 1).2.1 (by decide),
    by decide, by decide,
    (upvalue_close_irreversible stateCells 1 1).2.2.1 _ (ok_of_value _ _ _ (by decide))⟩

/-! ## The nil loop of `preCall` beyond the stack -/

/-- The script-closure case of `preCall` with room for `maxStackSize` and the
`argCount` slots above `top` reaching beyond the stack: the slice
`l.stack[l.top : l.top+argCount]` of the nil loop fails, in the state the
round started in. -/
theorem preCallPass_nil_loop_fails (env : Env) (s : State) (function resultCount : Int)
    (c : Nat) (cl : LuaClosure) (p : Prototype)
    (hf : idx s.stack function = some (.luaClosure c))
    (hcl : s.closures[c]? = some cl) (hp : s.protos[cl.prototype]? = some p)
    (hroom : p.maxStackSize < s.stackLast - s.top)
    (hover : (s.stack.length : Int) < s.top + (s.top - function - 1)) :
    preCallPass env function resultCount s = .panic .sliceBounds s := by
  have hbad : sliceOk s.stack.length s.top (s.top + (s.top - function - 1)) = false := by
    cases h : sliceOk s.stack.length s.top (s.top + (s.top - function - 1)) with
    | false => rfl
    | true =>
      have := (sliceOk_iff _ _ _).mp h
      omega
  unfold preCallPass
  simp only [preCallLua, bind_run, readStack_run s function _ hf, closureAt, hcl, protoAt, hp,
    checkStack_enough env _ s hroom, getState_run, nilStack, hbad, Bool.false_eq_true,
    if_false]

/-- The method `preCall` on a script closure whose `argCount` slots above `top`
reach beyond the stack fails on the slice of the nil loop. -/
theorem preCall_nil_loop_fails (env : Env) (s : State) (function resultCount : Int)
    (c : Nat) (cl : LuaClosure) (p : Prototype)
    (hf : idx s.stack function = some (.luaClosure c))
    (hcl : s.closures[c]? = some cl) (hp : s.protos[cl.prototype]? = some p)
    (hroom : p.maxStackSize < s.stackLast - s.top)
    (hover : (s.stack.length : Int) < s.top + (s.top - function - 1)) :
    preCall env function resultCount s = .panic .sliceBounds s := by
  simp only [preCall, preCallLoop, bind_run,
    preCallPass_nil_loop_fails env s function resultCount c cl p hf hcl hp hroom hover]

/-- C7: a variadic closure with one fixed parameter is called with 22
arguments on the 45-slot stack. `checkStack(maxStackSize)` finds its room, 16
free slots for 3, and `preCall` then fails on the slice
`l.stack[top : top+argCount]` of its nil loop, which ends at 46; no frame is
pushed and the state is as before the call. -/
theorem preCall_vararg_many_arguments_fails :
    idx stateVarArgMany.stack 1 = some (.luaClosure 0) ∧
    protoVarArg.isVarArg = true ∧
    protoVarArg.parameterCount ≤ stateVarArgMany.top - 1 - 1 ∧
    stateVarArgMany.top - 1 - 1 = 22 ∧
    protoVarArg.maxStackSize < stateVarArgMany.stackLast - stateVarArgMany.top ∧
    (stateVarArgMany.stack.length : Int) < stateVarArgMany.top + 22 ∧
    preCall env0 1 0 stateVarArgMany = .panic .sliceBounds stateVarArgMany :=
  ⟨by decide, rfl, by decide, by decide, by decide, by decide,
    preCall_nil_loop_fails env0 stateVarArgMany 1 0 0 ⟨0, []⟩ protoVarArg
      (by decide) rfl rfl (by decide) (by decide)⟩

/-- C8: a table whose "call" tag method is a script closure is called with 21
arguments on the 45-slot stack. The first round of the loop of `preCall`
leaves the tag method at the callee position, the table above it and `top` at
24; the second round takes the script-closure case, finds room for
`maxStackSize`, and fails on the slice `l.stack[top : top+argCount]` of its
nil loop, which ends at 46: `preCall` does not return. -/
theorem preCall_tag_method_many_arguments_fails :
    (envTag (.luaClosure 0)).tagMethodByObject (.table 0) = .luaClosure 0 ∧
    idx stateTableMany.stack 1 = some (.table 0) ∧ stateTableMany.top = 23 ∧
    ∃ s1, preCallPass (envTag (.luaClosure 0)) 1 0 stateTableMany = .ok .again s1 ∧
      idx s1.stack 1 = some (.luaClosure 0) ∧ idx s1.stack 2 = some (.table 0) ∧
      s1.top = 24 ∧ s1.stack.length = 45 ∧
      protoOneParam.maxStackSize < s1.stackLast - s1.top ∧
      preCallPass (envTag (.luaClosure 0)) 1 0 s1 = .panic .sliceBounds s1 ∧
      preCall (envTag (.luaClosure 0)) 1 0 stateTableMany = .panic .sliceBounds s1 := by
  obtain ⟨st, hpass, hlen, hcallee, hmove, _⟩ :=
    preCallPass_redirect (envTag (.luaClosure 0)) stateTableMany 1 0 (.table 0) 0
      (by decide) (fun _ h => by cases h) (fun _ h => by cases h) rfl (by decide) (by decide)
      (by decide)
  have hlen45 : st.length = 45 := by
    rw [hlen]
    decide
  have hfail := preCallPass_nil_loop_fails (envTag (.luaClosure 0))
    { stateTableMany with stack := st, top := stateTableMany.top + 1 } 1 0 0 ⟨0, []⟩
    protoOneParam hcallee rfl rfl
    (by
      show protoOneParam.maxStackSize < stateTableMany.stackLast - (stateTableMany.top + 1)
      decide)
    (by
      show (st.length : Int) < stateTableMany.top + 1 + (stateTableMany.top + 1 - 1 - 1)
      rw [hlen45]
      decide)
  refine ⟨rfl, by decide, by decide, _, hpass, hcallee, ?_, ?_, hlen45, ?_, hfail, ?_⟩
  · rw [hmove 2 (by decide) (by decide)]
    decide
  · show stateTableMany.top + 1 = 24
    decide
  · show protoOneParam.maxStackSize < stateTableMany.stackLast - (stateTableMany.top + 1)
    decide
  · simp only [preCall, preCallLoop, bind_run, hpass, hfail]

end GoLua
